import Mathlib

/-!
# Sound Blaster 16 DSP: command interpreter, format negotiation, ADPCM decoder
# and DMA playback engine

Shallow embedding of `hw/audio/sb16.c`.

* C `int` fields are `Int`; `uint8_t`/`uint32_t` values are `Nat`, truncated with
  an explicit `% 256` wherever the C code converts to `uint8_t`.
* C arrays are total functions from the index to the cell; a store is `setb`.
* C `/` and `%` on `int` are `Int.tdiv` and `Int.tmod` (truncation towards zero).
* The host side (interrupt line, audio sink, ISA DMA controller, timer) is not
  part of `SB16State` in C.  What the device does to it is recorded in the
  fields at the end of `SB16State`; what it answers is taken from a `Host`.
* Log output (`ldebug`, `qemu_log_mask`, `warn_report`) is not modelled.
* A C statement `if (c) s->f = e;` is written as the update
  `{ s with f := if c then e else s.f }`, so that every state is a record of
  field values.
-/

namespace SB16

/-! ## Data model -/

/-- Sample formats used by the device (`AudioFormat`). -/
inductive AudioFormat where
  | U8
  | S8
  | U16
  | S16
  deriving DecidableEq, Repr

/-- Store `v` in cell `i` of a C array. -/
def setb (a : Int → Nat) (i : Int) (v : Nat) : Int → Nat :=
  fun j => if j = i then v else a j

/-- Set line `i` of a family of request lines. -/
def setl (a : Int → Bool) (i : Int) (v : Bool) : Int → Bool :=
  fun j => if j = i then v else a j

/-- C `a << n` on `int`. -/
def shl (a n : Int) : Int := a * 2 ^ n.toNat

/-- C truth value of a comparison. -/
def b2i (b : Bool) : Int := if b then 1 else 0

/-- Answers of the host: audio backend and ISA DMA controller.  The second
argument of `read_memory` and `AUD_write` numbers the calls made within one
callback, so that successive calls may answer differently. -/
structure Host where
  /-- Whether `AUD_open_out` returns a voice. -/
  AUD_open_out : Bool
  /-- Result of `k->read_memory (isa_dma, nchan, buf, pos, len)`: bytes read. -/
  read_memory : Nat → Int → Int → Int
  /-- Guest memory of the DMA ring, by ring position. -/
  mem : Int → Nat
  /-- Result of `AUD_write (voice, buf, size)`: bytes the sink accepted. -/
  AUD_write : Nat → Int → Int

/-- Device state (`struct SB16State`), followed by the observable host side. -/
structure SB16State where
  irq : Nat
  dma : Nat
  hdma : Nat
  port : Nat
  ver : Nat
  in_index : Int
  out_data_len : Int
  fmt_stereo : Int
  fmt_signed : Int
  fmt_bits : Int
  fmt : AudioFormat
  dma_auto : Int
  block_size : Int
  fifo : Int
  freq : Int
  time_const : Int
  speaker : Int
  needed_bytes : Int
  cmd : Int
  use_hdma : Int
  highspeed : Int
  can_write : Int
  v2x6 : Int
  csp_param : Nat
  csp_value : Nat
  csp_mode : Nat
  csp_regs : Int → Nat
  csp_index : Nat
  csp_reg83 : Int → Nat
  csp_reg83r : Int
  csp_reg83w : Int
  in2_data : Int → Nat
  out_data : Int → Nat
  test_reg : Nat
  last_read_byte : Nat
  nzero : Int
  left_till_irq : Int
  dma_running : Int
  bytes_per_second : Int
  align : Int
  audio_free : Int
  /-- True when `s->voice` is not NULL. -/
  voice : Bool
  adpcm_valpred : Int
  adpcm_index : Int
  mixer_nreg : Int
  mixer_regs : Int → Nat
  e2_valadd : Nat
  e2_valxor : Nat
  /-- Level of the interrupt line `s->pic`. -/
  pic : Bool
  /-- Number of `qemu_irq_raise (s->pic)` calls so far. -/
  irq_raises : Nat
  /-- DMA request lines, by channel (`hold_DREQ` / `release_DREQ`). -/
  dreq : Int → Bool
  /-- Last `AUD_set_active_out (s->voice, _)`. -/
  voice_active : Bool
  /-- Total of the byte counts returned by `AUD_write (s->voice, ...)`. -/
  sink_bytes : Int
  /-- Delay of the armed auxiliary timer (`timer_mod (s->aux_ts, now + ticks)`). -/
  aux_timer : Option Int
  /-- Samples `out_samples[]` handed to the sink by the last ADPCM callback. -/
  adpcm_out : List Int

def SAMPLE_RATE_MIN : Int := 5000
def SAMPLE_RATE_MAX : Int := 49716

def DMA8_AUTO : Int := 1
def DMA8_HIGH : Int := 2

/-- The string `e3` without its terminating NUL. -/
def e3 : String := "COPYRIGHT (C) CREATIVE TECHNOLOGY LTD, 1992."

/-- Bytes of the C array `e3[]`, terminating NUL included (`sizeof (e3)` many). -/
def e3_bytes : List Nat := e3.toList.map Char.toNat ++ [0]

/-! ## Host calls -/

def qemu_irq_raise (s : SB16State) : SB16State :=
  { s with pic := true, irq_raises := s.irq_raises + 1 }

def qemu_irq_lower (s : SB16State) : SB16State :=
  { s with pic := false }

def hold_DREQ (s : SB16State) (nchan : Int) : SB16State :=
  { s with dreq := setl s.dreq nchan true }

def release_DREQ (s : SB16State) (nchan : Int) : SB16State :=
  { s with dreq := setl s.dreq nchan false }

/-- Models `AUD_set_active_out (s->voice, active)`; nothing happens without a voice. -/
def AUD_set_active_out (s : SB16State) (active : Bool) : SB16State :=
  { s with voice_active := if s.voice then active else s.voice_active }

/-- Models `s->voice = AUD_open_out (...)`. -/
def AUD_open_out (h : Host) (s : SB16State) : SB16State :=
  { s with voice := h.AUD_open_out }

/-! ## Speaker, DMA control, format negotiation -/

def speaker (s : SB16State) (on_ : Int) : SB16State :=
  { s with speaker := on_ }

def control (s : SB16State) (hold : Int) : SB16State :=
  let nchan : Int := if s.use_hdma ≠ 0 then s.hdma else s.dma
  let s : SB16State := { s with dma_running := hold }
  if hold ≠ 0 then
    let s : SB16State :=
      { s with dreq := if !s.voice then (hold_DREQ s nchan).dreq else s.dreq }
    AUD_set_active_out s true
  else
    let s : SB16State := release_DREQ s nchan
    AUD_set_active_out s false

def continue_dma8 (h : Host) (s : SB16State) : SB16State :=
  let s : SB16State :=
    { s with audio_free := if s.freq > 0 then 0 else s.audio_free,
             voice := if s.freq > 0 then h.AUD_open_out else s.voice }
  control s 1

def restrict_sampling_rate (freq : Int) : Int :=
  if freq < SAMPLE_RATE_MIN then SAMPLE_RATE_MIN
  else if freq > SAMPLE_RATE_MAX then SAMPLE_RATE_MAX
  else freq

def dma_cmd8 (h : Host) (s : SB16State) (mask dma_len : Int) : SB16State :=
  let s : SB16State :=
    { s with fmt := AudioFormat.U8, use_hdma := 0, fmt_bits := 8, fmt_signed := 0,
             fmt_stereo := b2i (s.mixer_regs 0x0e &&& 2 != 0) }
  let s : SB16State :=
    { s with freq :=
        if s.time_const = -1 then
          if s.freq ≤ 0 then 11025 else s.freq
        else
          (1000000 + (256 - s.time_const).tdiv 2).tdiv (256 - s.time_const) }
  let s : SB16State := { s with freq := restrict_sampling_rate s.freq }
  let s : SB16State :=
    { s with block_size :=
        if dma_len ≠ -1 then shl dma_len s.fmt_stereo
        else Int.land s.block_size (~~~ s.fmt_stereo) }
  let s : SB16State := { s with freq := s.freq >>> s.fmt_stereo.toNat }
  let s : SB16State := { s with left_till_irq := s.block_size }
  let s : SB16State := { s with bytes_per_second := shl s.freq s.fmt_stereo }
  let s : SB16State := { s with dma_auto := b2i (Int.land mask DMA8_AUTO != 0) }
  let s : SB16State := { s with align := shl 1 s.fmt_stereo - 1 }
  let s : SB16State := continue_dma8 h s
  speaker s 1

def dma_cmd (h : Host) (s : SB16State) (cmd d0 : Nat) (dma_len : Int) : SB16State :=
  let s : SB16State :=
    { s with use_hdma := b2i (cmd < 0xc0),
             fifo := ((cmd >>> 1) &&& 1 : Nat),
             dma_auto := ((cmd >>> 2) &&& 1 : Nat),
             fmt_signed := ((d0 >>> 4) &&& 1 : Nat),
             fmt_stereo := ((d0 >>> 5) &&& 1 : Nat) }
  let s : SB16State :=
    { s with fmt_bits :=
        if cmd >>> 4 = 11 then 16 else if cmd >>> 4 = 12 then 8 else s.fmt_bits }
  let s : SB16State :=
    { s with freq :=
               if s.time_const ≠ -1 then
                 (1000000 + (256 - s.time_const).tdiv 2).tdiv (256 - s.time_const)
               else s.freq,
             time_const := if s.time_const ≠ -1 then -1 else s.time_const }
  let s : SB16State := { s with block_size := dma_len + 1 }
  let s : SB16State := { s with block_size := shl s.block_size (b2i (s.fmt_bits = 16)) }
  let s : SB16State :=
    { s with block_size :=
        if s.dma_auto = 0 then shl s.block_size s.fmt_stereo else s.block_size }
  let s : SB16State :=
    { s with fmt :=
        if s.fmt_bits = 16 then
          if s.fmt_signed ≠ 0 then AudioFormat.S16 else AudioFormat.U16
        else
          if s.fmt_signed ≠ 0 then AudioFormat.S8 else AudioFormat.U8 }
  let s : SB16State := { s with left_till_irq := s.block_size }
  let s : SB16State :=
    { s with bytes_per_second := shl (shl s.freq s.fmt_stereo) (b2i (s.fmt_bits = 16)) }
  let s : SB16State := { s with highspeed := 0 }
  let s : SB16State := { s with align := shl 1 (s.fmt_stereo + b2i (s.fmt_bits = 16)) - 1 }
  let s : SB16State :=
    { s with audio_free := if s.freq ≠ 0 then 0 else s.audio_free,
             voice := if s.freq ≠ 0 then h.AUD_open_out else s.voice }
  let s : SB16State := control s 1
  speaker s 1

/-! ## Operand and response buffers -/

/-- Pushes a response byte; the response buffer `out_data` has 50 cells. -/
def dsp_out_data (s : SB16State) (val : Nat) : SB16State :=
  let room : Prop := 0 ≤ s.out_data_len ∧ s.out_data_len < 50
  { s with out_data := if room then setb s.out_data s.out_data_len (val % 256) else s.out_data,
           out_data_len := if room then s.out_data_len + 1 else s.out_data_len }

/-- Pops the operand written last; 0 when the operand buffer is empty. -/
def dsp_get_data (s : SB16State) : Nat × SB16State :=
  (if s.in_index ≠ 0 then s.in2_data (s.in_index - 1) else 0,
   { s with in_index := if s.in_index ≠ 0 then s.in_index - 1 else s.in_index })

def dsp_get_lohi (s : SB16State) : Nat × SB16State :=
  let hi : Nat := (dsp_get_data s).1
  let s : SB16State := (dsp_get_data s).2
  let lo : Nat := (dsp_get_data s).1
  let s : SB16State := (dsp_get_data s).2
  (((hi <<< 8) ||| lo) % 65536, s)

def dsp_get_hilo (s : SB16State) : Nat × SB16State :=
  let lo : Nat := (dsp_get_data s).1
  let s : SB16State := (dsp_get_data s).2
  let hi : Nat := (dsp_get_data s).1
  let s : SB16State := (dsp_get_data s).2
  (((hi <<< 8) ||| lo) % 65536, s)

/-! ## Command dispatch -/

/-- First byte of a command: sets the number of operand bytes still needed and
executes commands without operands at once. -/
def command (h : Host) (s : SB16State) (cmd : Nat) : SB16State :=
  let s : SB16State :=
    if cmd > 0xaf ∧ cmd < 0xd0 then
      { s with needed_bytes := 3 }
    else
      let s : SB16State := { s with needed_bytes := 0 }
      match cmd with
      | 0x03 => dsp_out_data s 0x10
      | 0x04 => { s with needed_bytes := 1 }
      | 0x05 => { s with needed_bytes := 2 }
      | 0x08 => s
      | 0x0e => { s with needed_bytes := 2 }
      | 0x09 => dsp_out_data s 0xf8
      | 0x0f => { s with needed_bytes := 1 }
      | 0x10 => { s with needed_bytes := 1 }
      | 0x14 => { s with needed_bytes := 2, block_size := 0 }
      | 0x1c => dma_cmd8 h s DMA8_AUTO (-1)
      | 0x20 => dsp_out_data s 0xff
      | 0x35 => s
      | 0x40 => { s with freq := -1, time_const := -1, needed_bytes := 1 }
      | 0x41 => { s with freq := -1, time_const := -1, needed_bytes := 2 }
      | 0x42 => { s with freq := -1, time_const := -1, needed_bytes := 2 }
      | 0x45 => dsp_out_data s 0xaa
      | 0x47 => s
      | 0x48 => { s with needed_bytes := 2 }
      | 0x74 | 0x75 | 0x76 | 0x77 => { s with needed_bytes := 2 }
      | 0x7d => s
      | 0x7f => s
      | 0x80 => { s with needed_bytes := 2 }
      | 0x90 | 0x91 => dma_cmd8 h s (Int.lor (b2i (cmd &&& 1 == 0)) DMA8_HIGH) (-1)
      | 0xd0 => control s 0
      | 0xd1 => speaker s 1
      | 0xd3 => speaker s 0
      | 0xd4 => continue_dma8 h s
      | 0xd5 => control s 0
      | 0xd6 => control s 1
      | 0xd8 => dsp_out_data s (if s.speaker ≠ 0 then 0xff else 0x00)
      | 0xd9 => { s with dma_auto := 0 }
      | 0xda => { s with dma_auto := 0 }
      | 0xe0 => { s with needed_bytes := 1, out_data_len := 0 }
      | 0xe1 =>
        let s : SB16State := dsp_out_data s (s.ver &&& 0xff)
        dsp_out_data s (s.ver >>> 8)
      | 0xe2 => { s with needed_bytes := 1 }
      | 0xe3 => e3_bytes.reverse.foldl dsp_out_data s
      | 0xe4 => { s with needed_bytes := 1 }
      | 0xe7 => s
      | 0xe8 => dsp_out_data s s.test_reg
      | 0xf2 | 0xf3 =>
        let s : SB16State := dsp_out_data s 0xaa
        let ack : Nat := if cmd = 0xf2 then 1 else 2
        let s : SB16State :=
          { s with mixer_regs := setb s.mixer_regs 0x82 ((s.mixer_regs 0x82 ||| ack) % 256) }
        qemu_irq_raise s
      | 0xf9 => { s with needed_bytes := 1 }
      | 0xfa => dsp_out_data s 0
      | 0xfc => dsp_out_data s 0
      | _ => s
  { s with cmd := if s.needed_bytes = 0 then -1 else cmd }

/-! ## ADPCM decoder -/

def index_table : List Int :=
  [-1, -1, -1, -1, 2, 4, 6, 8,
   -1, -1, -1, -1, 2, 4, 6, 8]

def step_table : List Int :=
  [7, 8, 9, 10, 11, 12, 13, 14, 16, 17, 19, 21, 23, 25, 28, 31, 34, 37, 41, 45,
   50, 55, 60, 66, 73, 80, 88, 97, 107, 118, 130, 143, 157, 173, 190, 209, 230,
   253, 279, 307, 337, 371, 408, 449, 494, 544, 598, 658, 724, 796, 876, 963,
   1060, 1166, 1282, 1411, 1552, 1707, 1878, 2066, 2272, 2499, 2749, 3024, 3327,
   3660, 4026, 4428, 4871, 5358, 5894, 6484, 7132, 7845, 8630, 9493, 10442, 11487,
   12635, 13899, 15289, 16818, 18500, 20350, 22385, 24623, 27086, 29794, 32767]

/-- C conversion `(int8_t) x`. -/
def to_int8 (x : Int) : Int := (x + 128) % 256 - 128

/-- C conversion `(int16_t) x`. -/
def to_int16 (x : Int) : Int := (x + 32768) % 65536 - 32768

/-- The `diff` computed by `decode_adpcm_4bit` from the step size and the code. -/
def adpcm_diff (step : Int) (code : Nat) : Int :=
  let diff : Int := step >>> 3
  let diff : Int := if code &&& 4 ≠ 0 then diff + step else diff
  let diff : Int := if code &&& 2 ≠ 0 then diff + (step >>> 1) else diff
  let diff : Int := if code &&& 1 ≠ 0 then diff + (step >>> 2) else diff
  diff

/-- The predictor update of `decode_adpcm_4bit`: add or subtract, then clamp. -/
def adpcm_next_valpred (valpred diff : Int) (code : Nat) : Int :=
  let valpred : Int := if code &&& 8 ≠ 0 then valpred - diff else valpred + diff
  if valpred > 32767 then 32767
  else if valpred < -32768 then -32768
  else valpred

/-- The step index update of `decode_adpcm_4bit`: adjust, then clamp. -/
def adpcm_next_index (index adj : Int) : Int :=
  let index : Int := index + adj
  if index < 0 then 0
  else if index > 88 then 88
  else index

/-- Decode one 4-bit code.  The result is `none` when a table is read outside
its bounds (`step_table[s->adpcm_index]`, `index_table[code]`). -/
def decode_adpcm_4bit (code : Nat) (s : SB16State) : Option (Int × SB16State) :=
  if 0 ≤ s.adpcm_index then
    match step_table[s.adpcm_index.toNat]?, index_table[code]? with
    | some step, some adj =>
      let diff : Int := adpcm_diff step code
      let s : SB16State :=
        { s with adpcm_valpred := adpcm_next_valpred s.adpcm_valpred diff code }
      let s : SB16State := { s with adpcm_index := adpcm_next_index s.adpcm_index adj }
      some (to_int16 s.adpcm_valpred, s)
    | _, _ => none
  else none

/-- Decodes a sequence of 4-bit codes, threading the codec state. -/
def decode_adpcm_codes : List Nat → SB16State → Option (List Int × SB16State)
  | [], s => some ([], s)
  | c :: cs, s =>
    match decode_adpcm_4bit c s with
    | none => none
    | some (a, s) =>
      match decode_adpcm_codes cs s with
      | none => none
      | some (out, s) => some (a :: out, s)

/-- Codec state invariant: predictor in the 16-bit signed range, step index
within the step table. -/
def codec_inv (s : SB16State) : Prop :=
  -32768 ≤ s.adpcm_valpred ∧ s.adpcm_valpred ≤ 32767 ∧ 0 ≤ s.adpcm_index ∧ s.adpcm_index ≤ 88

/-! ## Command completion -/

/-- Runs once all operand bytes of `s.cmd` have been collected. -/
def complete (h : Host) (s : SB16State) : SB16State :=
  if s.cmd > 0xaf ∧ s.cmd < 0xd0 then
    let d2 : Nat := (dsp_get_data s).1
    let s : SB16State := (dsp_get_data s).2
    let d1 : Nat := (dsp_get_data s).1
    let s : SB16State := (dsp_get_data s).2
    let d0 : Nat := (dsp_get_data s).1
    let s : SB16State := (dsp_get_data s).2
    if Int.land s.cmd 8 ≠ 0 then
      let s : SB16State := { s with use_hdma := b2i (s.cmd < 0xc0) }
      let s : SB16State := { s with fmt_bits := if s.cmd >>> 4 = 11 then 16 else 8 }
      let s : SB16State :=
        { s with fmt_signed := ((d0 >>> 4) &&& 1 : Nat), fmt_stereo := ((d0 >>> 5) &&& 1 : Nat) }
      let s : SB16State :=
        { s with block_size := shl ((d1 : Int) + (d2 <<< 8 : Nat) + 1) (b2i (s.fmt_bits = 16)) }
      let s : SB16State := control s 1
      { s with cmd := -1 }
    else
      let s : SB16State := dma_cmd h s (s.cmd.toNat % 256) d0 ((d1 : Int) + (d2 <<< 8 : Nat))
      { s with cmd := -1 }
  else if s.cmd = 0x04 then
    let d : Nat := (dsp_get_data s).1
    let s : SB16State := (dsp_get_data s).2
    { s with csp_mode := d, csp_reg83r := 0, csp_reg83w := 0, cmd := -1 }
  else if s.cmd = 0x05 then
    let p : Nat := (dsp_get_data s).1
    let s : SB16State := (dsp_get_data s).2
    let v : Nat := (dsp_get_data s).1
    let s : SB16State := (dsp_get_data s).2
    { s with csp_param := p, csp_value := v, cmd := -1 }
  else if s.cmd = 0x0e then
    let d0 : Nat := (dsp_get_data s).1
    let s : SB16State := (dsp_get_data s).2
    let d1 : Nat := (dsp_get_data s).1
    let s : SB16State := (dsp_get_data s).2
    if d1 = 0x83 then
      { s with csp_reg83 := setb s.csp_reg83 (s.csp_reg83r.tmod 4) (d0 % 256),
               csp_reg83r := s.csp_reg83r + 1, cmd := -1 }
    else
      { s with csp_regs := setb s.csp_regs d1 (d0 % 256), cmd := -1 }
  else if s.cmd = 0x0f then
    let d0 : Nat := (dsp_get_data s).1
    let s : SB16State := (dsp_get_data s).2
    if d0 = 0x83 then
      let s : SB16State := dsp_out_data s (s.csp_reg83 (s.csp_reg83w.tmod 4))
      { s with csp_reg83w := s.csp_reg83w + 1, cmd := -1 }
    else
      let s : SB16State := dsp_out_data s (s.csp_regs d0)
      { s with cmd := -1 }
  else if s.cmd = 0x10 then
    let s : SB16State := (dsp_get_data s).2
    if s.speaker ≠ 0 then
      let s : SB16State := AUD_set_active_out s true
      { s with sink_bytes := s.sink_bytes + h.AUD_write 0 1, cmd := -1 }
    else
      { s with cmd := -1 }
  else if s.cmd = 0x14 then
    let d : Nat := (dsp_get_lohi s).1
    let s : SB16State := (dsp_get_lohi s).2
    let s : SB16State := dma_cmd8 h s 0 ((d : Int) + 1)
    { s with cmd := -1 }
  else if s.cmd = 0x40 then
    let d : Nat := (dsp_get_data s).1
    let s : SB16State := (dsp_get_data s).2
    { s with time_const := d, cmd := -1 }
  else if s.cmd = 0x41 ∨ s.cmd = 0x42 then
    let d : Nat := (dsp_get_hilo s).1
    let s : SB16State := (dsp_get_hilo s).2
    { s with freq := restrict_sampling_rate d, highspeed := 1, cmd := -1 }
  else if s.cmd = 0x48 then
    let d : Nat := (dsp_get_lohi s).1
    let s : SB16State := (dsp_get_lohi s).2
    let s : SB16State := { s with block_size := (d : Int) + 1 }
    { s with left_till_irq := s.block_size, cmd := -1 }
  else if s.cmd = 0x74 then
    let d0 : Nat := (dsp_get_lohi s).1
    let s : SB16State := (dsp_get_lohi s).2
    let s : SB16State := { s with block_size := (d0 : Int) + 1 }
    let q : Nat := (dsp_get_data s).1
    let s : SB16State := (dsp_get_data s).2
    let s : SB16State := { s with adpcm_valpred := shl (to_int8 q) 8, adpcm_index := 0 }
    let s : SB16State := control s 1
    { s with cmd := -1 }
  else if s.cmd = 0x75 ∨ s.cmd = 0x76 ∨ s.cmd = 0x77 then
    let s : SB16State := (dsp_get_lohi s).2
    { s with cmd := -1 }
  else if s.cmd = 0x80 then
    let freq : Int := if s.freq > 0 then s.freq else 11025
    let d : Nat := (dsp_get_lohi s).1
    let s : SB16State := (dsp_get_lohi s).2
    let samples : Int := (d : Int) + 1
    let bytes : Int := shl (shl samples s.fmt_stereo) (b2i (s.fmt_bits = 16))
    let ticks : Int := (bytes * 1000000000).tdiv freq
    if ticks < (1000000000 : Int).tdiv 1024 then
      let s : SB16State := qemu_irq_raise s
      { s with cmd := -1 }
    else
      -- `s->aux_ts` is created by `sb16_realizefn`
      { s with aux_timer := some ticks, cmd := -1 }
  else if s.cmd = 0xd8 then
    dsp_out_data s (if s.speaker ≠ 0 then 0xff else 0x00)
  else if s.cmd = 0xe0 then
    let d0 : Nat := (dsp_get_data s).1
    let s : SB16State := (dsp_get_data s).2
    let s : SB16State := { s with out_data_len := 0 }
    -- `~d0` as a byte
    let s : SB16State := dsp_out_data s (d0 ^^^ 0xff)
    { s with cmd := -1 }
  else if s.cmd = 0xe2 then
    let d0 : Nat := (dsp_get_data s).1
    let s : SB16State := (dsp_get_data s).2
    let s : SB16State :=
      { s with e2_valadd := (s.e2_valadd + ((d0 % 256) ^^^ s.e2_valxor)) % 256 }
    let s : SB16State :=
      { s with e2_valxor := ((s.e2_valxor >>> 2) ||| (s.e2_valxor <<< 6)) % 256 }
    { s with cmd := -1 }
  else if s.cmd = 0xe4 then
    let d : Nat := (dsp_get_data s).1
    let s : SB16State := (dsp_get_data s).2
    { s with test_reg := d, cmd := -1 }
  else if s.cmd = 0xf9 then
    let d0 : Nat := (dsp_get_data s).1
    let s : SB16State := (dsp_get_data s).2
    let s : SB16State :=
      dsp_out_data s
        (if d0 = 0x0e then 0xff else if d0 = 0x0f then 0x07 else if d0 = 0x37 then 0x38 else 0x00)
    { s with cmd := -1 }
  else
    s

/-! ## Reset -/

def legacy_reset (h : Host) (s : SB16State) : SB16State :=
  let s : SB16State := { s with freq := 11025, fmt_signed := 0, fmt_bits := 8, fmt_stereo := 0 }
  let s : SB16State := { s with audio_free := 0 }
  AUD_open_out h s

def reset (h : Host) (s : SB16State) : SB16State :=
  let s : SB16State := qemu_irq_lower s
  let s : SB16State :=
    { s with irq_raises := if s.dma_auto ≠ 0 then (qemu_irq_raise s).irq_raises else s.irq_raises,
             pic := if s.dma_auto ≠ 0 then (qemu_irq_lower (qemu_irq_raise s)).pic else s.pic }
  let s : SB16State :=
    { s with mixer_regs := setb s.mixer_regs 0x82 0,
             dma_auto := 0, in_index := 0, out_data_len := 0, left_till_irq := 0,
             needed_bytes := 0, block_size := -1, nzero := 0, highspeed := 0,
             v2x6 := 0, cmd := -1, e2_valadd := 0xaa, e2_valxor := 0x96 }
  let s : SB16State := dsp_out_data s 0xaa
  let s : SB16State := speaker s 0
  let s : SB16State := control s 0
  legacy_reset h s

/-! ## Port handlers -/

def dsp_write (h : Host) (s : SB16State) (nport val : Nat) : SB16State :=
  let iport : Int := (nport : Int) - s.port
  if iport = 0x06 then
    if val = 0x00 then
      if s.v2x6 = 1 then
        let s : SB16State := reset h s
        { s with v2x6 := 0 }
      else
        { s with v2x6 := 0 }
    else if val = 0x01 ∨ val = 0x03 then
      { s with v2x6 := 1 }
    else if val = 0xc6 then
      { s with v2x6 := 0 }
    else if val = 0xb8 then
      reset h s
    else if val = 0x39 then
      let s : SB16State := dsp_out_data s 0x38
      let s : SB16State := reset h s
      { s with v2x6 := 0x39 }
    else
      { s with v2x6 := val }
  else if iport = 0x0c then
    if s.needed_bytes = 0 then
      command h s (val % 256)
    else
      if s.in_index = 10 then s
      else
        let s : SB16State :=
          { s with in2_data := setb s.in2_data s.in_index (val % 256),
                   in_index := s.in_index + 1 }
        if s.in_index = s.needed_bytes then
          complete h { s with needed_bytes := 0 }
        else s
  else s

def dsp_read (s : SB16State) (nport : Nat) : Nat × SB16State :=
  let iport : Int := (nport : Int) - s.port
  if iport = 0x06 then (0xff, s)
  else if iport = 0x0a then
    if s.out_data_len ≠ 0 then
      let s : SB16State := { s with out_data_len := s.out_data_len - 1 }
      let retval : Nat := s.out_data s.out_data_len
      (retval, { s with last_read_byte := retval })
    else
      (s.last_read_byte, s)
  else if iport = 0x0c then
    (if s.can_write ≠ 0 then 0 else 0x80, s)
  else if iport = 0x0d then (0, s)
  else if iport = 0x0e then
    let retval : Nat := if s.out_data_len = 0 ∨ s.highspeed ≠ 0 then 0 else 0x80
    if s.mixer_regs 0x82 &&& 1 ≠ 0 then
      let s : SB16State :=
        { s with mixer_regs := setb s.mixer_regs 0x82 (s.mixer_regs 0x82 &&& 0xfe) }
      (retval, qemu_irq_lower s)
    else (retval, s)
  else if iport = 0x0f then
    if s.mixer_regs 0x82 &&& 2 ≠ 0 then
      let s : SB16State :=
        { s with mixer_regs := setb s.mixer_regs 0x82 (s.mixer_regs 0x82 &&& 0xfd) }
      (0xff, qemu_irq_lower s)
    else (0xff, s)
  else (0xff, s)

/-! ## DMA playback engine -/

/-- The `while (temp)` loop of `write_audio`; `k` numbers the iteration and the
result is `net`.  It is `none` when the fuel runs out or `dma_len` is zero. -/
def write_audio_loop (h : Host) (dma_len : Int) : Nat → Nat → Int → Int → Int → Option Int
  | 0, _, _, _, _ => none
  | fuel + 1, k, temp, dma_pos, net =>
    if temp = 0 then some net
    else
      let left : Int := dma_len - dma_pos
      -- `size_t to_copy`
      let to_copy : Int := (min temp left) % 2 ^ 64
      let to_copy : Int := if to_copy > 4096 then 4096 else to_copy
      let copied : Int := h.read_memory k dma_pos to_copy
      let copied : Int := h.AUD_write k copied
      if dma_len = 0 then none
      else
        let temp : Int := temp - copied
        let dma_pos : Int := (dma_pos + copied).tmod dma_len
        let net : Int := net + copied
        if copied = 0 then some net
        else write_audio_loop h dma_len fuel (k + 1) temp dma_pos net

def write_audio (h : Host) (fuel : Nat) (dma_pos dma_len len : Int) : Option Int :=
  write_audio_loop h dma_len fuel 0 len dma_pos 0

/-- Body of the decoding loop of `SB_read_DMA` for one input byte `x`. -/
def decode_adpcm_byte (x : Nat) (s : SB16State) : Option (List Int × SB16State) :=
  match decode_adpcm_4bit (x >>> 4) s with
  | none => none
  | some (a, s) =>
    match decode_adpcm_4bit (x &&& 0x0f) s with
    | none => none
    | some (b, s) => some ([a, b], s)

/-- The decoding loop of `SB_read_DMA` over the bytes read from the ring. -/
def decode_adpcm_bytes : List Nat → SB16State → Option (List Int × SB16State)
  | [], s => some ([], s)
  | x :: xs, s =>
    match decode_adpcm_byte x s with
    | none => none
    | some (out, s) =>
      match decode_adpcm_bytes xs s with
      | none => none
      | some (outs, s) => some (out ++ outs, s)

/-- The block-boundary part of `SB_read_DMA`, after the counters were updated. -/
def SB_read_DMA_irq (s : SB16State) (nchan : Int) : SB16State :=
  if s.left_till_irq ≤ 0 then
    let ack : Nat := if Int.land nchan 4 ≠ 0 then 2 else 1
    let s : SB16State :=
      { s with mixer_regs := setb s.mixer_regs 0x82 ((s.mixer_regs 0x82 ||| ack) % 256) }
    let s : SB16State := qemu_irq_raise s
    let s : SB16State :=
      { s with left_till_irq :=
                 if s.block_size > 0 then s.block_size + s.left_till_irq.tmod s.block_size
                 else 1024,
               block_size := if s.block_size > 0 then s.block_size else 1024 }
    if s.dma_auto = 0 then speaker (control s 0) 0 else s
  else s

/-- Playback callback of the DMA controller.  Returns the new ring position;
`none` when the copy loop runs out of fuel, `dma_len` is zero or the decoder
reads outside its tables. -/
def SB_read_DMA (h : Host) (fuel : Nat) (s : SB16State) (nchan dma_pos dma_len : Int) :
    Option (SB16State × Int) :=
  if s.block_size ≤ 0 then some (s, dma_pos)
  else
    let s : SB16State :=
      { s with left_till_irq := if s.left_till_irq < 0 then s.block_size else s.left_till_irq }
    let free : Int := if s.voice then Int.land s.audio_free (~~~ s.align) else dma_len
    if s.voice ∧ free ≤ 0 then some (release_DREQ s nchan, dma_pos)
    else
      let copy : Int := free
      let till : Int := s.left_till_irq
      let to_copy : Int := min copy till
      let to_copy : Int := min to_copy (dma_len - dma_pos)
      let r : Option (Int × SB16State) :=
        if s.cmd = 0x74 then
          let to_copy : Int := if to_copy > 1024 then 1024 else to_copy
          let adpcm_copied : Int := h.read_memory 0 dma_pos to_copy
          let adpcm_data : List Nat :=
            (List.range adpcm_copied.toNat).map (fun i => h.mem (dma_pos + i) % 256)
          match decode_adpcm_bytes adpcm_data s with
          | none => none
          | some (out, s) =>
            let bytes_out : Int := h.AUD_write 0 (adpcm_copied * 4)
            some (bytes_out.tdiv 4,
                  { s with adpcm_out := out, sink_bytes := s.sink_bytes + bytes_out })
        else
          match write_audio h fuel dma_pos dma_len to_copy with
          | none => none
          | some net => some (net, { s with sink_bytes := s.sink_bytes + net })
      match r with
      | none => none
      | some (written, s) =>
        if dma_len = 0 then none
        else
          let ref_byte : Nat := h.mem dma_pos % 256
          let dma_pos : Int := if s.cmd = 0x75 then (dma_pos + 1).tmod dma_len else dma_pos
          let s : SB16State :=
            { s with adpcm_valpred :=
                       if s.cmd = 0x75 then to_int16 (shl ((ref_byte : Int) - 128) 8)
                       else s.adpcm_valpred,
                     adpcm_index := if s.cmd = 0x75 then 0 else s.adpcm_index,
                     cmd := if s.cmd = 0x75 then 0x74 else s.cmd }
          let dma_pos : Int := (dma_pos + written).tmod dma_len
          let s : SB16State :=
            { s with left_till_irq := s.left_till_irq - written,
                     audio_free := s.audio_free - written }
          some (SB_read_DMA_irq s nchan, dma_pos)

def SB_audio_callback (s : SB16State) (free : Int) : SB16State :=
  let nchan : Int := if s.use_hdma ≠ 0 then s.hdma else s.dma
  hold_DREQ { s with audio_free := free } nchan

/-- Writes to the command port `base + 0x0C`, in order. -/
def dsp_write_cmds (h : Host) (s : SB16State) (vals : List Nat) : SB16State :=
  vals.foldl (fun s v => dsp_write h s (s.port + 0x0c) v) s

/-- Successive reads of the response port `base + 0x0A`: the bytes read, in
order, and the state afterwards. -/
def dsp_read_data : Nat → SB16State → List Nat × SB16State
  | 0, s => ([], s)
  | n + 1, s =>
    let r := dsp_read s (s.port + 0x0a)
    let rest := dsp_read_data n r.2
    (r.1 :: rest.1, rest.2)

/-- Pending response bytes, oldest first: `out_data[0 .. out_data_len - 1]`. -/
def out_stack (s : SB16State) : List Nat :=
  (List.range s.out_data_len.toNat).map (fun (i : Nat) => s.out_data (i : Int))

/-- One playback callback, after the audio backend has reported `free` bytes of
room through `SB_audio_callback` (when `free` is given). -/
def playback_step (h : Host) (fuel : Nat) (nchan dma_len : Int) (free : Option Int)
    (sp : SB16State × Int) : Option (SB16State × Int) :=
  match free with
  | some f => SB_read_DMA h fuel (SB_audio_callback sp.1 f) nchan sp.2 dma_len
  | none => SB_read_DMA h fuel sp.1 nchan sp.2 dma_len

/-- A run of playback callbacks on one channel; the ring position returned by
one callback is handed to the next. -/
def playback_run (h : Host) (fuel : Nat) (nchan dma_len : Int) :
    List (Option Int) → SB16State × Int → Option (SB16State × Int)
  | [], sp => some sp
  | f :: fs, sp =>
    match playback_step h fuel nchan dma_len f sp with
    | none => none
    | some sp1 => playback_run h fuel nchan dma_len fs sp1

/-- A host whose DMA controller and sink take every byte they are offered. -/
def accepts_all (h : Host) : Prop :=
  (∀ k pos len, h.read_memory k pos len = len) ∧ (∀ k size, h.AUD_write k size = size)

/-- The difference for a 4-bit code in the words of the specification:
`step>>3`, plus `step`, `step>>1`, `step>>2` according to bits 2, 1, 0. -/
def spec_adpcm_diff (step : Int) (c : Nat) : Int :=
  (step >>> 3) + (if c.testBit 2 then step else 0) + (if c.testBit 1 then step >>> 1 else 0)
    + (if c.testBit 0 then step >>> 2 else 0)

/-- The new predictor in the words of the specification: subtract `diff` if bit
3 of the code is set, else add, and clamp to the 16-bit signed range. -/
def spec_adpcm_predictor (p step : Int) (c : Nat) : Int :=
  max (-32768) (min 32767
    (if c.testBit 3 then p - spec_adpcm_diff step c else p + spec_adpcm_diff step c))

/-! ## Mixer reset and the state after device realisation -/

def magic_of_irq (irq : Int) : Nat :=
  if irq = 5 then 2
  else if irq = 7 then 4
  else if irq = 9 then 1
  else if irq = 10 then 8
  else 2

def reset_mixer (s : SB16State) : SB16State :=
  -- the two `memset`s
  let regs : Int → Nat := fun j =>
    if (0 ≤ j ∧ j < 0x7f) ∨ (0x83 ≤ j ∧ j < 0x100) then 0xff else s.mixer_regs j
  let regs : Int → Nat := setb regs 0x02 4
  let regs : Int → Nat := setb regs 0x06 4
  let regs : Int → Nat := setb regs 0x08 0
  let regs : Int → Nat := setb regs 0x0a 0
  let regs : Int → Nat := setb regs 0x0c 0
  let regs : Int → Nat := setb regs 0x0e 0
  let regs : Int → Nat := setb regs 0x04 ((4 <<< 5) ||| (4 <<< 1))
  let regs : Int → Nat := setb regs 0x22 ((4 <<< 5) ||| (4 <<< 1))
  let regs : Int → Nat := setb regs 0x26 ((4 <<< 5) ||| (4 <<< 1))
  -- `for (i = 0x30; i < 0x48; i++) s->mixer_regs[i] = 0x20;`
  let regs : Int → Nat := fun j => if 0x30 ≤ j ∧ j < 0x48 then 0x20 else regs j
  { s with mixer_regs := regs }

/-- The zero-filled object after `sb16_initfn`, with the default properties
(version 4.5, base 0x220, irq 5, dma 1, dma16 5). -/
def sb16_initfn : SB16State :=
  { irq := 5, dma := 1, hdma := 5, port := 0x220, ver := 0x0405,
    in_index := 0, out_data_len := 0, fmt_stereo := 0, fmt_signed := 0, fmt_bits := 0,
    fmt := AudioFormat.U8, dma_auto := 0, block_size := 0, fifo := 0, freq := 0,
    time_const := 0, speaker := 0, needed_bytes := 0, cmd := -1, use_hdma := 0,
    highspeed := 0, can_write := 0, v2x6 := 0,
    csp_param := 0, csp_value := 0, csp_mode := 0, csp_regs := fun _ => 0, csp_index := 0,
    csp_reg83 := fun _ => 0, csp_reg83r := 0, csp_reg83w := 0,
    in2_data := fun _ => 0, out_data := fun _ => 0, test_reg := 0, last_read_byte := 0,
    nzero := 0, left_till_irq := 0, dma_running := 0, bytes_per_second := 0, align := 0,
    audio_free := 0, voice := false, adpcm_valpred := 0, adpcm_index := 0,
    mixer_nreg := 0, mixer_regs := fun _ => 0, e2_valadd := 0, e2_valxor := 0,
    pic := false, irq_raises := 0, dreq := fun _ => false, voice_active := false,
    sink_bytes := 0, aux_timer := none, adpcm_out := [] }

/-- State changes of `sb16_realizefn` (the registration of ports, DMA channels
and the OPL voice is on the host side). -/
def sb16_realizefn (s : SB16State) : SB16State :=
  let regs : Int → Nat := setb s.mixer_regs 0x80 (magic_of_irq s.irq)
  let regs : Int → Nat := setb regs 0x81 (((1 <<< s.dma) ||| (1 <<< s.hdma)) % 256)
  let regs : Int → Nat := setb regs 0x82 0x00
  let s : SB16State := { s with mixer_regs := regs }
  let s : SB16State :=
    { s with csp_regs := setb (setb s.csp_regs 5 1) 9 0xf8,
             align := if s.fmt_bits = 16 then 1 else 0 }
  let s : SB16State := reset_mixer s
  { s with can_write := 1 }

/-- The device as the guest first sees it. -/
def sb16_realized : SB16State := sb16_realizefn sb16_initfn

/-- A host whose DMA controller and audio sink take every byte offered. -/
def ideal_host : Host :=
  { AUD_open_out := true,
    read_memory := fun _ _ len => len,
    mem := fun _ => 0,
    AUD_write := fun _ size => size }

/-! ## Mixer ports -/

def irq_of_magic (magic : Int) : Int :=
  if magic = 1 then 9
  else if magic = 2 then 5
  else if magic = 4 then 7
  else if magic = 8 then 10
  else -1

/-- Number of trailing zero bits of a 32-bit value (`ctz32` of the host
utilities), 32 for zero. -/
def ctz32 (val : Nat) : Nat :=
  ((List.range 32).find? (fun i => val.testBit i)).getD 32

def mixer_write_indexb (s : SB16State) (val : Nat) : SB16State :=
  { s with mixer_nreg := val }

/-- Write to the mixer data port.  The calls `sb16_update_opl_volume` and
`sb16_update_voice_volume` that close every case but 0x82 set gains in the
audio backend and write no field of the state; case 0x82 returns before them.
The re-binding of `isa_dma` and `isa_hdma` in case 0x81 is on the host side. -/
def mixer_write_datab (s : SB16State) (val : Nat) : SB16State :=
  if s.mixer_nreg = 0x00 then reset_mixer s
  else if s.mixer_nreg = 0x04 then
    let regs : Int → Nat := setb s.mixer_regs 0x04 (val % 256)
    let regs : Int → Nat := setb regs 0x32 ((val &&& 0xf0) % 256)
    let regs : Int → Nat := setb regs 0x33 (((val &&& 0x0f) <<< 4) % 256)
    { s with mixer_regs := regs }
  else if s.mixer_nreg = 0x22 then
    let regs : Int → Nat := setb s.mixer_regs 0x22 (val % 256)
    let regs : Int → Nat := setb regs 0x30 ((val &&& 0xf0) % 256)
    let regs : Int → Nat := setb regs 0x31 (((val &&& 0x0f) <<< 4) % 256)
    { s with mixer_regs := regs }
  else if s.mixer_nreg = 0x26 then
    let regs : Int → Nat := setb s.mixer_regs 0x26 (val % 256)
    let regs : Int → Nat := setb regs 0x34 ((val &&& 0xf0) % 256)
    let regs : Int → Nat := setb regs 0x35 (((val &&& 0x0f) <<< 4) % 256)
    { s with mixer_regs := regs }
  else if 0x30 ≤ s.mixer_nreg ∧ s.mixer_nreg ≤ 0x35 then
    let regs : Int → Nat := setb s.mixer_regs s.mixer_nreg (val % 256)
    let regs : Int → Nat :=
      setb regs 0x22 (((regs 0x30 &&& 0xf0) ||| (regs 0x31 >>> 4)) % 256)
    let regs : Int → Nat :=
      setb regs 0x04 (((regs 0x32 &&& 0xf0) ||| (regs 0x33 >>> 4)) % 256)
    let regs : Int → Nat :=
      setb regs 0x26 (((regs 0x34 &&& 0xf0) ||| (regs 0x35 >>> 4)) % 256)
    { s with mixer_regs := regs }
  else if s.mixer_nreg = 0x80 then
    let irq : Int := irq_of_magic val
    { s with irq := if irq > 0 then irq.toNat else s.irq }
  else if s.mixer_nreg = 0x81 then
    let dma : Nat := ctz32 (val &&& 0xf)
    let hdma : Nat := ctz32 (val &&& 0xf0)
    { s with dma := if dma ≠ s.dma ∨ hdma ≠ s.hdma then dma else s.dma,
             hdma := if dma ≠ s.dma ∨ hdma ≠ s.hdma then hdma else s.hdma }
  else if s.mixer_nreg = 0x82 then s
  else
    { s with mixer_regs := setb s.mixer_regs s.mixer_nreg (val % 256) }

def mixer_read (s : SB16State) : Nat :=
  s.mixer_regs s.mixer_nreg

/-- Case labels of the `switch (cmd)` in `command`. -/
def command_cases : List Nat :=
  [0x03, 0x04, 0x05, 0x08, 0x0e, 0x09, 0x0f, 0x10, 0x14, 0x1c, 0x20, 0x35, 0x40, 0x41, 0x42,
   0x45, 0x47, 0x48, 0x74, 0x75, 0x76, 0x77, 0x7d, 0x7f, 0x80, 0x90, 0x91, 0xd0, 0xd1, 0xd3,
   0xd4, 0xd5, 0xd6, 0xd8, 0xd9, 0xda, 0xe0, 0xe1, 0xe2, 0xe3, 0xe4, 0xe7, 0xe8, 0xf2, 0xf3,
   0xf9, 0xfa, 0xfc]

/-- A host whose DMA read and sink write each return between 0 and the
requested count. -/
def bounded_host (h : Host) : Prop :=
  (∀ k pos len, 0 ≤ len → 0 ≤ h.read_memory k pos len ∧ h.read_memory k pos len ≤ len) ∧
  (∀ k size, 0 ≤ size → 0 ≤ h.AUD_write k size ∧ h.AUD_write k size ≤ size)

/-! ## Volume -/

/-- The gain table `sb16_log_vol[32]`. -/
def sb16_log_vol : List Nat :=
  [0, 2, 5, 8, 12, 16, 20, 25,
   31, 38, 46, 54, 63, 73, 84, 96,
   108, 122, 136, 152, 168, 185, 203, 222,
   242, 255, 255, 255, 255, 255, 255, 255]

/-- The 5-bit volume index `(r >> 3) & 0x1f` of a mixer register value. -/
def vol_idx (r : Nat) : Nat := (r >>> 3) &&& 0x1f

/-- The gains `vol.vol[0]`, `vol.vol[1]` that `sb16_update_voice_volume` hands to
`AUD_set_volume_out`; nothing is set without a voice.  The index is masked to
five bits, so the table is read within its 32 entries. -/
def sb16_update_voice_volume (s : SB16State) : Option (Int × Int) :=
  if !s.voice then none
  else
    let ml_idx : Nat := vol_idx (s.mixer_regs 0x30)
    let mr_idx : Nat := vol_idx (s.mixer_regs 0x31)
    let vl_idx : Nat := vol_idx (s.mixer_regs 0x32)
    let vr_idx : Nat := vol_idx (s.mixer_regs 0x33)
    some ((((sb16_log_vol.getD ml_idx 0 : Nat) : Int) * (sb16_log_vol.getD vl_idx 0 : Nat)
              * 192).tdiv 65025,
          (((sb16_log_vol.getD mr_idx 0 : Nat) : Int) * (sb16_log_vol.getD vr_idx 0 : Nat)
              * 192).tdiv 65025)

/-- The gains `vol_l`, `vol_r` computed by `sb16_update_opl_volume`. -/
def sb16_update_opl_volume (s : SB16State) : Int × Int :=
  let ml_idx : Nat := vol_idx (s.mixer_regs 0x30)
  let mr_idx : Nat := vol_idx (s.mixer_regs 0x31)
  let fl_idx : Nat := vol_idx (s.mixer_regs 0x34)
  let fr_idx : Nat := vol_idx (s.mixer_regs 0x35)
  ((((sb16_log_vol.getD ml_idx 0 : Nat) : Int) * (sb16_log_vol.getD fl_idx 0 : Nat)
      * 0x8000).tdiv 65025,
   (((sb16_log_vol.getD mr_idx 0 : Nat) : Int) * (sb16_log_vol.getD fr_idx 0 : Nat)
      * 0x8000).tdiv 65025)

/-- The gain in the words of the specification: `(g(rm) * g(rv) * K) / 65025`
with `g(r) = sb16_log_vol[(r >> 3) & 0x1F]`, for the register values `rm`
(master) and `rv` (voice or synth). -/
def spec_gain (rm rv : Nat) (K : Int) : Int :=
  ((sb16_log_vol.getD ((rm >>> 3) &&& 0x1f) 0 : Nat) : Int)
    * ((sb16_log_vol.getD ((rv >>> 3) &&& 0x1f) 0 : Nat) : Int) * K / 65025

/-! ## Device events -/

/-- Capture callback of the DMA controller; `write_memory pos len` is the answer
of `k->write_memory (isa_dma, nchan, tmpbuf, pos, len)`.  `none` when `dma_len`
is zero. -/
def SB_write_DMA (write_memory : Int → Int → Int) (s : SB16State)
    (nchan dma_pos dma_len : Int) : Option (SB16State × Int) :=
  let to_copy : Int := min s.left_till_irq (dma_len - dma_pos)
  let to_copy : Int := if to_copy > 4096 then 4096 else to_copy
  let copied : Int := write_memory dma_pos to_copy
  if dma_len = 0 then none
  else
    let dma_pos : Int := (dma_pos + copied).tmod dma_len
    let s : SB16State := { s with left_till_irq := s.left_till_irq - copied }
    if s.left_till_irq ≤ 0 then
      let ack : Nat := if Int.land nchan 4 ≠ 0 then 2 else 1
      let s : SB16State :=
        { s with mixer_regs := setb s.mixer_regs 0x82 ((s.mixer_regs 0x82 ||| ack) % 256) }
      let s : SB16State := qemu_irq_raise s
      some ({ s with left_till_irq := s.block_size }, dma_pos)
    else some (s, dma_pos)

def aux_timer (s : SB16State) : SB16State :=
  qemu_irq_raise { s with can_write := 1 }

/-- What can happen to the device: port accesses of the guest and callbacks of
the host. -/
inductive Event where
  | dsp_write (nport val : Nat)
  | dsp_read (nport : Nat)
  | mixer_write_indexb (val : Nat)
  | mixer_write_datab (val : Nat)
  | mixer_read
  | SB_read_DMA (fuel : Nat) (nchan dma_pos dma_len : Int)
  | SB_write_DMA (write_memory : Int → Int → Int) (nchan dma_pos dma_len : Int)
  | SB_audio_callback (free : Int)
  | aux_timer

/-- The state after one event; `none` when a callback does not return. -/
def step (h : Host) (s : SB16State) : Event → Option SB16State
  | Event.dsp_write nport val => some (dsp_write h s nport val)
  | Event.dsp_read nport => some (dsp_read s nport).2
  | Event.mixer_write_indexb val => some (mixer_write_indexb s val)
  | Event.mixer_write_datab val => some (mixer_write_datab s val)
  | Event.mixer_read => some s
  | Event.SB_read_DMA fuel nchan dma_pos dma_len =>
    (SB_read_DMA h fuel s nchan dma_pos dma_len).map Prod.fst
  | Event.SB_write_DMA write_memory nchan dma_pos dma_len =>
    (SB_write_DMA write_memory s nchan dma_pos dma_len).map Prod.fst
  | Event.SB_audio_callback free => some (SB_audio_callback s free)
  | Event.aux_timer => some (aux_timer s)

/-- The state after a sequence of events. -/
def run (h : Host) : List Event → SB16State → Option SB16State
  | [], s => some s
  | e :: es, s =>
    match step h s e with
    | none => none
    | some t => run h es t

/-- Opcode `c` is awaiting operands and `command` asked for `n` of them; 0x74
stands for 0x75 as well once a playback callback has run. -/
def awaits (c n : Int) : Prop :=
  (0xaf < c ∧ c < 0xd0 ∧ n = 3) ∨
  ((c = 0x04 ∨ c = 0x0f ∨ c = 0x10 ∨ c = 0x40 ∨ c = 0xe0 ∨ c = 0xe2 ∨ c = 0xe4 ∨ c = 0xf9)
    ∧ n = 1) ∨
  ((c = 0x05 ∨ c = 0x0e ∨ c = 0x14 ∨ c = 0x41 ∨ c = 0x42 ∨ c = 0x48 ∨ c = 0x74 ∨ c = 0x75 ∨
    c = 0x76 ∨ c = 0x77 ∨ c = 0x80) ∧ n = 2)

/-- State of the command interpreter: idle, or collecting the operands of an
opcode that has a case in `complete`. -/
def collecting_inv (s : SB16State) : Prop :=
  (s.needed_bytes = 0 ∧ s.in_index = 0 ∧ s.cmd = -1) ∨
  (0 ≤ s.in_index ∧ s.in_index < s.needed_bytes ∧ awaits s.cmd s.needed_bytes)

@[simp] theorem setb_same (a : Int → Nat) (i : Int) (v : Nat) : setb a i v i = v := by
  simp [setb]

@[simp] theorem setb_other (a : Int → Nat) (i j : Int) (v : Nat) (hji : j ≠ i) :
    setb a i v j = a j := by
  simp [setb, hji]

/-- A write to the command port either starts a command or stores an operand. -/
theorem dsp_write_command_port (h : Host) (s : SB16State) (v : Nat) :
    dsp_write h s (s.port + 0x0c) v =
      if s.needed_bytes = 0 then command h s (v % 256)
      else if s.in_index = 10 then s
      else if s.in_index + 1 = s.needed_bytes then
        complete h { s with in2_data := setb s.in2_data s.in_index (v % 256),
                            in_index := s.in_index + 1, needed_bytes := 0 }
      else { s with in2_data := setb s.in2_data s.in_index (v % 256),
                    in_index := s.in_index + 1 } := by
  simp [dsp_write]

/-- Integer division with half the divisor added rounds to the nearest integer. -/
theorem round_div_nat (a b : Nat) (hb : 0 < b) :
    round ((a : ℚ) / (b : ℚ)) = (((a + b / 2) / b : Nat) : Int) := by
  rw [round_eq]
  have hb' : (b : ℚ) ≠ 0 := by exact_mod_cast hb.ne'
  have h1 : (a : ℚ) / b + 1 / 2 = (((2 * a + b : Nat) : Int) : ℚ) / ((2 * b : Nat) : ℚ) := by
    push_cast
    field_simp
    ring
  rw [h1, Rat.floor_intCast_div_natCast]
  norm_cast
  rw [← Nat.div_div_eq_div_mul]
  have h2 : (2 * a + b) / 2 = a + b / 2 := by omega
  rw [h2]

theorem dsp_write_cmds_nil (h : Host) (s : SB16State) : dsp_write_cmds h s [] = s := rfl

theorem dsp_write_cmds_cons (h : Host) (s : SB16State) (v : Nat) (vs : List Nat) :
    dsp_write_cmds h s (v :: vs) = dsp_write_cmds h (dsp_write h s (s.port + 0x0c) v) vs := rfl

theorem dsp_write_cmds_append (h : Host) (s : SB16State) (us vs : List Nat) :
    dsp_write_cmds h s (us ++ vs) = dsp_write_cmds h (dsp_write_cmds h s us) vs := by
  simp [dsp_write_cmds, List.foldl_append]

/-- In the idle state a byte written to the command port is an opcode. -/
theorem dsp_write_idle (h : Host) (s : SB16State) (v : Nat) (hidle : s.needed_bytes = 0) :
    dsp_write h s (s.port + 0x0c) v = command h s (v % 256) := by
  rw [dsp_write_command_port, if_pos hidle]

theorem restrict_sampling_rate_eq (f : Int) :
    restrict_sampling_rate f = max 5000 (min 49716 f) := by
  unfold restrict_sampling_rate SAMPLE_RATE_MIN SAMPLE_RATE_MAX
  split_ifs <;> omega

/-- Sample rate chosen by `dma_cmd8`. -/
theorem dma_cmd8_freq (h : Host) (s : SB16State) (mask dma_len : Int) :
    (dma_cmd8 h s mask dma_len).freq =
      (restrict_sampling_rate
        (if s.time_const = -1 then (if s.freq ≤ 0 then 11025 else s.freq)
         else (1000000 + (256 - s.time_const).tdiv 2).tdiv (256 - s.time_const)))
        >>> (b2i (s.mixer_regs 0x0e &&& 2 != 0)).toNat := by
  rfl

/-- Commands 0x40 and its operand: the time constant is stored. -/
theorem write_time_const (h : Host) (s : SB16State) (T : Nat)
    (hidle : s.needed_bytes = 0) (hin : s.in_index = 0) :
    dsp_write_cmds h s [0x40, T] =
      { s with needed_bytes := 0, freq := -1, time_const := (T % 256 : Nat), cmd := -1,
               in2_data := setb s.in2_data 0 (T % 256), in_index := 0 } := by
  simp only [dsp_write_cmds, List.foldl]
  rw [dsp_write_idle h s _ hidle]
  rw [show 64 % 256 = 64 from rfl, show command h s 64 =
    { s with needed_bytes := 1, freq := -1, time_const := -1, cmd := 0x40 } from rfl]
  rw [dsp_write_command_port]
  simp [hin, complete, dsp_get_data]

/-- Sample rate after a legacy 8-bit DMA command issued from the idle state. -/
theorem legacy_dma_freq (h : Host) (s : SB16State) (b0 b1 : Nat) (tail : List Nat)
    (hidle : s.needed_bytes = 0) (hin : s.in_index = 0)
    (htail : tail = [0x1c] ∨ tail = [0x90] ∨ tail = [0x91] ∨ tail = [0x14, b0, b1]) :
    (dsp_write_cmds h s tail).freq =
      (restrict_sampling_rate
        (if s.time_const = -1 then (if s.freq ≤ 0 then 11025 else s.freq)
         else (1000000 + (256 - s.time_const).tdiv 2).tdiv (256 - s.time_const)))
        >>> (b2i (s.mixer_regs 0x0e &&& 2 != 0)).toNat := by
  rcases htail with rfl | rfl | rfl | rfl
  · simp only [dsp_write_cmds, List.foldl]
    rw [dsp_write_idle h s _ hidle]
    rfl
  · simp only [dsp_write_cmds, List.foldl]
    rw [dsp_write_idle h s _ hidle]
    rfl
  · simp only [dsp_write_cmds, List.foldl]
    rw [dsp_write_idle h s _ hidle]
    rfl
  · simp only [dsp_write_cmds, List.foldl]
    rw [dsp_write_idle h s _ hidle]
    rw [show 20 % 256 = 20 from rfl, show command h s 20 =
      { s with needed_bytes := 2, block_size := 0, cmd := 0x14 } from rfl]
    rw [dsp_write_command_port, dsp_write_command_port]
    cases s
    dsimp only at hidle hin
    subst hidle hin
    rfl

/-- C1: for every time-constant byte `T` stored by command 0x40, a legacy 8-bit
DMA command (0x14 with its two length bytes, 0x1C, 0x90 or 0x91) issued while the
mixer stereo switch (register 0x0E bit 1) is clear sets the sample rate to
`round (1000000 / (256 - T))` clamped to `[5000, 49716]`; the rounding to the
nearest integer is what `(1000000 + (256 - T) / 2) / (256 - T)` computes. -/
theorem legacy_dma_rate_of_time_const (h : Host) (s : SB16State) (T b0 b1 : Nat)
    (tail : List Nat)
    (hidle : s.needed_bytes = 0) (hin : s.in_index = 0) (hT : T < 256)
    (hst : s.mixer_regs 0x0e &&& 2 = 0)
    (htail : tail = [0x1c] ∨ tail = [0x90] ∨ tail = [0x91] ∨ tail = [0x14, b0, b1]) :
    (dsp_write_cmds h s ([0x40, T] ++ tail)).freq =
        max 5000 (min 49716 (round ((1000000 : ℚ) / ((256 - T : Nat) : ℚ)))) ∧
    round ((1000000 : ℚ) / ((256 - T : Nat) : ℚ)) =
        (1000000 + (256 - (T : Int)) / 2) / (256 - (T : Int)) := by
  have hr : round ((1000000 : ℚ) / ((256 - T : Nat) : ℚ)) =
      (1000000 + (256 - (T : Int)) / 2) / (256 - (T : Int)) := by
    have h0 := round_div_nat 1000000 (256 - T) (by omega)
    rw [show ((1000000 : Nat) : ℚ) = 1000000 by norm_num] at h0
    rw [h0]
    push_cast [Nat.cast_sub hT.le]
    rfl
  refine ⟨?_, hr⟩
  rw [dsp_write_cmds_append, write_time_const h s T hidle hin,
    legacy_dma_freq h _ b0 b1 tail rfl rfl htail, restrict_sampling_rate_eq, hr]
  have hT' : T % 256 = T := Nat.mod_eq_of_lt hT
  have h1 : ((T : Int) = -1) = False := by
    apply propext; constructor
    · intro hh; omega
    · intro hh; exact hh.elim
  simp only [hT', h1, if_false, hst]
  have h2 : (256 - (T : Int)).tdiv 2 = (256 - (T : Int)) / 2 :=
    Int.tdiv_eq_ediv (by omega) (by omega)
  have h3 : (1000000 + (256 - (T : Int)) / 2).tdiv (256 - (T : Int)) =
      (1000000 + (256 - (T : Int)) / 2) / (256 - (T : Int)) :=
    Int.tdiv_eq_ediv (by omega) (by omega)
  rw [h2, h3]
  simp only [b2i, bne_self_eq_false, Bool.false_eq_true, if_false, Int.toNat_zero]
  show Int.shiftRight _ 0 = _
  cases h4 : 5000 ⊔ 49716 ⊓ (1000000 + (256 - (T : Int)) / 2) / (256 - (T : Int)) <;>
    simp [Int.shiftRight]

/-- Witness for C1: time constant 131 (8000 Hz) followed by command 0x1C on the
freshly realised device. -/
theorem legacy_dma_rate_of_time_const_witness :
    sb16_realized.needed_bytes = 0 ∧ sb16_realized.in_index = 0 ∧ (131 : Nat) < 256 ∧
    sb16_realized.mixer_regs 0x0e &&& 2 = 0 ∧
    ((dsp_write_cmds ideal_host sb16_realized ([0x40, 131] ++ [0x1c])).freq =
        max 5000 (min 49716 (round ((1000000 : ℚ) / ((256 - 131 : Nat) : ℚ)))) ∧
     round ((1000000 : ℚ) / ((256 - 131 : Nat) : ℚ)) =
        (1000000 + (256 - ((131 : Nat) : Int)) / 2) / (256 - ((131 : Nat) : Int))) ∧
    (dsp_write_cmds ideal_host sb16_realized [0x40, 131, 0x1c]).freq = 8000 :=
  ⟨rfl, rfl, by decide, rfl,
    legacy_dma_rate_of_time_const ideal_host sb16_realized 131 0 0 [0x1c] rfl rfl (by decide) rfl
      (Or.inl rfl),
    rfl⟩

/-- C2 (evaluation of the code): with time constant 0 stored by command 0x40, the
extended playback command 0xC0 (mode 0x00, length 0x00FF) leaves the sample rate
3906, below the minimum 5000: `dma_cmd` does not call `restrict_sampling_rate`. -/
theorem dma_cmd_rate_below_minimum :
    (dsp_write_cmds ideal_host sb16_realized [0x40, 0, 0xc0, 0x00, 0xff, 0x00]).freq = 3906 ∧
    (dsp_write_cmds ideal_host sb16_realized [0x40, 255, 0xc0, 0x00, 0xff, 0x00]).freq
      = 1000000 := by
  constructor <;> rfl

/-! ## Operand collection -/

theorem command_dma (h : Host) (s : SB16State) (c : Nat) (h1 : 0xaf < c) (h2 : c < 0xd0) :
    command h s c = { s with needed_bytes := 3, cmd := c } := by
  have hc : c > 0xaf ∧ c < 0xd0 := ⟨h1, h2⟩
  unfold command
  rw [if_pos hc]
  rfl

/-- An operand byte that is not the last one is stored. -/
theorem dsp_write_more (h : Host) (s : SB16State) (v : Nat)
    (hn : s.needed_bytes ≠ 0) (hi : s.in_index ≠ 10) (hl : s.in_index + 1 ≠ s.needed_bytes) :
    dsp_write h s (s.port + 0x0c) v =
      { s with in2_data := setb s.in2_data s.in_index (v % 256),
               in_index := s.in_index + 1 } := by
  rw [dsp_write_command_port, if_neg hn, if_neg hi, if_neg hl]

/-- The last operand byte is stored and the command is completed. -/
theorem dsp_write_last (h : Host) (s : SB16State) (v : Nat)
    (hn : s.needed_bytes ≠ 0) (hi : s.in_index ≠ 10) (hl : s.in_index + 1 = s.needed_bytes) :
    dsp_write h s (s.port + 0x0c) v =
      complete h { s with in2_data := setb s.in2_data s.in_index (v % 256),
                          in_index := s.in_index + 1, needed_bytes := 0 } := by
  rw [dsp_write_command_port, if_neg hn, if_neg hi, if_pos hl]

/-- Three operand bytes written after a three-operand opcode complete the command. -/
theorem collect3 (h : Host) (s : SB16State) (b0 b1 b2 : Nat)
    (hn : s.needed_bytes = 3) (hin : s.in_index = 0) :
    dsp_write_cmds h s [b0, b1, b2] =
      complete h { s with in2_data :=
                            setb (setb (setb s.in2_data 0 (b0 % 256)) 1 (b1 % 256)) 2 (b2 % 256),
                          in_index := 3, needed_bytes := 0 } := by
  simp only [dsp_write_cmds, List.foldl]
  rw [dsp_write_more h s b0 (by rw [hn]; decide) (by rw [hin]; decide)
    (by rw [hn, hin]; decide)]
  rw [dsp_write_more h _ b1 (by show s.needed_bytes ≠ 0; rw [hn]; decide)
    (by show s.in_index + 1 ≠ 10; rw [hin]; decide)
    (by show s.in_index + 1 + 1 ≠ s.needed_bytes; rw [hn, hin]; decide)]
  rw [dsp_write_last h _ b2 (by show s.needed_bytes ≠ 0; rw [hn]; decide)
    (by show s.in_index + 1 + 1 ≠ 10; rw [hin]; decide)
    (by show s.in_index + 1 + 1 + 1 = s.needed_bytes; rw [hn, hin]; decide)]
  refine congrArg (complete h) ?_
  cases s
  dsimp only at hn hin
  subst hn hin
  rfl

/-- Completion of an extended DMA playback command (bit 3 of the opcode clear):
`dma_cmd` is called with the operands popped in the order `d2`, `d1`, `d0`. -/
theorem complete_dma_dac (h : Host) (s s1 : SB16State) (c d0 d1 d2 : Nat)
    (hcmd : s.cmd = c) (h1 : 0xaf < c) (h2 : c < 0xd0) (h8 : c &&& 8 = 0)
    (hd2 : (dsp_get_data s).1 = d2)
    (hd1 : (dsp_get_data (dsp_get_data s).2).1 = d1)
    (hd0 : (dsp_get_data (dsp_get_data (dsp_get_data s).2).2).1 = d0)
    (hs1 : (dsp_get_data (dsp_get_data (dsp_get_data s).2).2).2 = s1) :
    complete h s = { dma_cmd h s1 c d0 ((d1 : Int) + ((d2 <<< 8 : Nat) : Int)) with cmd := -1 } := by
  have hc : s.cmd > 0xaf ∧ s.cmd < 0xd0 := by
    rw [hcmd]; constructor <;> omega
  have h8' : ¬ (Int.land (dsp_get_data (dsp_get_data (dsp_get_data s).2).2).2.cmd 8 ≠ 0) := by
    show ¬ (Int.land s.cmd 8 ≠ 0)
    rw [hcmd]
    show ¬ (((c &&& 8 : Nat) : Int) ≠ 0)
    rw [h8]
    decide
  have hc256 : (dsp_get_data (dsp_get_data (dsp_get_data s).2).2).2.cmd.toNat % 256 = c := by
    show s.cmd.toNat % 256 = c
    rw [hcmd]
    show c % 256 = c
    omega
  unfold complete
  rw [if_pos hc]
  dsimp only
  rw [if_neg h8', hc256, hd2, hd1, hd0, hs1]

/-- Block size chosen by `dma_cmd`. -/
theorem dma_cmd_block_size (h : Host) (s : SB16State) (cmd d0 : Nat) (dma_len : Int) :
    (dma_cmd h s cmd d0 dma_len).block_size =
      if (((cmd >>> 2) &&& 1 : Nat) : Int) = 0 then
        shl (shl (dma_len + 1)
          (b2i ((if cmd >>> 4 = 11 then 16 else if cmd >>> 4 = 12 then 8 else s.fmt_bits) = 16)))
          (((d0 >>> 5) &&& 1 : Nat) : Int)
      else
        shl (dma_len + 1)
          (b2i ((if cmd >>> 4 = 11 then 16 else if cmd >>> 4 = 12 then 8 else s.fmt_bits) = 16)) :=
  rfl

theorem shl_zero (a : Int) : shl a 0 = a := by
  simp [shl]

/-- C3: operand order is preserved.  From an idle state with an empty operand
buffer, an extended DMA playback opcode `c` (0xB0..0xCF, bit 3 clear) followed by
the bytes `b0`, `b1`, `b2` runs `dma_cmd` with mode `b0` and length
`b1 + 256 * b2`: afterwards `fmt_signed` is bit 4 of `b0`, `fmt_stereo` is bit 5 of
`b0` and the block size is derived from `b1 + 256 * b2 + 1`. -/
theorem dma_operand_order (h : Host) (s : SB16State) (c b0 b1 b2 : Nat)
    (hidle : s.needed_bytes = 0) (hin : s.in_index = 0)
    (hc1 : 0xb0 ≤ c) (hc2 : c ≤ 0xcf) (hc8 : c &&& 8 = 0)
    (hb0 : b0 < 256) (hb1 : b1 < 256) (hb2 : b2 < 256) :
    dsp_write_cmds h s [c, b0, b1, b2] =
      { dma_cmd h
          { s with needed_bytes := 0, cmd := c, in_index := 0,
                   in2_data := setb (setb (setb s.in2_data 0 b0) 1 b1) 2 b2 }
          c b0 ((b1 : Int) + 256 * (b2 : Int)) with cmd := -1 } ∧
    (dsp_write_cmds h s [c, b0, b1, b2]).fmt_signed = (((b0 >>> 4) &&& 1 : Nat) : Int) ∧
    (dsp_write_cmds h s [c, b0, b1, b2]).fmt_stereo = (((b0 >>> 5) &&& 1 : Nat) : Int) ∧
    (dsp_write_cmds h s [c, b0, b1, b2]).block_size =
      shl (shl ((b1 : Int) + 256 * (b2 : Int) + 1) (if c >>> 4 = 11 then 1 else 0))
        (if (c >>> 2) &&& 1 = 0 then (((b0 >>> 5) &&& 1 : Nat) : Int) else 0) := by
  have hb0' : b0 % 256 = b0 := Nat.mod_eq_of_lt hb0
  have hb1' : b1 % 256 = b1 := Nat.mod_eq_of_lt hb1
  have hb2' : b2 % 256 = b2 := Nat.mod_eq_of_lt hb2
  have hc' : c % 256 = c := Nat.mod_eq_of_lt (by omega)
  have hlen : (b1 : Int) + ((b2 <<< 8 : Nat) : Int) = (b1 : Int) + 256 * (b2 : Int) := by
    rw [Nat.shiftLeft_eq]; push_cast; ring
  have key : dsp_write_cmds h s [c, b0, b1, b2] =
      { dma_cmd h
          { s with needed_bytes := 0, cmd := c, in_index := 0,
                   in2_data := setb (setb (setb s.in2_data 0 b0) 1 b1) 2 b2 }
          c b0 ((b1 : Int) + 256 * (b2 : Int)) with cmd := -1 } := by
    have step := collect3 h { s with needed_bytes := 3, cmd := c } b0 b1 b2 rfl hin
    rw [dsp_write_cmds_cons, dsp_write_idle h s c hidle, hc', command_dma h s c (by omega) (by omega),
      step, hb0', hb1', hb2']
    have e := complete_dma_dac h
      { s with needed_bytes := 0, cmd := c, in_index := 3,
               in2_data := setb (setb (setb s.in2_data 0 b0) 1 b1) 2 b2 }
      { s with needed_bytes := 0, cmd := c, in_index := 0,
               in2_data := setb (setb (setb s.in2_data 0 b0) 1 b1) 2 b2 }
      c b0 b1 b2 rfl (by omega) (by omega) hc8 rfl rfl rfl rfl
    rw [hlen] at e
    exact e
  constructor
  · exact key
  constructor
  · rw [key]; rfl
  constructor
  · rw [key]; rfl
  · rw [key]
    dsimp only
    rw [dma_cmd_block_size]
    have h4 : c >>> 4 = 11 ∨ c >>> 4 = 12 := by
      rw [Nat.shiftRight_eq_div_pow]; omega
    have e16 : b2i (decide ((if c >>> 4 = 11 then (16 : Int) else if c >>> 4 = 12 then 8
        else s.fmt_bits) = 16)) = (if c >>> 4 = 11 then 1 else 0) := by
      rcases h4 with h4 | h4 <;> simp [h4, b2i]
    rw [e16]
    by_cases ha : (c >>> 2) &&& 1 = 0
    · have hcond : (((c >>> 2) &&& 1 : Nat) : Int) = 0 := by rw [ha]; rfl
      rw [if_pos hcond, if_pos ha]
    · have hcond : ¬ (((c >>> 2) &&& 1 : Nat) : Int) = 0 := by
        intro hh; exact ha (by exact_mod_cast hh)
      rw [if_neg hcond, if_neg ha, shl_zero]

/-- Witness for C3: opcode 0xB6 (16-bit, auto-init) with mode 0x30 and length
bytes 0xFF, 0x01 on the freshly realised device. -/
theorem dma_operand_order_witness :
    (dsp_write_cmds ideal_host sb16_realized [0xb6, 0x30, 0xff, 0x01]).fmt_signed = 1 ∧
    (dsp_write_cmds ideal_host sb16_realized [0xb6, 0x30, 0xff, 0x01]).fmt_stereo = 1 ∧
    (dsp_write_cmds ideal_host sb16_realized [0xb6, 0x30, 0xff, 0x01]).block_size = 1024 :=
  have w := dma_operand_order ideal_host sb16_realized 0xb6 0x30 0xff 0x01 rfl rfl
    (by decide) (by decide) (by decide) (by decide) (by decide) (by decide)
  ⟨w.2.1, w.2.2.1, w.2.2.2⟩

/-! ## The response buffer as a stack -/

/-- A read of the response port pops the byte pushed last. -/
theorem dsp_read_response_port (s : SB16State) :
    dsp_read s (s.port + 0x0a) =
      if s.out_data_len ≠ 0 then
        (s.out_data (s.out_data_len - 1),
         { s with out_data_len := s.out_data_len - 1,
                  last_read_byte := s.out_data (s.out_data_len - 1) })
      else (s.last_read_byte, s) := by
  simp [dsp_read]

theorem dsp_out_data_len (s : SB16State) (v : Nat)
    (h0 : 0 ≤ s.out_data_len) (h1 : s.out_data_len < 50) :
    (dsp_out_data s v).out_data_len = s.out_data_len + 1 := by
  show (if 0 ≤ s.out_data_len ∧ s.out_data_len < 50 then _ else _) = _
  rw [if_pos ⟨h0, h1⟩]

/-- With room in the buffer `dsp_out_data` pushes the byte on the stack. -/
theorem out_stack_push (s : SB16State) (v : Nat)
    (h0 : 0 ≤ s.out_data_len) (h1 : s.out_data_len < 50) :
    out_stack (dsp_out_data s v) = out_stack s ++ [v % 256] := by
  obtain ⟨n, hn⟩ := Int.eq_ofNat_of_zero_le h0
  have hlen := dsp_out_data_len s v h0 h1
  have hdata : (dsp_out_data s v).out_data = setb s.out_data s.out_data_len (v % 256) := by
    show (if 0 ≤ s.out_data_len ∧ s.out_data_len < 50 then _ else _) = _
    rw [if_pos ⟨h0, h1⟩]
  unfold out_stack
  rw [hlen, hdata, hn]
  have e1 : ((n : Int) + 1).toNat = n + 1 := by omega
  rw [e1, Int.toNat_ofNat, List.range_succ, List.map_append]
  congr 1
  · apply List.map_congr_left
    intro i hi
    have hi' : i < n := List.mem_range.mp hi
    exact setb_other _ _ _ _ (by omega)
  · simp

theorem dsp_read_data_succ (n : Nat) (s : SB16State) :
    dsp_read_data (n + 1) s =
      ((dsp_read s (s.port + 0x0a)).1 :: (dsp_read_data n (dsp_read s (s.port + 0x0a)).2).1,
       (dsp_read_data n (dsp_read s (s.port + 0x0a)).2).2) := rfl

/-- Reading as many bytes as were pushed last returns them newest first and
leaves the older ones. -/
theorem dsp_read_data_stack (l2 l1 : List Nat) (s : SB16State)
    (hs : out_stack s = l1 ++ l2.reverse) :
    (dsp_read_data l2.length s).1 = l2 ∧ out_stack (dsp_read_data l2.length s).2 = l1 ∧
    (dsp_read_data l2.length s).2.out_data_len = s.out_data_len - l2.length := by
  induction l2 generalizing s with
  | nil =>
    refine ⟨rfl, ?_, ?_⟩
    · simpa [dsp_read_data] using hs
    · simp [dsp_read_data]
  | cons x xs ih =>
    have hs' : out_stack s = (l1 ++ xs.reverse) ++ [x] := by
      rw [hs, List.reverse_cons, List.append_assoc]
    have hlen : (out_stack s).length = s.out_data_len.toNat := by simp [out_stack]
    have hpos : 0 < s.out_data_len.toNat := by
      rw [← hlen, hs']; simp
    have hne : s.out_data_len ≠ 0 := by omega
    have hlast : s.out_data (s.out_data_len - 1) = x := by
      have h3 : (out_stack s).getLast? = some x := by rw [hs']; simp
      unfold out_stack at h3
      obtain ⟨n, hn⟩ : ∃ n, s.out_data_len.toNat = n + 1 := ⟨s.out_data_len.toNat - 1, by omega⟩
      rw [hn, List.range_succ, List.map_append] at h3
      simp at h3
      rw [← h3]
      congr 1
      omega
    have hrest : out_stack
        { s with out_data_len := s.out_data_len - 1,
                 last_read_byte := s.out_data (s.out_data_len - 1) } = l1 ++ xs.reverse := by
      have h4 : (out_stack s).dropLast = l1 ++ xs.reverse := by rw [hs']; simp
      rw [← h4]
      unfold out_stack
      show List.map _ (List.range (s.out_data_len - 1).toNat) = _
      obtain ⟨n, hn⟩ : ∃ n, s.out_data_len.toNat = n + 1 := ⟨s.out_data_len.toNat - 1, by omega⟩
      have e2 : (s.out_data_len - 1).toNat = n := by omega
      rw [e2, hn, List.range_succ, List.map_append]
      simp
    have step : dsp_read s (s.port + 0x0a) =
        (x, { s with out_data_len := s.out_data_len - 1,
                     last_read_byte := s.out_data (s.out_data_len - 1) }) := by
      rw [dsp_read_response_port, if_pos hne, hlast]
    have ih' := ih _ hrest
    rw [List.length_cons, dsp_read_data_succ, step]
    refine ⟨by rw [ih'.1], ih'.2.1, ?_⟩
    rw [ih'.2.2]
    show s.out_data_len - 1 - (xs.length : Int) = s.out_data_len - ((xs.length + 1 : Nat) : Int)
    omega

/-- Pushing a list of bytes with room for all of them. -/
theorem out_stack_pushes (l : List Nat) (s : SB16State)
    (h0 : 0 ≤ s.out_data_len) (h1 : s.out_data_len + l.length ≤ 50) :
    out_stack (l.foldl dsp_out_data s) = out_stack s ++ l.map (fun v => v % 256) ∧
    (l.foldl dsp_out_data s).out_data_len = s.out_data_len + l.length := by
  induction l generalizing s with
  | nil => simp
  | cons v vs ih =>
    have hl : ((v :: vs).length : Int) = (vs.length : Int) + 1 := by simp
    have h2 : s.out_data_len < 50 := by omega
    have hlen := dsp_out_data_len s v h0 h2
    have ih' := ih (dsp_out_data s v) (by omega) (by omega)
    rw [List.foldl_cons, ih'.1, ih'.2, out_stack_push s v h0 h2, hlen]
    constructor
    · simp
    · omega

/-- C4: response order.  Bytes pushed with `dsp_out_data` in the order `r2`, `r1`,
`r0`, with room in the 50-byte response buffer, are returned by three reads of
the response port as `r0`, `r1`, `r2`; in particular command 0xE1, issued from
an idle state, is answered by the major version byte first and the minor byte
second. -/
theorem response_order (h : Host) (s : SB16State) (r0 r1 r2 : Nat)
    (hidle : s.needed_bytes = 0)
    (h0 : 0 ≤ s.out_data_len) (h1 : s.out_data_len + 3 ≤ 50)
    (hr0 : r0 < 256) (hr1 : r1 < 256) (hr2 : r2 < 256) :
    (dsp_read_data 3 (dsp_out_data (dsp_out_data (dsp_out_data s r2) r1) r0)).1 = [r0, r1, r2] ∧
    (dsp_read_data 2 (dsp_write h s (s.port + 0x0c) 0xe1)).1
      = [(s.ver >>> 8) &&& 0xff, s.ver &&& 0xff] := by
  constructor
  · have hp := out_stack_pushes [r2, r1, r0] s h0 (by simpa using h1)
    have hs : out_stack (dsp_out_data (dsp_out_data (dsp_out_data s r2) r1) r0) =
        out_stack s ++ [r0, r1, r2].reverse := by
      have hp1 := hp.1
      simp only [List.foldl, List.map, Nat.mod_eq_of_lt hr0, Nat.mod_eq_of_lt hr1,
        Nat.mod_eq_of_lt hr2] at hp1
      rw [hp1]; rfl
    exact (dsp_read_data_stack [r0, r1, r2] (out_stack s) _ hs).1
  · rw [dsp_write_idle h s _ hidle]
    have hc : out_stack (command h s (0xe1 % 256)) =
        out_stack ([s.ver &&& 0xff, s.ver >>> 8].foldl dsp_out_data { s with needed_bytes := 0 }) :=
      rfl
    have hp := out_stack_pushes [s.ver &&& 0xff, s.ver >>> 8] { s with needed_bytes := 0 } h0
      (by show s.out_data_len + _ ≤ 50; simp; omega)
    have e1 : (s.ver &&& 0xff) % 256 = s.ver &&& 0xff :=
      Nat.mod_eq_of_lt (Nat.lt_of_le_of_lt Nat.and_le_right (by decide))
    have e2 : (s.ver >>> 8) % 256 = (s.ver >>> 8) &&& 0xff :=
      (Nat.and_pow_two_sub_one_eq_mod (s.ver >>> 8) 8).symm
    have hs : out_stack (command h s (0xe1 % 256)) =
        out_stack s ++ [(s.ver >>> 8) &&& 0xff, s.ver &&& 0xff].reverse := by
      rw [hc, hp.1]
      simp only [List.map, e1, e2]
      rfl
    exact (dsp_read_data_stack [(s.ver >>> 8) &&& 0xff, s.ver &&& 0xff] (out_stack s) _ hs).1

/-- Witness for C4: the realised device (version 4.05) answers 0xE1 with 4, 5. -/
theorem response_order_witness :
    (dsp_read_data 3 (dsp_out_data (dsp_out_data (dsp_out_data sb16_realized 3) 2) 1)).1
      = [1, 2, 3] ∧
    (dsp_read_data 2 (dsp_write ideal_host sb16_realized (sb16_realized.port + 0x0c) 0xe1)).1
      = [4, 5] :=
  response_order ideal_host sb16_realized 1 2 3 rfl (by decide) (by decide)
    (by decide) (by decide) (by decide)

/-- The response stack does not depend on the current command. -/
theorem out_stack_with_cmd (X : SB16State) (c : Int) :
    out_stack { X with cmd := c } = out_stack X := rfl

theorem command_e3 (h : Host) (s : SB16State) :
    command h s 0xe3 =
      { e3_bytes.reverse.foldl dsp_out_data { s with needed_bytes := 0 } with
        cmd := if (e3_bytes.reverse.foldl dsp_out_data { s with needed_bytes := 0 }).needed_bytes = 0
               then -1 else (0xe3 : Nat) } := by
  unfold command
  rw [if_neg (by decide)]

/-- C5: command 0xE3, issued from an idle state with an empty response buffer,
makes the following reads of the response port return the 44 characters of
"COPYRIGHT (C) CREATIVE TECHNOLOGY LTD, 1992." from left to right and then one
zero byte, after which the response buffer is empty. -/
theorem copyright_string_read (h : Host) (s : SB16State)
    (hidle : s.needed_bytes = 0) (hempty : s.out_data_len = 0) :
    (dsp_read_data 45 (dsp_write h s (s.port + 0x0c) 0xe3)).1
      = "COPYRIGHT (C) CREATIVE TECHNOLOGY LTD, 1992.".toList.map Char.toNat ++ [0] ∧
    (dsp_read_data 45 (dsp_write h s (s.port + 0x0c) 0xe3)).2.out_data_len = 0 ∧
    e3 = "COPYRIGHT (C) CREATIVE TECHNOLOGY LTD, 1992." ∧ e3.length = 44 := by
  rw [dsp_write_idle h s _ hidle, show 0xe3 % 256 = 0xe3 from rfl, command_e3]
  have hp := out_stack_pushes e3_bytes.reverse { s with needed_bytes := 0 }
    (by show 0 ≤ s.out_data_len; omega)
    (by show s.out_data_len + _ ≤ 50; rw [hempty]; decide)
  have hs0 : out_stack { s with needed_bytes := 0 } = [] := by
    show out_stack s = []
    simp [out_stack, hempty]
  have hmod : e3_bytes.reverse.map (fun v => v % 256) = e3_bytes.reverse := by decide
  rw [hs0, hmod] at hp
  generalize e3_bytes.reverse.foldl dsp_out_data { s with needed_bytes := 0 } = F at hp ⊢
  have hq : out_stack { F with cmd := if F.needed_bytes = 0 then -1 else (0xe3 : Nat) } = [] ++ e3_bytes.reverse :=
    (out_stack_with_cmd F _).trans hp.1
  have hr := dsp_read_data_stack e3_bytes []
    { F with cmd := if F.needed_bytes = 0 then -1 else (0xe3 : Nat) } hq
  refine ⟨hr.1, ?_, rfl, by decide⟩
  have h3 := hr.2.2
  rw [show e3_bytes.length = 45 from rfl] at h3
  rw [h3]
  show F.out_data_len - _ = 0
  rw [hp.2]
  show s.out_data_len + _ - _ = 0
  rw [hempty]
  rfl

/-- Witness for C5 on the freshly realised device. -/
theorem copyright_string_read_witness :
    (dsp_read_data 45 (dsp_write ideal_host sb16_realized (sb16_realized.port + 0x0c) 0xe3)).1
      = "COPYRIGHT (C) CREATIVE TECHNOLOGY LTD, 1992.".toList.map Char.toNat ++ [0] :=
  (copyright_string_read ideal_host sb16_realized rfl rfl).1

theorem command_d8 (h : Host) (s : SB16State) :
    command h s 0xd8 =
      { dsp_out_data { s with needed_bytes := 0 } (if s.speaker ≠ 0 then 0xff else 0x00) with
        cmd := if (dsp_out_data { s with needed_bytes := 0 }
                    (if s.speaker ≠ 0 then 0xff else 0x00)).needed_bytes = 0
               then -1 else (0xd8 : Nat) } := by
  unfold command
  rw [if_neg (by decide)]

theorem command_speaker (h : Host) (s : SB16State) :
    command h s 0xd1 = { s with needed_bytes := 0, speaker := 1, cmd := -1 } ∧
    command h s 0xd3 = { s with needed_bytes := 0, speaker := 0, cmd := -1 } :=
  ⟨rfl, rfl⟩

/-- The byte read back after command 0xD8 tells whether the speaker is on. -/
theorem read_after_d8 (h : Host) (s : SB16State)
    (h0 : 0 ≤ s.out_data_len) (h1 : s.out_data_len < 50) :
    (dsp_read_data 1 (command h s 0xd8)).1 = [(if s.speaker ≠ 0 then 0xff else 0x00) % 256] := by
  rw [command_d8]
  have hp := out_stack_push { s with needed_bytes := 0 } (if s.speaker ≠ 0 then 0xff else 0x00)
    h0 h1
  generalize dsp_out_data { s with needed_bytes := 0 } (if s.speaker ≠ 0 then 0xff else 0x00) = F
    at hp ⊢
  exact (dsp_read_data_stack [(if s.speaker ≠ 0 then 0xff else 0x00) % 256] (out_stack s)
    { F with cmd := if F.needed_bytes = 0 then -1 else (0xd8 : Nat) }
    ((out_stack_with_cmd F _).trans hp)).1

/-- C10: speaker query.  From an idle state with room in the response buffer,
command 0xD1 followed by 0xD8 makes the next read of the response port return
0xFF, and command 0xD3 followed by 0xD8 makes it return 0x00. -/
theorem speaker_query (h : Host) (s : SB16State)
    (hidle : s.needed_bytes = 0) (h0 : 0 ≤ s.out_data_len) (h1 : s.out_data_len < 50) :
    (dsp_read_data 1 (dsp_write_cmds h s [0xd1, 0xd8])).1 = [0xff] ∧
    (dsp_read_data 1 (dsp_write_cmds h s [0xd3, 0xd8])).1 = [0x00] := by
  constructor
  · rw [dsp_write_cmds_cons, dsp_write_idle h s _ hidle, show 0xd1 % 256 = 0xd1 from rfl,
      (command_speaker h s).1, dsp_write_cmds_cons,
      dsp_write_idle h { s with needed_bytes := 0, speaker := 1, cmd := -1 } _ rfl,
      dsp_write_cmds_nil, show 0xd8 % 256 = 0xd8 from rfl]
    exact read_after_d8 h { s with needed_bytes := 0, speaker := 1, cmd := -1 } h0 h1
  · rw [dsp_write_cmds_cons, dsp_write_idle h s _ hidle, show 0xd3 % 256 = 0xd3 from rfl,
      (command_speaker h s).2, dsp_write_cmds_cons,
      dsp_write_idle h { s with needed_bytes := 0, speaker := 0, cmd := -1 } _ rfl,
      dsp_write_cmds_nil, show 0xd8 % 256 = 0xd8 from rfl]
    exact read_after_d8 h { s with needed_bytes := 0, speaker := 0, cmd := -1 } h0 h1

/-- Witness for C10 on the freshly realised device. -/
theorem speaker_query_witness :
    (dsp_read_data 1 (dsp_write_cmds ideal_host sb16_realized [0xd1, 0xd8])).1 = [0xff] ∧
    (dsp_read_data 1 (dsp_write_cmds ideal_host sb16_realized [0xd3, 0xd8])).1 = [0x00] :=
  speaker_query ideal_host sb16_realized rfl (by decide) (by decide)

/-! ## ADPCM decoder: basic facts -/

/-- What `decode_adpcm_4bit` computes once both table reads are in bounds. -/
theorem decode_adpcm_4bit_eq (code : Nat) (s : SB16State) (step adj : Int)
    (h0 : 0 ≤ s.adpcm_index)
    (hstep : step_table[s.adpcm_index.toNat]? = some step)
    (hadj : index_table[code]? = some adj) :
    decode_adpcm_4bit code s =
      some (to_int16 (adpcm_next_valpred s.adpcm_valpred (adpcm_diff step code) code),
            { s with adpcm_valpred := adpcm_next_valpred s.adpcm_valpred (adpcm_diff step code) code,
                     adpcm_index := adpcm_next_index s.adpcm_index adj }) := by
  unfold decode_adpcm_4bit
  rw [if_pos h0, hstep, hadj]

theorem step_table_length : step_table.length = 89 := rfl

theorem index_table_length : index_table.length = 16 := rfl

theorem adpcm_next_valpred_range (valpred diff : Int) (code : Nat) :
    -32768 ≤ adpcm_next_valpred valpred diff code ∧
    adpcm_next_valpred valpred diff code ≤ 32767 := by
  unfold adpcm_next_valpred
  dsimp only
  split_ifs <;> omega

theorem adpcm_next_index_range (index adj : Int) :
    0 ≤ adpcm_next_index index adj ∧ adpcm_next_index index adj ≤ 88 := by
  unfold adpcm_next_index
  dsimp only
  split_ifs <;> omega

theorem to_int16_of_range (x : Int) (h0 : -32768 ≤ x) (h1 : x ≤ 32767) : to_int16 x = x := by
  unfold to_int16
  omega

/-- With the step index within the table and a 4-bit code, decoding succeeds and
keeps the codec invariant. -/
theorem decode_adpcm_4bit_inv (code : Nat) (s : SB16State) (hc : code < 16)
    (h0 : 0 ≤ s.adpcm_index) (h1 : s.adpcm_index ≤ 88) :
    ∃ r, decode_adpcm_4bit code s = some r ∧ codec_inv r.2 ∧
      r.1 = r.2.adpcm_valpred := by
  have hk : s.adpcm_index.toNat < step_table.length := by
    rw [step_table_length]; omega
  have hcl : code < index_table.length := by
    rw [index_table_length]; exact hc
  have e := decode_adpcm_4bit_eq code s _ _ h0 (List.getElem?_eq_getElem hk)
    (List.getElem?_eq_getElem hcl)
  refine ⟨_, e, ?_, ?_⟩
  · have a := adpcm_next_valpred_range s.adpcm_valpred
      (adpcm_diff (step_table[s.adpcm_index.toNat]) code) code
    have b := adpcm_next_index_range s.adpcm_index (index_table[code])
    exact ⟨a.1, a.2, b.1, b.2⟩
  · have a := adpcm_next_valpred_range s.adpcm_valpred
      (adpcm_diff (step_table[s.adpcm_index.toNat]) code) code
    exact to_int16_of_range _ a.1 a.2

/-! ## Playback callback -/

/-- With a host that takes every byte, the copy loop of `write_audio` ends and
copies all `temp` bytes. -/
theorem write_audio_loop_all (h : Host) (hh : accepts_all h) (dma_len : Int)
    (hlen : 0 < dma_len) (hmax : dma_len < 2 ^ 31) :
    ∀ (fuel k : Nat) (temp dma_pos net : Int),
      0 ≤ temp → temp.toNat < fuel → (temp = 0 ∨ (0 ≤ dma_pos ∧ temp ≤ dma_len - dma_pos)) →
      write_audio_loop h dma_len fuel k temp dma_pos net = some (net + temp) := by
  intro fuel
  induction fuel with
  | zero => intro k temp dma_pos net h0 hf; omega
  | succ n ih =>
    intro k temp dma_pos net h0 hf hpos
    unfold write_audio_loop
    by_cases ht : temp = 0
    · rw [if_pos ht, ht]; simp
    · rw [if_neg ht]
      rcases hpos with hpos | ⟨hp0, hp1⟩
      · exact absurd hpos ht
      have hmin : min temp (dma_len - dma_pos) = temp := min_eq_left hp1
      have hmod : temp % 2 ^ 64 = temp := Int.emod_eq_of_lt h0 (by omega)
      dsimp only
      rw [hmin, hmod, hh.1, hh.2, if_neg (by omega)]
      by_cases hbig : temp > 4096
      · rw [if_pos hbig, if_neg (by decide)]
        have e := ih (k + 1) (temp - 4096) ((dma_pos + 4096).tmod dma_len) (net + 4096)
          (by omega) (by omega)
          (Or.inr (by
            have : (dma_pos + 4096).tmod dma_len = dma_pos + 4096 := by
              rw [Int.tmod_eq_emod (by omega) (by omega)]
              exact Int.emod_eq_of_lt (by omega) (by omega)
            rw [this]; omega))
        rw [e]; congr 1; omega
      · rw [if_neg hbig, if_neg ht]
        have e := ih (k + 1) (temp - temp) ((dma_pos + temp).tmod dma_len) (net + temp)
          (by omega) (by omega) (Or.inl (by omega))
        rw [e]; congr 1; omega

theorem write_audio_all (h : Host) (hh : accepts_all h) (fuel : Nat) (dma_pos dma_len len : Int)
    (hlen : 0 < dma_len) (hmax : dma_len < 2 ^ 31) (h0 : 0 ≤ len) (hf : len.toNat < fuel)
    (hp0 : 0 ≤ dma_pos) (hp1 : len ≤ dma_len - dma_pos) :
    write_audio h fuel dma_pos dma_len len = some len := by
  unfold write_audio
  rw [write_audio_loop_all h hh dma_len hlen hmax fuel 0 len dma_pos 0 h0 hf (Or.inr ⟨hp0, hp1⟩)]
  simp

/-- The playback callback on the copy path (the active command is not 0x74). -/
theorem SB_read_DMA_copy (h : Host) (fuel : Nat) (s : SB16State) (nchan dma_pos dma_len : Int)
    (hb : ¬ s.block_size ≤ 0)
    (hfree : ¬ (s.voice ∧
      (if s.voice then Int.land s.audio_free (~~~ s.align) else dma_len) ≤ 0))
    (hcmd : ¬ s.cmd = 0x74) :
    SB_read_DMA h fuel s nchan dma_pos dma_len =
      match write_audio h fuel dma_pos dma_len
        (min (min (if s.voice then Int.land s.audio_free (~~~ s.align) else dma_len)
          (if s.left_till_irq < 0 then s.block_size else s.left_till_irq))
          (dma_len - dma_pos)) with
      | none => none
      | some net =>
        if dma_len = 0 then none
        else
          some (SB_read_DMA_irq
            { s with left_till_irq :=
                       (if s.left_till_irq < 0 then s.block_size else s.left_till_irq) - net,
                     audio_free := s.audio_free - net,
                     sink_bytes := s.sink_bytes + net,
                     adpcm_valpred :=
                       if s.cmd = 0x75 then
                         to_int16 (shl (((h.mem dma_pos % 256 : Nat) : Int) - 128) 8)
                       else s.adpcm_valpred,
                     adpcm_index := if s.cmd = 0x75 then 0 else s.adpcm_index,
                     cmd := if s.cmd = 0x75 then 0x74 else s.cmd } nchan,
            ((if s.cmd = 0x75 then (dma_pos + 1).tmod dma_len else dma_pos) + net).tmod dma_len) := by
  unfold SB_read_DMA
  rw [if_neg hb]
  dsimp only
  rw [if_neg hfree, if_neg hcmd]
  generalize write_audio h fuel dma_pos dma_len _ = r
  cases r with
  | none => rfl
  | some net => rfl

/-- The playback callback when the sink has no room: the request line is released. -/
theorem SB_read_DMA_nofree (h : Host) (fuel : Nat) (s : SB16State) (nchan dma_pos dma_len : Int)
    (hb : ¬ s.block_size ≤ 0)
    (hfree : s.voice ∧
      (if s.voice then Int.land s.audio_free (~~~ s.align) else dma_len) ≤ 0) :
    SB_read_DMA h fuel s nchan dma_pos dma_len =
      some (release_DREQ
        { s with left_till_irq :=
            if s.left_till_irq < 0 then s.block_size else s.left_till_irq } nchan, dma_pos) := by
  unfold SB_read_DMA
  rw [if_neg hb]
  dsimp only
  rw [if_pos hfree]

/-- Before the block boundary `SB_read_DMA_irq` does nothing. -/
theorem SB_read_DMA_irq_before (s : SB16State) (nchan : Int) (hl : ¬ s.left_till_irq ≤ 0) :
    SB_read_DMA_irq s nchan = s := by
  unfold SB_read_DMA_irq
  rw [if_neg hl]

/-- At the block boundary `SB_read_DMA_irq` raises the interrupt, sets the
acknowledgement bit of the channel and reloads the counter. -/
theorem SB_read_DMA_irq_boundary (s : SB16State) (nchan : Int)
    (hl : s.left_till_irq ≤ 0) (hb : s.block_size > 0) :
    (SB_read_DMA_irq s nchan).left_till_irq =
        s.block_size + s.left_till_irq.tmod s.block_size ∧
    (SB_read_DMA_irq s nchan).irq_raises = s.irq_raises + 1 ∧
    (SB_read_DMA_irq s nchan).mixer_regs 0x82 =
        (s.mixer_regs 0x82 ||| (if Int.land nchan 4 ≠ 0 then 2 else 1)) % 256 ∧
    (SB_read_DMA_irq s nchan).block_size = s.block_size ∧
    (SB_read_DMA_irq s nchan).cmd = s.cmd ∧
    (SB_read_DMA_irq s nchan).sink_bytes = s.sink_bytes := by
  unfold SB_read_DMA_irq
  rw [if_pos hl]
  dsimp only [qemu_irq_raise]
  rw [if_pos hb, if_pos hb]
  by_cases ha : s.dma_auto = 0
  · rw [if_pos ha]
    exact ⟨rfl, rfl, rfl, rfl, rfl, rfl⟩
  · rw [if_neg ha]
    exact ⟨rfl, rfl, rfl, rfl, rfl, rfl⟩

theorem ack_bit_set (x : Nat) (j : Nat) (hj : j < 8) :
    ((x ||| 2 ^ j) % 256).testBit j = true := by
  rw [show (256 : Nat) = 2 ^ 8 from rfl, Nat.testBit_mod_two_pow, Nat.testBit_or,
    Nat.testBit_two_pow_self]
  simp [hj]

/-! ## ADPCM claims -/

/-- C6: ADPCM golden vector.  From a zero-initialised codec (predictor 0, step
index 0) the codes 0x0, 0x8, 0xF decode to the samples 0, 0, -11 and leave the
predictor at -11 and the step index at 8; what `decode_adpcm_4bit` returns and the
codec state it leaves depend only on the code and the codec state before. -/
theorem adpcm_golden_vector (s : SB16State) (hp : s.adpcm_valpred = 0) (hi : s.adpcm_index = 0) :
    decode_adpcm_codes [0x0, 0x8, 0xF] s =
      some ([0, 0, -11], { s with adpcm_valpred := -11, adpcm_index := 8 }) ∧
    (∀ (c : Nat) (a b : SB16State),
      a.adpcm_valpred = b.adpcm_valpred → a.adpcm_index = b.adpcm_index →
      (decode_adpcm_4bit c a).map (fun r => (r.1, r.2.adpcm_valpred, r.2.adpcm_index)) =
      (decode_adpcm_4bit c b).map (fun r => (r.1, r.2.adpcm_valpred, r.2.adpcm_index))) := by
  constructor
  · cases s
    dsimp only at hp hi
    subst hp hi
    rfl
  · intro c a b hv hx
    unfold decode_adpcm_4bit
    rw [hv, hx]
    by_cases h0 : 0 ≤ b.adpcm_index
    · rw [if_pos h0, if_pos h0]
      cases step_table[b.adpcm_index.toNat]? <;> cases index_table[c]? <;> rfl
    · rw [if_neg h0, if_neg h0]

/-- Witness for C6 on the freshly realised device, whose codec fields are zero. -/
theorem adpcm_golden_vector_witness :
    decode_adpcm_codes [0x0, 0x8, 0xF] sb16_realized =
      some ([0, 0, -11], { sb16_realized with adpcm_valpred := -11, adpcm_index := 8 }) :=
  (adpcm_golden_vector sb16_realized rfl rfl).1

theorem adpcm_diff_spec (step : Int) (c : Nat) (hc : c < 16) :
    adpcm_diff step c = spec_adpcm_diff step c := by
  unfold adpcm_diff spec_adpcm_diff
  interval_cases c <;>
    simp +decide only [if_true, if_false, ne_eq, not_true_eq_false, not_false_eq_true] <;>
    omega

theorem adpcm_next_valpred_spec (p step : Int) (c : Nat) (hc : c < 16) :
    adpcm_next_valpred p (adpcm_diff step c) c = spec_adpcm_predictor p step c := by
  rw [adpcm_diff_spec step c hc]
  unfold adpcm_next_valpred spec_adpcm_predictor
  generalize spec_adpcm_diff step c = d
  interval_cases c <;>
    simp +decide only [if_true, if_false, ne_eq, not_true_eq_false, not_false_eq_true] <;>
    split_ifs <;> omega

theorem adpcm_next_index_spec (i adj : Int) :
    adpcm_next_index i adj = max 0 (min 88 (i + adj)) := by
  unfold adpcm_next_index
  dsimp only
  split_ifs <;> omega

/-- C7: for every 4-bit code `c` and every codec state with step index in
`[0, 88]`, `decode_adpcm_4bit` succeeds and computes, with `step` the step table
entry and `adj` the entry of the index table `{-1,-1,-1,-1,2,4,6,8}` repeated
twice: `diff = (step>>3) + (step if bit 2) + (step>>1 if bit 1) + (step>>2 if bit 0)`,
new predictor `= clamp (p - diff if bit 3 else p + diff)` to `[-32768, 32767]`,
new index `= clamp (i + adj)` to `[0, 88]`; the returned sample is the new
predictor. -/
theorem decode_adpcm_4bit_spec (s : SB16State) (c : Nat) (hc : c < 16)
    (hi0 : 0 ≤ s.adpcm_index) (hi1 : s.adpcm_index ≤ 88) :
    ∃ step adj : Int,
      step_table[s.adpcm_index.toNat]? = some step ∧
      ([-1, -1, -1, -1, 2, 4, 6, 8] ++ [-1, -1, -1, -1, 2, 4, 6, 8] : List Int)[c]? = some adj ∧
      decode_adpcm_4bit c s =
        some (spec_adpcm_predictor s.adpcm_valpred step c,
              { s with adpcm_valpred := spec_adpcm_predictor s.adpcm_valpred step c,
                       adpcm_index := max 0 (min 88 (s.adpcm_index + adj)) }) := by
  have hk : s.adpcm_index.toNat < step_table.length := by
    rw [step_table_length]; omega
  have hcl : c < index_table.length := by
    rw [index_table_length]; exact hc
  have e := decode_adpcm_4bit_eq c s _ _ hi0 (List.getElem?_eq_getElem hk)
    (List.getElem?_eq_getElem hcl)
  refine ⟨step_table[s.adpcm_index.toNat], index_table[c], List.getElem?_eq_getElem hk,
    List.getElem?_eq_getElem hcl, ?_⟩
  rw [e, adpcm_next_valpred_spec _ _ c hc, adpcm_next_index_spec]
  have hr : -32768 ≤ spec_adpcm_predictor s.adpcm_valpred step_table[s.adpcm_index.toNat] c ∧
      spec_adpcm_predictor s.adpcm_valpred step_table[s.adpcm_index.toNat] c ≤ 32767 := by
    unfold spec_adpcm_predictor
    omega
  rw [to_int16_of_range _ hr.1 hr.2]

/-- Witness for C7: code 15 on the freshly realised device. -/
theorem decode_adpcm_4bit_spec_witness :
    ∃ step adj : Int,
      step_table[(sb16_realized.adpcm_index).toNat]? = some step ∧
      ([-1, -1, -1, -1, 2, 4, 6, 8] ++ [-1, -1, -1, -1, 2, 4, 6, 8] : List Int)[15]? = some adj ∧
      decode_adpcm_4bit 15 sb16_realized =
        some (spec_adpcm_predictor sb16_realized.adpcm_valpred step 15,
              { sb16_realized with
                  adpcm_valpred := spec_adpcm_predictor sb16_realized.adpcm_valpred step 15,
                  adpcm_index := max 0 (min 88 (sb16_realized.adpcm_index + adj)) }) :=
  decode_adpcm_4bit_spec sb16_realized 15 (by decide) (by decide) (by decide)

theorem SB_read_DMA_irq_codec (s : SB16State) (nchan : Int) :
    (SB_read_DMA_irq s nchan).adpcm_valpred = s.adpcm_valpred ∧
    (SB_read_DMA_irq s nchan).adpcm_index = s.adpcm_index := by
  unfold SB_read_DMA_irq
  by_cases hl : s.left_till_irq ≤ 0
  · rw [if_pos hl]
    dsimp only [qemu_irq_raise]
    by_cases ha : s.dma_auto = 0
    · rw [if_pos ha]; exact ⟨rfl, rfl⟩
    · rw [if_neg ha]; exact ⟨rfl, rfl⟩
  · rw [if_neg hl]; exact ⟨rfl, rfl⟩

/-- Codec fields after completion of command 0x74. -/
theorem complete_0x74_codec (h : Host) (s : SB16State) (hc : s.cmd = 0x74) :
    ∃ q : Nat, (complete h s).adpcm_valpred = shl (to_int8 q) 8 ∧
      (complete h s).adpcm_index = 0 := by
  cases s
  dsimp only at hc
  subst hc
  exact ⟨_, rfl, rfl⟩

theorem seed_range (x : Int) (h0 : -128 ≤ x) (h1 : x ≤ 127) :
    shl x 8 = x * 256 ∧ -32768 ≤ shl x 8 ∧ shl x 8 ≤ 32767 := by
  have e : shl x 8 = x * 256 := by
    show x * 2 ^ (8 : Int).toNat = x * 256
    rw [show (8 : Int).toNat = 8 from rfl]
    norm_num
  rw [e]
  omega

/-- C8: codec state invariant.  The predicate `codec_inv` (predictor in
`[-32768, 32767]`, step index in `[0, 88]`) holds after completion of command
0x74 and after the reference-byte seeding of `SB_read_DMA` (active command 0x75,
for every byte read from memory), every call of `decode_adpcm_4bit` with a code
below 16 succeeds and preserves it, and under it the step table is read within
its 89 entries. -/
theorem codec_state_invariant :
    (∀ (h : Host) (s : SB16State), s.cmd = 0x74 → codec_inv (complete h s)) ∧
    (∀ (h : Host) (fuel : Nat) (s s' : SB16State) (nchan pos len pos' : Int),
      s.cmd = 0x75 → 0 < s.block_size →
      ¬ (s.voice ∧ Int.land s.audio_free (~~~ s.align) ≤ 0) →
      SB_read_DMA h fuel s nchan pos len = some (s', pos') →
      s'.adpcm_valpred = (((h.mem pos % 256 : Nat) : Int) - 128) * 256 ∧
      s'.adpcm_index = 0 ∧ codec_inv s') ∧
    (∀ (c : Nat) (s : SB16State), c < 16 → codec_inv s →
      ∃ r, decode_adpcm_4bit c s = some r ∧ codec_inv r.2) ∧
    (∀ s : SB16State, codec_inv s →
      0 ≤ s.adpcm_index ∧ s.adpcm_index.toNat < step_table.length) := by
  refine ⟨?_, ?_, ?_, ?_⟩
  · intro h s hc
    obtain ⟨q, hv, hx⟩ := complete_0x74_codec h s hc
    have hq : -128 ≤ to_int8 q ∧ to_int8 q ≤ 127 := by
      unfold to_int8; omega
    have hr := seed_range _ hq.1 hq.2
    exact ⟨by rw [hv]; exact hr.2.1, by rw [hv]; exact hr.2.2, by rw [hx], by rw [hx]; decide⟩
  · intro h fuel s s' nchan pos len pos' hc hb hfree hres
    have hfree' : ¬ (s.voice ∧
        (if s.voice then Int.land s.audio_free (~~~ s.align) else len) ≤ 0) := by
      intro hh
      apply hfree
      refine ⟨hh.1, ?_⟩
      have := hh.2
      rwa [if_pos hh.1] at this
    rw [SB_read_DMA_copy h fuel s nchan pos len (by omega) hfree' (by rw [hc]; decide)] at hres
    have hb8 : -128 ≤ (((h.mem pos % 256 : Nat) : Int) - 128) ∧
        (((h.mem pos % 256 : Nat) : Int) - 128) ≤ 127 := by omega
    have hr := seed_range _ hb8.1 hb8.2
    cases hw : write_audio h fuel pos len
        (min (min (if s.voice then Int.land s.audio_free (~~~ s.align) else len)
          (if s.left_till_irq < 0 then s.block_size else s.left_till_irq)) (len - pos)) with
    | none => rw [hw] at hres; exact absurd hres (by simp)
    | some net =>
      rw [hw] at hres
      dsimp only at hres
      by_cases hl : len = 0
      · rw [if_pos hl] at hres; exact absurd hres (by simp)
      · rw [if_neg hl] at hres
        have hs' := (Prod.mk.inj (Option.some.inj hres)).1
        have hcodec := SB_read_DMA_irq_codec
          { s with left_till_irq :=
                       (if s.left_till_irq < 0 then s.block_size else s.left_till_irq) - net,
                     audio_free := s.audio_free - net,
                     sink_bytes := s.sink_bytes + net,
                     adpcm_valpred :=
                       if s.cmd = 0x75 then
                         to_int16 (shl (((h.mem pos % 256 : Nat) : Int) - 128) 8)
                       else s.adpcm_valpred,
                     adpcm_index := if s.cmd = 0x75 then 0 else s.adpcm_index,
                     cmd := if s.cmd = 0x75 then 0x74 else s.cmd } nchan
        rw [hs'] at hcodec
        have hv : s'.adpcm_valpred = (((h.mem pos % 256 : Nat) : Int) - 128) * 256 := by
          rw [hcodec.1]
          show (if s.cmd = 0x75 then _ else _) = _
          rw [if_pos hc, to_int16_of_range _ hr.2.1 hr.2.2, hr.1]
        have hx : s'.adpcm_index = 0 := by
          rw [hcodec.2]
          show (if s.cmd = 0x75 then _ else _) = _
          rw [if_pos hc]
        refine ⟨hv, hx, ?_⟩
        unfold codec_inv
        rw [hv, hx]
        omega
  · intro c s hc hinv
    obtain ⟨r, hr, hinv', _⟩ := decode_adpcm_4bit_inv c s hc hinv.2.2.1 hinv.2.2.2
    exact ⟨r, hr, hinv'⟩
  · intro s hinv
    have h1 := hinv.2.2.1
    have h2 := hinv.2.2.2
    rw [step_table_length]
    omega

/-- Witness for C8: command 0x74 completed on the realised device, the seeding
callback with reference byte 200 and block size 16, and one decoding step. -/
theorem codec_state_invariant_witness :
    codec_inv (complete ideal_host { sb16_realized with cmd := 0x74 }) ∧
    (∃ s' pos',
      SB_read_DMA { ideal_host with mem := fun _ => 200 } 100
        { sb16_realized with cmd := 0x75, block_size := 16, left_till_irq := 16 } 1 0 64
        = some (s', pos') ∧
      s'.adpcm_valpred = 18432 ∧ s'.adpcm_index = 0 ∧ codec_inv s') ∧
    (∃ r, decode_adpcm_4bit 15 sb16_realized = some r ∧ codec_inv r.2) :=
  ⟨codec_state_invariant.1 ideal_host { sb16_realized with cmd := 0x74 } rfl,
   ⟨_, _, rfl,
    codec_state_invariant.2.1 { ideal_host with mem := fun _ => 200 } 100
      { sb16_realized with cmd := 0x75, block_size := 16, left_till_irq := 16 } _ 1 0 64 _
      rfl (by decide) (by decide) rfl⟩,
   codec_state_invariant.2.2.1 15 sb16_realized (by decide)
     ⟨by decide, by decide, by decide, by decide⟩⟩

/-! ## Block-boundary interrupt -/

/-- One playback callback on the copy path with a host that takes every byte:
`w` bytes go to the sink, at most as many as remain in the block; the interrupt
is raised exactly when the block is complete. -/
theorem SB_read_DMA_block_step (h : Host) (hh : accepts_all h) (fuel : Nat) (s : SB16State)
    (nchan pos len B : Int)
    (hlen : 0 < len) (hmax : len < 2 ^ 31) (hp0 : 0 ≤ pos) (hp1 : pos < len)
    (hB : s.block_size = B) (hL0 : 0 < s.left_till_irq) (hL1 : s.left_till_irq ≤ B)
    (hfuel : B.toNat < fuel) (hc1 : s.cmd ≠ 0x74) (hc2 : s.cmd ≠ 0x75) :
    ∃ s' pos' w, SB_read_DMA h fuel s nchan pos len = some (s', pos') ∧
      0 ≤ w ∧ w ≤ s.left_till_irq ∧ s'.sink_bytes = s.sink_bytes + w ∧
      s'.block_size = B ∧ s'.cmd = s.cmd ∧ 0 ≤ pos' ∧ pos' < len ∧
      (w < s.left_till_irq →
        s'.left_till_irq = s.left_till_irq - w ∧ s'.irq_raises = s.irq_raises ∧
        s'.mixer_regs = s.mixer_regs) ∧
      (w = s.left_till_irq →
        s'.left_till_irq = B ∧ s'.irq_raises = s.irq_raises + 1 ∧
        (s'.mixer_regs 0x82).testBit (if Int.land nchan 4 ≠ 0 then 1 else 0) = true) := by
  have hL : (if s.left_till_irq < 0 then s.block_size else s.left_till_irq) = s.left_till_irq :=
    if_neg (by omega)
  have hb : ¬ s.block_size ≤ 0 := by omega
  by_cases hfree : s.voice ∧
      (if s.voice then Int.land s.audio_free (~~~ s.align) else len) ≤ 0
  · have e := SB_read_DMA_nofree h fuel s nchan pos len hb hfree
    rw [hL] at e
    refine ⟨_, pos, 0, e, le_refl 0, by omega, ?_, hB, rfl, hp0, hp1, ?_, ?_⟩
    · show s.sink_bytes = s.sink_bytes + 0
      omega
    · intro _
      refine ⟨?_, rfl, rfl⟩
      show s.left_till_irq = s.left_till_irq - 0
      omega
    · intro hw
      omega
  · obtain ⟨free, hfd, hfp⟩ : ∃ free : Int,
        free = (if s.voice then Int.land s.audio_free (~~~ s.align) else len) ∧ 0 < free := by
      refine ⟨_, rfl, ?_⟩
      by_cases hv : s.voice
      · rw [if_pos hv]
        by_contra hcon
        exact hfree ⟨hv, by rw [if_pos hv]; omega⟩
      · rw [if_neg hv]; exact hlen
    have e := SB_read_DMA_copy h fuel s nchan pos len hb hfree hc1
    rw [hL, ← hfd] at e
    obtain ⟨w, hwd, hw0, hw1, hw2⟩ : ∃ w : Int,
        w = min (min free s.left_till_irq) (len - pos) ∧ 0 < w ∧ w ≤ s.left_till_irq ∧
        w ≤ len - pos := ⟨_, rfl, by omega, by omega, by omega⟩
    rw [← hwd] at e
    have hwa := write_audio_all h hh fuel pos len w hlen hmax (by omega) (by omega) hp0 hw2
    rw [hwa] at e
    dsimp only at e
    rw [if_neg (by omega), if_neg hc2, if_neg hc2, if_neg hc2, if_neg hc2] at e
    have hpos' : 0 ≤ (pos + w).tmod len ∧ (pos + w).tmod len < len := by
      rw [Int.tmod_eq_emod (by omega) (by omega)]
      exact ⟨Int.emod_nonneg _ (by omega), Int.emod_lt_of_pos _ hlen⟩
    by_cases hlt : w < s.left_till_irq
    · have hbefore := SB_read_DMA_irq_before
        { s with left_till_irq := s.left_till_irq - w, audio_free := s.audio_free - w,
                 sink_bytes := s.sink_bytes + w } nchan
        (by show ¬ (s.left_till_irq - w ≤ 0); omega)
      rw [hbefore] at e
      refine ⟨_, _, w, e, by omega, hw1, rfl, hB, rfl, hpos'.1, hpos'.2, ?_, ?_⟩
      · intro _; exact ⟨rfl, rfl, rfl⟩
      · intro hw; omega
    · have hweq : w = s.left_till_irq := by omega
      have hbd := SB_read_DMA_irq_boundary
        { s with left_till_irq := s.left_till_irq - w, audio_free := s.audio_free - w,
                 sink_bytes := s.sink_bytes + w } nchan
        (by show s.left_till_irq - w ≤ 0; omega) (by show s.block_size > 0; omega)
      obtain ⟨b1, b2, b3, b4, b5, b6⟩ := hbd
      refine ⟨_, _, w, e, by omega, hw1, b6, by rw [b4]; exact hB, b5, hpos'.1, hpos'.2, ?_, ?_⟩
      · intro hw; omega
      · intro _
        refine ⟨?_, b2, ?_⟩
        · rw [b1]
          show s.block_size + (s.left_till_irq - w).tmod s.block_size = B
          rw [hweq, hB]
          simp
        · rw [b3]
          show ((s.mixer_regs 0x82 ||| (if Int.land nchan 4 ≠ 0 then 2 else 1)) % 256).testBit
            (if Int.land nchan 4 ≠ 0 then 1 else 0) = true
          by_cases hn : Int.land nchan 4 ≠ 0
          · rw [if_pos hn, if_pos hn]; exact ack_bit_set _ 1 (by decide)
          · rw [if_neg hn, if_neg hn]; exact ack_bit_set _ 0 (by decide)

/-- A run of playback callbacks inside one block: as long as fewer bytes than
remain in the block have gone to the sink no interrupt is raised; when exactly
the remainder has gone, the interrupt was raised once and the counter reloaded. -/
theorem playback_run_block (h : Host) (hh : accepts_all h) (fuel : Nat) (nchan len B : Int)
    (hlen : 0 < len) (hmax : len < 2 ^ 31) (hfuel : B.toNat < fuel) :
    ∀ (steps : List (Option Int)) (s : SB16State) (pos : Int),
      s.block_size = B → 0 < s.left_till_irq → s.left_till_irq ≤ B →
      s.cmd ≠ 0x74 → s.cmd ≠ 0x75 → 0 ≤ pos → pos < len →
      ∃ s' pos', playback_run h fuel nchan len steps (s, pos) = some (s', pos') ∧
        s.sink_bytes ≤ s'.sink_bytes ∧
        (s'.sink_bytes - s.sink_bytes < s.left_till_irq →
          s'.irq_raises = s.irq_raises ∧
          s'.left_till_irq = s.left_till_irq - (s'.sink_bytes - s.sink_bytes) ∧
          s'.mixer_regs = s.mixer_regs) ∧
        (s'.sink_bytes - s.sink_bytes = s.left_till_irq →
          s'.irq_raises = s.irq_raises + 1 ∧ s'.left_till_irq = B ∧
          (s'.mixer_regs 0x82).testBit (if Int.land nchan 4 ≠ 0 then 1 else 0) = true) := by
  intro steps
  induction steps with
  | nil =>
    intro s pos hB hL0 hL1 hc1 hc2 hp0 hp1
    refine ⟨s, pos, rfl, le_refl _, ?_, ?_⟩
    · intro _; exact ⟨rfl, by omega, rfl⟩
    · intro ht; omega
  | cons f fs ih =>
    intro s pos hB hL0 hL1 hc1 hc2 hp0 hp1
    -- the state handed to `SB_read_DMA`
    obtain ⟨s1, hs1, e1, e2, e3, e4, e5, e6⟩ : ∃ s1 : SB16State,
        playback_step h fuel nchan len f (s, pos) = SB_read_DMA h fuel s1 nchan pos len ∧
        s1.block_size = s.block_size ∧ s1.left_till_irq = s.left_till_irq ∧ s1.cmd = s.cmd ∧
        s1.sink_bytes = s.sink_bytes ∧ s1.irq_raises = s.irq_raises ∧
        s1.mixer_regs = s.mixer_regs := by
      cases f with
      | none => exact ⟨s, rfl, rfl, rfl, rfl, rfl, rfl, rfl⟩
      | some v => exact ⟨SB_audio_callback s v, rfl, rfl, rfl, rfl, rfl, rfl, rfl⟩
    obtain ⟨s2, pos2, w, hstep, hw0, hw1, hsink, hB2, hcmd2, hq0, hq1, hlt, heq⟩ :=
      SB_read_DMA_block_step h hh fuel s1 nchan pos len B hlen hmax hp0 hp1
        (by rw [e1]; exact hB) (by rw [e2]; exact hL0) (by rw [e2]; exact hL1) hfuel
        (by rw [e3]; exact hc1) (by rw [e3]; exact hc2)
    rw [e2] at hw1 hlt heq
    rw [e4] at hsink
    rw [e5, e6] at hlt
    rw [e5] at heq
    rw [e3] at hcmd2
    have hL2 : 0 < s2.left_till_irq ∧ s2.left_till_irq ≤ B := by
      by_cases hwl : w < s.left_till_irq
      · rw [(hlt hwl).1]; omega
      · rw [(heq (by omega)).1]; omega
    obtain ⟨s', pos', hrun, hmono, hlt', heq'⟩ :=
      ih s2 pos2 hB2 hL2.1 hL2.2 (by rw [hcmd2]; exact hc1) (by rw [hcmd2]; exact hc2) hq0 hq1
    refine ⟨s', pos', ?_, by omega, ?_, ?_⟩
    · show (match playback_step h fuel nchan len f (s, pos) with
        | none => none
        | some sp1 => playback_run h fuel nchan len fs sp1) = _
      rw [hs1, hstep]
      exact hrun
    · intro ht
      have hwl : w < s.left_till_irq := by omega
      obtain ⟨a1, a2, a3⟩ := hlt hwl
      obtain ⟨c1, c2, c3⟩ := hlt' (by rw [a1]; omega)
      exact ⟨by rw [c1, a2], by rw [c2, a1]; omega, by rw [c3, a3]⟩
    · intro ht
      by_cases hwl : w < s.left_till_irq
      · obtain ⟨a1, a2, a3⟩ := hlt hwl
        obtain ⟨c1, c2, c3⟩ := heq' (by rw [a1]; omega)
        exact ⟨by rw [c1, a2], c2, c3⟩
      · obtain ⟨a1, a2, a3⟩ := heq (by omega)
        obtain ⟨c1, c2, c3⟩ := hlt' (by rw [a1]; omega)
        exact ⟨by rw [c1, a2], by rw [c2, a1]; omega, by rw [c3]; exact a3⟩

/-- C9: block-boundary interrupt.  Let the block size and the remaining counter
both be `B > 0`, the active command be neither 0x74 nor 0x75, and the host take
every byte it is offered.  Every run of playback callbacks returns; while it has
sent fewer than `B` bytes to the sink no interrupt has been raised, and once it
has sent exactly `B` bytes the interrupt was raised exactly once, the
acknowledgement bit of the channel is set in mixer register 0x82 and the
remaining counter is `B` again.  (The free space of the sink before each
callback is arbitrary; as the statement holds for every run it holds for every
prefix, so the interrupt is raised by the callback that completes the block.) -/
theorem block_boundary_irq (h : Host) (hh : accepts_all h) (fuel : Nat) (s : SB16State)
    (nchan pos len B : Int) (steps : List (Option Int))
    (hB0 : 0 < B) (hB : s.block_size = B) (hL : s.left_till_irq = B)
    (hc1 : s.cmd ≠ 0x74) (hc2 : s.cmd ≠ 0x75)
    (hlen : 0 < len) (hmax : len < 2 ^ 31) (hp0 : 0 ≤ pos) (hp1 : pos < len)
    (hfuel : B.toNat < fuel) :
    ∃ s' pos', playback_run h fuel nchan len steps (s, pos) = some (s', pos') ∧
      (s'.sink_bytes - s.sink_bytes < B → s'.irq_raises = s.irq_raises) ∧
      (s'.sink_bytes - s.sink_bytes = B →
        s'.irq_raises = s.irq_raises + 1 ∧
        (s'.mixer_regs 0x82).testBit (if Int.land nchan 4 ≠ 0 then 1 else 0) = true ∧
        s'.left_till_irq = B) := by
  obtain ⟨s', pos', hrun, _, hlt, heq⟩ :=
    playback_run_block h hh fuel nchan len B hlen hmax hfuel steps s pos hB
      (by omega) (by omega) hc1 hc2 hp0 hp1
  rw [hL] at hlt heq
  refine ⟨s', pos', hrun, fun ht => (hlt ht).1, fun ht => ?_⟩
  obtain ⟨a, b, c⟩ := heq ht
  exact ⟨a, c, b⟩

theorem accepts_all_ideal_host : accepts_all ideal_host :=
  ⟨fun _ _ _ => rfl, fun _ _ => rfl⟩

/-- Witness for C9: a block of 8 bytes sent in two callbacks of 3 and 5 bytes
(the first one stops at the end of the 64-byte ring). -/
theorem block_boundary_irq_witness :
    (∃ s' pos',
      playback_run ideal_host 100 1 64 [none, none]
        ({ sb16_realized with block_size := 8, left_till_irq := 8 }, 61) = some (s', pos') ∧
      (s'.sink_bytes - 0 < 8 → s'.irq_raises = 0) ∧
      (s'.sink_bytes - 0 = 8 →
        s'.irq_raises = 0 + 1 ∧ (s'.mixer_regs 0x82).testBit 0 = true ∧
        s'.left_till_irq = 8)) ∧
    (playback_run ideal_host 100 1 64 [none, none]
        ({ sb16_realized with block_size := 8, left_till_irq := 8 }, 61)).map
      (fun r => (r.1.sink_bytes, r.1.irq_raises, r.1.left_till_irq, r.2)) = some (8, 1, 8, 5) ∧
    (playback_run ideal_host 100 1 64 [none]
        ({ sb16_realized with block_size := 8, left_till_irq := 8 }, 61)).map
      (fun r => (r.1.sink_bytes, r.1.irq_raises, r.1.left_till_irq, r.2)) = some (3, 0, 5, 0) :=
  ⟨block_boundary_irq ideal_host accepts_all_ideal_host 100
      { sb16_realized with block_size := 8, left_till_irq := 8 } 1 61 64 8
      [none, none] (by decide) rfl rfl (by decide) (by decide) (by decide) (by decide)
      (by decide) (by decide) (by decide),
    rfl, rfl⟩

/-! ## Mixer register aliasing -/

set_option maxRecDepth 100000 in
theorem byte_nibbles : ∀ v : Fin 256,
    ((v.val &&& 0xf0) % 256 = v.val &&& 0xf0) ∧
    (((v.val &&& 0x0f) <<< 4) % 256 = (v.val &&& 0x0f) <<< 4) ∧
    (((v.val &&& 0xf0) &&& 0xf0) ||| (((v.val &&& 0x0f) <<< 4) >>> 4)) = v.val := by
  decide

theorem nibble_join_lt (a b : Nat) (hb : b < 256) : ((a &&& 0xf0) ||| (b >>> 4)) < 256 := by
  have h1 : a &&& 0xf0 < 2 ^ 8 := Nat.and_lt_two_pow a (by norm_num)
  have h2 : b >>> 4 < 2 ^ 8 := by
    rw [Nat.shiftRight_eq_div_pow]
    exact lt_of_le_of_lt (Nat.div_le_self _ _) hb
  exact Nat.or_lt_two_pow h1 h2

/-- The legacy register 0x22 after a data write with index 0x30 selected. -/
theorem mixer_write_0x30 (s : SB16State) (v : Nat) (hsel : s.mixer_nreg = 0x30) :
    (mixer_write_datab s v).mixer_regs 0x22
      = ((v % 256 &&& 0xf0) ||| (s.mixer_regs 0x31 >>> 4)) % 256 := by
  unfold mixer_write_datab
  rw [hsel]
  rw [if_neg (by decide), if_neg (by decide), if_neg (by decide), if_neg (by decide),
    if_pos (by decide)]
  rfl

/-- C14: with mixer index 0x82 selected, a write to the mixer data port leaves
the whole state unchanged. -/
theorem mixer_write_0x82_rejected (s : SB16State) (v : Nat) (hsel : s.mixer_nreg = 0x82) :
    mixer_write_datab s v = s := by
  unfold mixer_write_datab
  rw [hsel]
  rw [if_neg (by decide), if_neg (by decide), if_neg (by decide), if_neg (by decide),
    if_neg (by decide), if_neg (by decide), if_neg (by decide), if_pos rfl]

theorem mixer_write_0x82_rejected_witness :
    mixer_write_datab (mixer_write_indexb sb16_realized 0x82) 0xff
      = mixer_write_indexb sb16_realized 0x82 :=
  mixer_write_0x82_rejected (mixer_write_indexb sb16_realized 0x82) 0xff rfl

/-- C11: selecting index 0x30 and writing the byte `v`, then selecting index
0x22 and reading, returns `(v & 0xF0) | (mixer_regs[0x31] >> 4)`. -/
theorem mixer_ext_to_legacy (s : SB16State) (v : Nat) (hv : v < 256)
    (h31 : s.mixer_regs 0x31 < 256) :
    mixer_read (mixer_write_indexb (mixer_write_datab (mixer_write_indexb s 0x30) v) 0x22)
      = (v &&& 0xf0) ||| (s.mixer_regs 0x31 >>> 4) := by
  show (mixer_write_datab (mixer_write_indexb s 0x30) v).mixer_regs 0x22 = _
  rw [mixer_write_0x30 (mixer_write_indexb s 0x30) v rfl, Nat.mod_eq_of_lt hv]
  exact Nat.mod_eq_of_lt (nibble_join_lt v _ h31)

theorem mixer_ext_to_legacy_witness :
    mixer_read (mixer_write_indexb
        (mixer_write_datab (mixer_write_indexb sb16_realized 0x30) 0xa7) 0x22)
      = (0xa7 &&& 0xf0) ||| (sb16_realized.mixer_regs 0x31 >>> 4) :=
  mixer_ext_to_legacy sb16_realized 0xa7 (by decide) (by decide)

/-- The registers after a data write with a legacy volume index selected. -/
theorem mixer_write_legacy (s : SB16State) (v : Nat) :
    (s.mixer_nreg = 0x22 → (mixer_write_datab s v).mixer_regs =
      setb (setb (setb s.mixer_regs 0x22 (v % 256)) 0x30 ((v &&& 0xf0) % 256)) 0x31
        (((v &&& 0x0f) <<< 4) % 256)) ∧
    (s.mixer_nreg = 0x04 → (mixer_write_datab s v).mixer_regs =
      setb (setb (setb s.mixer_regs 0x04 (v % 256)) 0x32 ((v &&& 0xf0) % 256)) 0x33
        (((v &&& 0x0f) <<< 4) % 256)) ∧
    (s.mixer_nreg = 0x26 → (mixer_write_datab s v).mixer_regs =
      setb (setb (setb s.mixer_regs 0x26 (v % 256)) 0x34 ((v &&& 0xf0) % 256)) 0x35
        (((v &&& 0x0f) <<< 4) % 256)) := by
  refine ⟨fun hsel => ?_, fun hsel => ?_, fun hsel => ?_⟩
  · unfold mixer_write_datab
    rw [hsel, if_neg (by decide), if_neg (by decide), if_pos rfl]
  · unfold mixer_write_datab
    rw [hsel, if_neg (by decide), if_pos rfl]
  · unfold mixer_write_datab
    rw [hsel, if_neg (by decide), if_neg (by decide), if_neg (by decide), if_pos rfl]

/-- Reading back three distinct cells written in a row. -/
theorem setb3_read (a : Int → Nat) (l e1 e2 : Int) (x y z : Nat) (h1 : l ≠ e1) (h2 : l ≠ e2)
    (h3 : e1 ≠ e2) :
    setb (setb (setb a l x) e1 y) e2 z l = x ∧ setb (setb (setb a l x) e1 y) e2 z e1 = y ∧
    setb (setb (setb a l x) e1 y) e2 z e2 = z := by
  simp [setb, h1, h2, h3]

/-- C12: for each triple of a legacy volume register and its extended pair
(0x22 with 0x30/0x31, 0x04 with 0x32/0x33, 0x26 with 0x34/0x35) and every byte
`v`, writing `v` to the legacy register leaves `v` there, sets the left
extended register to `v & 0xF0` and the right one to `(v & 0x0F) << 4`, and
recombining the pair as `(left & 0xF0) | (right >> 4)` gives `v` back. -/
theorem mixer_legacy_to_ext (s : SB16State) (v : Nat) (hv : v < 256)
    (t : Nat × Nat × Nat)
    (ht : t ∈ [((0x22 : Nat), (0x30 : Nat), (0x31 : Nat)), (0x04, 0x32, 0x33),
      (0x26, 0x34, 0x35)]) :
    (mixer_write_datab (mixer_write_indexb s t.1) v).mixer_regs t.1 = v ∧
    (mixer_write_datab (mixer_write_indexb s t.1) v).mixer_regs t.2.1 = v &&& 0xf0 ∧
    (mixer_write_datab (mixer_write_indexb s t.1) v).mixer_regs t.2.2 = (v &&& 0x0f) <<< 4 ∧
    (((mixer_write_datab (mixer_write_indexb s t.1) v).mixer_regs t.2.1 &&& 0xf0) |||
      ((mixer_write_datab (mixer_write_indexb s t.1) v).mixer_regs t.2.2 >>> 4)) = v := by
  obtain ⟨hb1, hb2, hb3⟩ := byte_nibbles ⟨v, hv⟩
  dsimp only at hb1 hb2 hb3
  have hmod : v % 256 = v := Nat.mod_eq_of_lt hv
  simp only [List.mem_cons, List.mem_singleton, List.not_mem_nil, or_false] at ht
  rcases ht with rfl | rfl | rfl <;> dsimp only <;> simp only [Nat.cast_ofNat]
  · rw [(mixer_write_legacy (mixer_write_indexb s 0x22) v).1 rfl]
    obtain ⟨r0, r1, r2⟩ := setb3_read (mixer_write_indexb s 0x22).mixer_regs 0x22 0x30 0x31
      (v % 256) ((v &&& 0xf0) % 256) (((v &&& 0x0f) <<< 4) % 256)
      (by decide) (by decide) (by decide)
    rw [r0, r1, r2, hmod, hb1, hb2]
    exact ⟨rfl, rfl, rfl, hb3⟩
  · rw [(mixer_write_legacy (mixer_write_indexb s 0x04) v).2.1 rfl]
    obtain ⟨r0, r1, r2⟩ := setb3_read (mixer_write_indexb s 0x04).mixer_regs 0x04 0x32 0x33
      (v % 256) ((v &&& 0xf0) % 256) (((v &&& 0x0f) <<< 4) % 256)
      (by decide) (by decide) (by decide)
    rw [r0, r1, r2, hmod, hb1, hb2]
    exact ⟨rfl, rfl, rfl, hb3⟩
  · rw [(mixer_write_legacy (mixer_write_indexb s 0x26) v).2.2 rfl]
    obtain ⟨r0, r1, r2⟩ := setb3_read (mixer_write_indexb s 0x26).mixer_regs 0x26 0x34 0x35
      (v % 256) ((v &&& 0xf0) % 256) (((v &&& 0x0f) <<< 4) % 256)
      (by decide) (by decide) (by decide)
    rw [r0, r1, r2, hmod, hb1, hb2]
    exact ⟨rfl, rfl, rfl, hb3⟩

theorem mixer_legacy_to_ext_witness :
    (mixer_write_datab (mixer_write_indexb sb16_realized 0x04) 0x5c).mixer_regs (0x04 : Nat) = 0x5c ∧
    (mixer_write_datab (mixer_write_indexb sb16_realized 0x04) 0x5c).mixer_regs (0x32 : Nat)
      = 0x5c &&& 0xf0 ∧
    (mixer_write_datab (mixer_write_indexb sb16_realized 0x04) 0x5c).mixer_regs (0x33 : Nat)
      = (0x5c &&& 0x0f) <<< 4 ∧
    (((mixer_write_datab (mixer_write_indexb sb16_realized 0x04) 0x5c).mixer_regs (0x32 : Nat)
        &&& 0xf0) |||
      ((mixer_write_datab (mixer_write_indexb sb16_realized 0x04) 0x5c).mixer_regs (0x33 : Nat)
        >>> 4)) = 0x5c :=
  mixer_legacy_to_ext sb16_realized 0x5c (by decide) (0x04, 0x32, 0x33) (by decide)

/-! ## Block sizes -/

theorem nat_ldiff_zero (n : Nat) : Nat.ldiff n 0 = n := by
  apply Nat.eq_of_testBit_eq
  intro i
  rw [Nat.testBit_ldiff]
  simp

theorem nat_ldiff_one (n : Nat) : Nat.ldiff n 1 = n - n % 2 := by
  apply Nat.eq_of_testBit_eq
  intro i
  rw [Nat.testBit_ldiff]
  have h2 : n - n % 2 = 2 * (n / 2) := by omega
  rw [h2]
  cases i with
  | zero => simp [Nat.testBit_zero]
  | succ j =>
    rw [Nat.testBit_succ, Nat.testBit_succ, Nat.testBit_succ]
    simp

/-- The C expression `x & ~0` on `int`. -/
theorem land_not_zero (x : Int) : Int.land x (~~~ (0 : Int)) = x := by
  cases x with
  | ofNat n =>
    show ((Nat.ldiff n 0 : Nat) : Int) = _
    rw [nat_ldiff_zero]
    rfl
  | negSucc n =>
    show Int.negSucc (n ||| 0) = _
    rw [Nat.or_zero]

/-- The C expression `x & ~1` on `int`: bit 0 is cleared. -/
theorem land_not_one (x : Int) : Int.land x (~~~ (1 : Int)) = x - x % 2 := by
  cases x with
  | ofNat n =>
    show ((Nat.ldiff n 1 : Nat) : Int) = _
    rw [nat_ldiff_one]
    have : n % 2 ≤ n := Nat.mod_le _ _
    simp only [Int.ofNat_eq_coe]
    omega
  | negSucc n =>
    show Int.negSucc (n ||| 1) = _
    have h1 : n ||| 1 = n + (1 - n % 2) := by
      apply Nat.eq_of_testBit_eq
      intro i
      rw [Nat.testBit_or]
      rcases Nat.mod_two_eq_zero_or_one n with h0 | h0
      · have hn : n = 2 * (n / 2) := by omega
        rw [h0, show n + (1 - 0) = 2 * (n / 2) + 1 by omega]
        cases i with
        | zero => simp [Nat.testBit_zero, h0, Nat.add_mod]
        | succ j =>
          rw [Nat.testBit_succ, Nat.testBit_succ, Nat.testBit_succ]
          have : (2 * (n / 2) + 1) / 2 = n / 2 := by omega
          rw [this]
          simp
      · rw [h0]
        cases i with
        | zero => simp [Nat.testBit_zero, h0]
        | succ j =>
          rw [Nat.testBit_succ, Nat.testBit_succ, Nat.testBit_succ]
          simp
    rw [h1]
    simp only [Int.negSucc_eq]
    rcases Nat.mod_two_eq_zero_or_one n with h0 | h0 <;> rw [h0] <;> push_cast <;> omega

theorem or_bytes (a b : Nat) (hb : b < 256) : ((a <<< 8) ||| b) = 256 * a + b := by
  rw [Nat.shiftLeft_eq, Nat.mul_comm]
  exact (Nat.mul_add_lt_is_or (show b < 2 ^ 8 from hb) a).symm

/-- C15: for every extended DMA playback opcode `c` (0xB0..0xCF) with mode byte
`d0` and length parameter `p`, `dma_cmd` sets
`block_size = ((p + 1) << s16) << st`, where `s16` is 1 when the high nibble of
the opcode is 0xB and 0 otherwise, and `st` is bit 5 of `d0` when the auto-init
bit (bit 2 of the opcode) is clear and 0 when it is set; `left_till_irq`
receives the same value. -/
theorem dma_cmd_block_size_rule (h : Host) (s : SB16State) (c d0 : Nat) (p : Int)
    (hc1 : 0xb0 ≤ c) (hc2 : c ≤ 0xcf) :
    (dma_cmd h s c d0 p).block_size =
      (p + (1 : Int)) * (2 : Int) ^ (if c >>> 4 = 0xb then 1 else 0 : Nat)
        * (2 : Int) ^ (if (c >>> 2) &&& 1 = 0 then (d0 >>> 5) &&& 1 else 0 : Nat) ∧
    (dma_cmd h s c d0 p).left_till_irq =
      (p + (1 : Int)) * (2 : Int) ^ (if c >>> 4 = 0xb then 1 else 0 : Nat)
        * (2 : Int) ^ (if (c >>> 2) &&& 1 = 0 then (d0 >>> 5) &&& 1 else 0 : Nat) := by
  have hl : (dma_cmd h s c d0 p).left_till_irq = (dma_cmd h s c d0 p).block_size := rfl
  rw [hl, and_self, dma_cmd_block_size]
  have h4 : c >>> 4 = 11 ∨ c >>> 4 = 12 := by
    rw [Nat.shiftRight_eq_div_pow]; omega
  have e16 : b2i (decide ((if c >>> 4 = 11 then (16 : Int) else if c >>> 4 = 12 then 8
      else s.fmt_bits) = 16)) = ((if c >>> 4 = 11 then 1 else 0 : Nat) : Int) := by
    rcases h4 with h4 | h4 <;> simp [h4, b2i]
  rw [e16]
  by_cases ha : (c >>> 2) &&& 1 = 0
  · have hcond : (((c >>> 2) &&& 1 : Nat) : Int) = 0 := by rw [ha]; rfl
    rw [if_pos hcond, if_pos ha]
    simp only [shl, Int.toNat_ofNat]
  · have hcond : ¬ (((c >>> 2) &&& 1 : Nat) : Int) = 0 := by
      intro hh; exact ha (by exact_mod_cast hh)
    rw [if_neg hcond, if_neg ha]
    simp only [shl, Int.toNat_ofNat, pow_zero, mul_one]

/-- Witness for C15: opcode 0xB0 (16-bit, single cycle), stereo mode 0x20,
length 0x00FF. -/
theorem dma_cmd_block_size_rule_witness :
    (dma_cmd ideal_host sb16_realized 0xb0 0x20 0xff).block_size = 1024 ∧
    (dma_cmd ideal_host sb16_realized 0xb0 0x20 0xff).left_till_irq = 1024 :=
  dma_cmd_block_size_rule ideal_host sb16_realized 0xb0 0x20 0xff (by decide) (by decide)

/-- Block size chosen by `dma_cmd8`; `left_till_irq` is loaded with it. -/
theorem dma_cmd8_block_size (h : Host) (s : SB16State) (mask dma_len : Int) :
    (dma_cmd8 h s mask dma_len).block_size =
      (if dma_len ≠ -1 then shl dma_len (b2i (s.mixer_regs 0x0e &&& 2 != 0))
       else Int.land s.block_size (~~~ (b2i (s.mixer_regs 0x0e &&& 2 != 0)))) ∧
    (dma_cmd8 h s mask dma_len).left_till_irq = (dma_cmd8 h s mask dma_len).block_size :=
  ⟨rfl, rfl⟩

/-- Command 0x14 with its two length bytes, written from the idle state, runs
`dma_cmd8` with the second byte as the high byte of the length. -/
theorem write_0x14 (h : Host) (s : SB16State) (b0 b1 : Nat)
    (hidle : s.needed_bytes = 0) (hin : s.in_index = 0) :
    dsp_write_cmds h s [0x14, b0, b1] =
      { dma_cmd8 h
          { s with needed_bytes := 0, block_size := 0, cmd := 0x14, in_index := 0,
                   in2_data := setb (setb s.in2_data 0 (b0 % 256)) 1 (b1 % 256) }
          0 (((((b1 % 256) <<< 8) ||| (b0 % 256)) % 65536 : Nat) + 1) with cmd := -1 } := by
  simp only [dsp_write_cmds, List.foldl]
  rw [dsp_write_idle h s _ hidle]
  rw [show 20 % 256 = 20 from rfl, show command h s 20 =
    { s with needed_bytes := 2, block_size := 0, cmd := 0x14 } from rfl]
  rw [dsp_write_command_port, dsp_write_command_port]
  cases s
  dsimp only at hidle hin
  subst hidle hin
  rfl

/-- Block size after a legacy 8-bit DMA command written from the idle state. -/
theorem legacy_dma_block (h : Host) (s : SB16State) (b0 b1 : Nat)
    (hidle : s.needed_bytes = 0) (hin : s.in_index = 0) :
    (∀ c : Nat, c = 0x1c ∨ c = 0x90 ∨ c = 0x91 →
      (dsp_write_cmds h s [c]).block_size =
        Int.land s.block_size (~~~ (b2i (s.mixer_regs 0x0e &&& 2 != 0))) ∧
      (dsp_write_cmds h s [c]).left_till_irq = (dsp_write_cmds h s [c]).block_size) ∧
    (dsp_write_cmds h s [0x14, b0, b1]).block_size =
      shl (((((b1 % 256) <<< 8) ||| (b0 % 256)) % 65536 : Nat) + 1)
        (b2i (s.mixer_regs 0x0e &&& 2 != 0)) ∧
    (dsp_write_cmds h s [0x14, b0, b1]).left_till_irq =
      (dsp_write_cmds h s [0x14, b0, b1]).block_size := by
  refine ⟨?_, ?_, ?_⟩
  · intro c hc
    rcases hc with rfl | rfl | rfl
    · simp only [dsp_write_cmds, List.foldl]
      rw [dsp_write_idle h s _ hidle]
      exact ⟨rfl, rfl⟩
    · simp only [dsp_write_cmds, List.foldl]
      rw [dsp_write_idle h s _ hidle]
      exact ⟨rfl, rfl⟩
    · simp only [dsp_write_cmds, List.foldl]
      rw [dsp_write_idle h s _ hidle]
      exact ⟨rfl, rfl⟩
  · rw [write_0x14 h s b0 b1 hidle hin]
    dsimp only
    rw [(dma_cmd8_block_size h _ 0 _).1]
    have hne : ((((((b1 % 256) <<< 8) ||| (b0 % 256)) % 65536 : Nat) : Int) + 1 ≠ -1) := by
      omega
    rw [if_pos hne]
  · rw [write_0x14 h s b0 b1 hidle hin]
    rfl

/-- Two operand bytes written after a two-operand opcode complete the command. -/
theorem collect2 (h : Host) (s : SB16State) (b0 b1 : Nat)
    (hn : s.needed_bytes = 2) (hin : s.in_index = 0) :
    dsp_write_cmds h s [b0, b1] =
      complete h { s with in2_data := setb (setb s.in2_data 0 (b0 % 256)) 1 (b1 % 256),
                          in_index := 2, needed_bytes := 0 } := by
  simp only [dsp_write_cmds, List.foldl]
  rw [dsp_write_more h s b0 (by rw [hn]; decide) (by rw [hin]; decide)
    (by rw [hn, hin]; decide)]
  rw [dsp_write_last h _ b1 (by show s.needed_bytes ≠ 0; rw [hn]; decide)
    (by show s.in_index + 1 ≠ 10; rw [hin]; decide)
    (by show s.in_index + 1 + 1 = s.needed_bytes; rw [hn, hin]; decide)]
  refine congrArg (complete h) ?_
  cases s
  dsimp only at hn hin
  subst hn hin
  rfl

/-- Completion of commands 0x41 and 0x42: the rate is the clamped operand pair
read high byte first. -/
theorem complete_rate (h : Host) (s : SB16State) (hc : s.cmd = 0x41 ∨ s.cmd = 0x42) :
    (complete h s).freq = restrict_sampling_rate ((dsp_get_hilo s).1 : Nat) := by
  have hne : ∀ k : Int, k ≠ 0x41 → k ≠ 0x42 → ¬ s.cmd = k := by
    intro k h1 h2 hk
    rcases hc with hc | hc
    · exact h1 (hk.symm.trans hc)
    · exact h2 (hk.symm.trans hc)
  have hr : ¬ (s.cmd > 0xaf ∧ s.cmd < 0xd0) := by
    rcases hc with hc | hc <;> rw [hc] <;> decide
  unfold complete
  rw [if_neg hr, if_neg (hne _ (by decide) (by decide)), if_neg (hne _ (by decide) (by decide)),
    if_neg (hne _ (by decide) (by decide)), if_neg (hne _ (by decide) (by decide)),
    if_neg (hne _ (by decide) (by decide)), if_neg (hne _ (by decide) (by decide)),
    if_neg (hne _ (by decide) (by decide)), if_pos hc]

/-- Commands 0x41, 0x42 and 0x48 with their two operand bytes, written from the
idle state. -/
theorem write_rate_block (h : Host) (s : SB16State) (b0 b1 : Nat)
    (hidle : s.needed_bytes = 0) (hin : s.in_index = 0) :
    (dsp_write_cmds h s [0x41, b0, b1]).freq =
      restrict_sampling_rate ((((b0 % 256) <<< 8) ||| (b1 % 256)) % 65536 : Nat) ∧
    (dsp_write_cmds h s [0x42, b0, b1]).freq =
      restrict_sampling_rate ((((b0 % 256) <<< 8) ||| (b1 % 256)) % 65536 : Nat) ∧
    (dsp_write_cmds h s [0x48, b0, b1]).block_size =
      ((((b1 % 256) <<< 8) ||| (b0 % 256)) % 65536 : Nat) + 1 ∧
    (dsp_write_cmds h s [0x48, b0, b1]).left_till_irq =
      ((((b1 % 256) <<< 8) ||| (b0 % 256)) % 65536 : Nat) + 1 := by
  refine ⟨?_, ?_, ?_, ?_⟩
  · rw [dsp_write_cmds_cons, dsp_write_idle h s _ hidle]
    rw [show 0x41 % 256 = 0x41 from rfl, show command h s 0x41 =
      { s with freq := -1, time_const := -1, needed_bytes := 2, cmd := 0x41 } from rfl]
    have step := collect2 h
      { s with freq := -1, time_const := -1, needed_bytes := 2, cmd := 0x41 } b0 b1 rfl hin
    rw [step]
    refine (complete_rate h _ (Or.inl rfl)).trans ?_
    rfl
  · rw [dsp_write_cmds_cons, dsp_write_idle h s _ hidle]
    rw [show 0x42 % 256 = 0x42 from rfl, show command h s 0x42 =
      { s with freq := -1, time_const := -1, needed_bytes := 2, cmd := 0x42 } from rfl]
    have step := collect2 h
      { s with freq := -1, time_const := -1, needed_bytes := 2, cmd := 0x42 } b0 b1 rfl hin
    rw [step]
    refine (complete_rate h _ (Or.inr rfl)).trans ?_
    rfl
  · simp only [dsp_write_cmds, List.foldl]
    rw [dsp_write_idle h s _ hidle]
    rw [show 0x48 % 256 = 0x48 from rfl, show command h s 0x48 =
      { s with needed_bytes := 2, cmd := 0x48 } from rfl]
    rw [dsp_write_command_port, dsp_write_command_port]
    cases s
    dsimp only at hidle hin
    subst hidle hin
    rfl
  · simp only [dsp_write_cmds, List.foldl]
    rw [dsp_write_idle h s _ hidle]
    rw [show 0x48 % 256 = 0x48 from rfl, show command h s 0x48 =
      { s with needed_bytes := 2, cmd := 0x48 } from rfl]
    rw [dsp_write_command_port, dsp_write_command_port]
    cases s
    dsimp only at hidle hin
    subst hidle hin
    rfl

/-- C16: legacy block-size policy, with `st` = 1 when bit 1 of mixer register
0x0E is set and 0 otherwise.  From the idle state, command 0x14 with the length
bytes `b0`, `b1` sets `block_size = (b0 + 256 * b1 + 1) << st`; commands 0x1C,
0x90 and 0x91 set `block_size` to the previous block size with bit 0 cleared
when `st = 1` and leave it unchanged when `st = 0`; in every case
`left_till_irq` is loaded with the new block size. -/
theorem legacy_block_size_policy (h : Host) (s : SB16State) (b0 b1 : Nat)
    (hidle : s.needed_bytes = 0) (hin : s.in_index = 0) (hb0 : b0 < 256) (hb1 : b1 < 256) :
    (dsp_write_cmds h s [0x14, b0, b1]).block_size =
      ((b0 : Int) + 256 * (b1 : Int) + 1)
        * (2 : Int) ^ (if s.mixer_regs 0x0e &&& 2 ≠ 0 then 1 else 0 : Nat) ∧
    (dsp_write_cmds h s [0x14, b0, b1]).left_till_irq =
      ((b0 : Int) + 256 * (b1 : Int) + 1)
        * (2 : Int) ^ (if s.mixer_regs 0x0e &&& 2 ≠ 0 then 1 else 0 : Nat) ∧
    ∀ c : Nat, c = 0x1c ∨ c = 0x90 ∨ c = 0x91 →
      (dsp_write_cmds h s [c]).block_size =
        (if s.mixer_regs 0x0e &&& 2 ≠ 0 then s.block_size - s.block_size % 2
         else s.block_size) ∧
      (dsp_write_cmds h s [c]).left_till_irq =
        (if s.mixer_regs 0x0e &&& 2 ≠ 0 then s.block_size - s.block_size % 2
         else s.block_size) := by
  have hlen : ((((b1 % 256) <<< 8) ||| (b0 % 256)) % 65536 : Nat) = 256 * b1 + b0 := by
    rw [Nat.mod_eq_of_lt hb0, Nat.mod_eq_of_lt hb1, or_bytes b1 b0 hb0]
    exact Nat.mod_eq_of_lt (by omega)
  have h14 : (dsp_write_cmds h s [0x14, b0, b1]).block_size =
      ((b0 : Int) + 256 * (b1 : Int) + 1)
        * (2 : Int) ^ (if s.mixer_regs 0x0e &&& 2 ≠ 0 then 1 else 0 : Nat) := by
    rw [(legacy_dma_block h s b0 b1 hidle hin).2.1, hlen]
    by_cases hst : s.mixer_regs 0x0e &&& 2 ≠ 0
    · rw [if_pos hst]
      simp only [shl, b2i, bne_iff_ne, ne_eq, hst, not_false_eq_true, decide_True, if_true]
      push_cast
      show _ * (2 : Int) ^ 1 = _
      ring
    · rw [if_neg hst]
      have hst0 : s.mixer_regs 0x0e &&& 2 = 0 := not_not.mp hst
      simp only [shl, b2i, hst0, bne_self_eq_false, Bool.false_eq_true, if_false]
      push_cast
      show _ * (2 : Int) ^ 0 = _
      ring
  refine ⟨h14, ?_, ?_⟩
  · rw [(legacy_dma_block h s b0 b1 hidle hin).2.2, h14]
  · intro c hc
    obtain ⟨e1, e2⟩ := (legacy_dma_block h s b0 b1 hidle hin).1 c hc
    rw [e2, and_self, e1]
    by_cases hst : s.mixer_regs 0x0e &&& 2 ≠ 0
    · rw [if_pos hst]
      have hb : b2i (s.mixer_regs 0x0e &&& 2 != 0) = 1 := by
        simp only [b2i, bne_iff_ne, ne_eq, hst, not_false_eq_true, decide_True, if_true]
      rw [hb, land_not_one]
    · rw [if_neg hst]
      have hst0 : s.mixer_regs 0x0e &&& 2 = 0 := not_not.mp hst
      have hb : b2i (s.mixer_regs 0x0e &&& 2 != 0) = 0 := by
        simp only [b2i, hst0, bne_self_eq_false, Bool.false_eq_true, if_false]
      rw [hb, land_not_zero]

/-- Witness for C16: command 0x14 with length bytes 0xFF, 0x01 on the freshly
realised device (stereo switch clear). -/
theorem legacy_block_size_policy_witness :
    sb16_realized.needed_bytes = 0 ∧ sb16_realized.in_index = 0 ∧
    (dsp_write_cmds ideal_host sb16_realized [0x14, 0xff, 0x01]).block_size = 512 ∧
    (dsp_write_cmds ideal_host sb16_realized [0x14, 0xff, 0x01]).left_till_irq = 512 :=
  have w := legacy_block_size_policy ideal_host sb16_realized 0xff 0x01 rfl rfl
    (by decide) (by decide)
  ⟨rfl, rfl, w.1, w.2.1⟩

/-- C17: operand byte order of the two-operand commands.  From the idle state,
commands 0x41 and 0x42 take the first operand byte as the high byte: the rate
becomes `256 * b0 + b1` clamped to `[5000, 49716]`; command 0x48 takes the first
operand byte as the low byte: `block_size` and `left_till_irq` become
`b0 + 256 * b1 + 1`. -/
theorem rate_and_block_operand_order (h : Host) (s : SB16State) (b0 b1 : Nat)
    (hidle : s.needed_bytes = 0) (hin : s.in_index = 0) (hb0 : b0 < 256) (hb1 : b1 < 256) :
    (∀ c : Nat, c = 0x41 ∨ c = 0x42 →
      (dsp_write_cmds h s [c, b0, b1]).freq =
        max 5000 (min 49716 (256 * (b0 : Int) + (b1 : Int)))) ∧
    (dsp_write_cmds h s [0x48, b0, b1]).block_size = (b0 : Int) + 256 * (b1 : Int) + 1 ∧
    (dsp_write_cmds h s [0x48, b0, b1]).left_till_irq = (b0 : Int) + 256 * (b1 : Int) + 1 := by
  have hhilo : ((((b0 % 256) <<< 8) ||| (b1 % 256)) % 65536 : Nat) = 256 * b0 + b1 := by
    rw [Nat.mod_eq_of_lt hb0, Nat.mod_eq_of_lt hb1, or_bytes b0 b1 hb1]
    exact Nat.mod_eq_of_lt (by omega)
  have hlohi : ((((b1 % 256) <<< 8) ||| (b0 % 256)) % 65536 : Nat) = 256 * b1 + b0 := by
    rw [Nat.mod_eq_of_lt hb0, Nat.mod_eq_of_lt hb1, or_bytes b1 b0 hb0]
    exact Nat.mod_eq_of_lt (by omega)
  obtain ⟨r41, r42, r48, l48⟩ := write_rate_block h s b0 b1 hidle hin
  refine ⟨?_, ?_, ?_⟩
  · intro c hc
    rcases hc with rfl | rfl
    · rw [r41, hhilo, restrict_sampling_rate_eq]
      push_cast
      rfl
    · rw [r42, hhilo, restrict_sampling_rate_eq]
      push_cast
      rfl
  · rw [r48, hlohi]
    push_cast
    ring
  · rw [l48, hlohi]
    push_cast
    ring

/-- Witness for C17: rate bytes 0x56, 0x22 (22050 Hz) and block length bytes
0xFF, 0x01 on the freshly realised device. -/
theorem rate_and_block_operand_order_witness :
    sb16_realized.needed_bytes = 0 ∧ sb16_realized.in_index = 0 ∧
    (dsp_write_cmds ideal_host sb16_realized [0x41, 0x56, 0x22]).freq = 22050 ∧
    (dsp_write_cmds ideal_host sb16_realized [0x48, 0x56, 0x22]).block_size = 8791 :=
  have w := rate_and_block_operand_order ideal_host sb16_realized 0x56 0x22 rfl rfl
    (by decide) (by decide)
  ⟨rfl, rfl, w.1 0x41 (Or.inl rfl), w.2.1⟩

/-! ## Unknown opcodes -/

/-- An opcode that is neither an extended DMA command nor a case label falls
to the `default` of the switch. -/
theorem command_default (h : Host) (s : SB16State) (op : Nat)
    (hr : ¬ (op > 0xaf ∧ op < 0xd0)) (hcase : op ∉ command_cases) :
    command h s op = { s with needed_bytes := 0, cmd := -1 } := by
  simp only [command_cases, List.mem_cons, List.mem_singleton, List.not_mem_nil, or_false,
    not_or] at hcase
  unfold command
  rw [if_neg hr]
  unfold command.match_1
  simp only [hcase, dite_false]
  rfl

/-- C13: unknown opcode.  For every opcode byte outside 0xB0..0xCF that is not
a case label of the command switch, writing it to the command port in an idle
state (no operand awaited, no current command) leaves `needed_bytes` at 0, the
current command at -1 and `out_data_len` as it was, and changes nothing else:
the state after the write is the state before it. -/
theorem unknown_opcode_ignored (h : Host) (s : SB16State) (op : Nat) (hop : op < 256)
    (hr : ¬ (0xb0 ≤ op ∧ op ≤ 0xcf)) (hcase : op ∉ command_cases)
    (hidle : s.needed_bytes = 0) (hcmd : s.cmd = -1) :
    (dsp_write h s (s.port + 0x0c) op).needed_bytes = 0 ∧
    (dsp_write h s (s.port + 0x0c) op).cmd = -1 ∧
    (dsp_write h s (s.port + 0x0c) op).out_data_len = s.out_data_len ∧
    dsp_write h s (s.port + 0x0c) op = s := by
  have key : dsp_write h s (s.port + 0x0c) op = s := by
    rw [dsp_write_idle h s op hidle, Nat.mod_eq_of_lt hop,
      command_default h s op (by omega) hcase]
    cases s
    dsimp only at hidle hcmd
    subst hidle hcmd
    rfl
  rw [key]
  exact ⟨hidle, hcmd, rfl, rfl⟩

/-- Witness for C13: opcode 0x00 on the freshly realised device. -/
theorem unknown_opcode_ignored_witness :
    (0x00 : Nat) ∉ command_cases ∧ sb16_realized.needed_bytes = 0 ∧ sb16_realized.cmd = -1 ∧
    dsp_write ideal_host sb16_realized (sb16_realized.port + 0x0c) 0x00 = sb16_realized :=
  ⟨by decide, rfl, rfl,
    (unknown_opcode_ignored ideal_host sb16_realized 0x00 (by decide) (by decide) (by decide)
      rfl rfl).2.2.2⟩

/-! ## Reset port -/

/-- A write to the reset port. -/
theorem dsp_write_reset_port (h : Host) (s : SB16State) (v : Nat) :
    dsp_write h s (s.port + 0x06) v =
      if v = 0x00 then
        if s.v2x6 = 1 then { reset h s with v2x6 := 0 } else { s with v2x6 := 0 }
      else if v = 0x01 ∨ v = 0x03 then { s with v2x6 := 1 }
      else if v = 0xc6 then { s with v2x6 := 0 }
      else if v = 0xb8 then reset h s
      else if v = 0x39 then { reset h (dsp_out_data s 0x38) with v2x6 := 0x39 }
      else { s with v2x6 := v } := by
  simp [dsp_write]

/-- The state that `reset` leaves, whatever the state before. -/
theorem reset_fields (h : Host) (s : SB16State) :
    (reset h s).needed_bytes = 0 ∧ (reset h s).in_index = 0 ∧ (reset h s).cmd = -1 ∧
    (reset h s).dma_auto = 0 ∧ (reset h s).speaker = 0 ∧ (reset h s).dma_running = 0 ∧
    (reset h s).left_till_irq = 0 ∧ (reset h s).block_size = -1 ∧ (reset h s).highspeed = 0 ∧
    (reset h s).mixer_regs 0x82 = 0 ∧ (reset h s).fmt_bits = 8 ∧ (reset h s).fmt_signed = 0 ∧
    (reset h s).fmt_stereo = 0 ∧ (reset h s).freq = 11025 ∧ (reset h s).out_data_len = 1 ∧
    (reset h s).out_data 0 = 0xaa ∧ (reset h s).v2x6 = 0 :=
  ⟨rfl, rfl, rfl, rfl, rfl, rfl, rfl, rfl, rfl, rfl, rfl, rfl, rfl, rfl, rfl, rfl, rfl⟩

theorem out_stack_reset (h : Host) (s : SB16State) : out_stack (reset h s) = [0xaa] := rfl

/-- With an empty response buffer every read of the response port repeats the
byte read last. -/
theorem dsp_read_data_empty (n : Nat) (s : SB16State) (hlen : s.out_data_len = 0) :
    dsp_read_data n s = (List.replicate n s.last_read_byte, s) := by
  induction n with
  | zero => rfl
  | succ k ih =>
    rw [dsp_read_data_succ, dsp_read_response_port, if_neg (by rw [hlen]; decide)]
    dsimp only
    rw [ih]
    rfl

/-- With exactly one pending byte, the first read returns it and every later
read repeats it. -/
theorem dsp_read_data_single (n : Nat) (s : SB16State) (hlen : s.out_data_len = 1) :
    (dsp_read_data (n + 1) s).1 = List.replicate (n + 1) (s.out_data 0) := by
  rw [dsp_read_data_succ, dsp_read_response_port, if_pos (by rw [hlen]; decide)]
  dsimp only
  rw [dsp_read_data_empty n _ (by show s.out_data_len - 1 = 0; rw [hlen]; rfl)]
  dsimp only
  rw [hlen]
  rfl

/-- C19 (evaluation of the code): writing 0x39 to the reset port pushes 0x38 and
then runs `reset`, which empties the response buffer and pushes 0xAA.  From
every state, after the write the only pending response byte is 0xAA, and the
reads of the response port that follow all return 0xAA: the byte 0x38 is never
delivered. -/
theorem reset_0x39_response_lost (h : Host) (s : SB16State) (n : Nat) :
    out_stack (dsp_write h s (s.port + 0x06) 0x39) = [0xaa] ∧
    (dsp_write h s (s.port + 0x06) 0x39).out_data_len = 1 ∧
    (dsp_read_data (n + 1) (dsp_write h s (s.port + 0x06) 0x39)).1
      = List.replicate (n + 1) 0xaa := by
  rw [dsp_write_reset_port h s 0x39, if_neg (by decide), if_neg (by decide),
    if_neg (by decide), if_neg (by decide), if_pos rfl]
  exact ⟨rfl, rfl,
    dsp_read_data_single n { reset h (dsp_out_data s 0x38) with v2x6 := 0x39 } rfl⟩

/-! ## Status and acknowledge reads -/

/-- Reads of the offsets 0x0D, 0x0E and 0x0F. -/
theorem dsp_read_status_ports (s : SB16State) :
    dsp_read s (s.port + 0x0d) = (0, s) ∧
    dsp_read s (s.port + 0x0e) =
      (if s.mixer_regs 0x82 &&& 1 ≠ 0 then
        (if s.out_data_len = 0 ∨ s.highspeed ≠ 0 then 0 else 0x80,
          { s with mixer_regs := setb s.mixer_regs 0x82 (s.mixer_regs 0x82 &&& 0xfe),
                   pic := false })
       else (if s.out_data_len = 0 ∨ s.highspeed ≠ 0 then 0 else 0x80, s)) ∧
    dsp_read s (s.port + 0x0f) =
      (if s.mixer_regs 0x82 &&& 2 ≠ 0 then
        (0xff, { s with mixer_regs := setb s.mixer_regs 0x82 (s.mixer_regs 0x82 &&& 0xfd),
                        pic := false })
       else (0xff, s)) := by
  refine ⟨?_, ?_, ?_⟩
  · simp [dsp_read]
  · simp [dsp_read, qemu_irq_lower]
  · simp [dsp_read, qemu_irq_lower]

/-- Masking a byte with 0xFE or 0xFD clears bit 0 or bit 1 and keeps the other
bits. -/
theorem byte_clear_bit (x : Nat) (hx : x < 256) (i : Nat) :
    (x &&& 0xfe).testBit i = (decide (i ≠ 0) && x.testBit i) ∧
    (x &&& 0xfd).testBit i = (decide (i ≠ 1) && x.testBit i) := by
  rw [Nat.testBit_and, Nat.testBit_and]
  by_cases hi : i < 8
  · interval_cases i <;> simp +decide
  · have hxi : x.testBit i = false :=
      Nat.testBit_lt_two_pow (lt_of_lt_of_le hx
        (by
          have : 2 ^ 8 ≤ 2 ^ i := Nat.pow_le_pow_right (by norm_num) (by omega)
          simpa using this))
    rw [hxi]
    simp

/-- C20 (counterexample): on the device right after a reset, one response byte
is pending and high-speed mode is off, so a read of offset 0x0E returns 0x80;
the read of offset 0x0F returns 0xFF, not the status value. -/
theorem ack16_read_not_status :
    (reset ideal_host sb16_realized).out_data_len = 1 ∧
    (reset ideal_host sb16_realized).highspeed = 0 ∧
    (dsp_read (reset ideal_host sb16_realized)
      ((reset ideal_host sb16_realized).port + 0x0e)).1 = 0x80 ∧
    (dsp_read (reset ideal_host sb16_realized)
      ((reset ideal_host sb16_realized).port + 0x0f)).1 = 0xff ∧
    ¬ ((dsp_read (reset ideal_host sb16_realized)
        ((reset ideal_host sb16_realized).port + 0x0f)).1 =
      (if (reset ideal_host sb16_realized).out_data_len ≠ 0 ∧
          (reset ideal_host sb16_realized).highspeed = 0 then 0x80 else 0)) := by
  refine ⟨rfl, rfl, rfl, rfl, ?_⟩
  rw [show (dsp_read (reset ideal_host sb16_realized)
      ((reset ideal_host sb16_realized).port + 0x0f)).1 = 0xff from rfl,
    show (reset ideal_host sb16_realized).out_data_len = 1 from rfl,
    show (reset ideal_host sb16_realized).highspeed = 0 from rfl]
  decide

/-- C20 (amended): status and acknowledge reads.  In every state whose register
0x82 holds a byte, a read of offset 0x0E returns 0x80 exactly when a response
byte is pending (`out_data_len` is not 0) and high-speed mode is off, and 0
otherwise; when bit 0 of register 0x82 is set the read clears that
bit, keeping every other bit of the register, lowers the interrupt line and
changes no other field, and otherwise it changes nothing.  A read of offset
0x0F returns 0xFF whatever the state; it acknowledges in the same way with bit 1
of register 0x82.  A read of offset 0x0D returns 0 and changes nothing. -/
theorem status_ack_reads (s : SB16State) (hb : s.mixer_regs 0x82 < 256) :
    (dsp_read s (s.port + 0x0e)).1 =
      (if s.out_data_len ≠ 0 ∧ s.highspeed = 0 then 0x80 else 0) ∧
    (dsp_read s (s.port + 0x0e)).2 =
      (if s.mixer_regs 0x82 &&& 1 ≠ 0 then
        { s with mixer_regs := setb s.mixer_regs 0x82 (s.mixer_regs 0x82 &&& 0xfe),
                 pic := false }
       else s) ∧
    (∀ i : Nat, (s.mixer_regs 0x82 &&& 0xfe).testBit i =
      (decide (i ≠ 0) && (s.mixer_regs 0x82).testBit i)) ∧
    (dsp_read s (s.port + 0x0f)).1 = 0xff ∧
    (dsp_read s (s.port + 0x0f)).2 =
      (if s.mixer_regs 0x82 &&& 2 ≠ 0 then
        { s with mixer_regs := setb s.mixer_regs 0x82 (s.mixer_regs 0x82 &&& 0xfd),
                 pic := false }
       else s) ∧
    (∀ i : Nat, (s.mixer_regs 0x82 &&& 0xfd).testBit i =
      (decide (i ≠ 1) && (s.mixer_regs 0x82).testBit i)) ∧
    dsp_read s (s.port + 0x0d) = (0, s) := by
  obtain ⟨rd, re, rf⟩ := dsp_read_status_ports s
  refine ⟨?_, ?_, fun i => (byte_clear_bit _ hb i).1, ?_, ?_,
    fun i => (byte_clear_bit _ hb i).2, rd⟩
  · have hv : (dsp_read s (s.port + 0x0e)).1 =
        (if s.out_data_len = 0 ∨ s.highspeed ≠ 0 then 0 else 0x80) := by
      rw [re]
      split_ifs <;> rfl
    rw [hv]
    by_cases hl : s.out_data_len = 0
    · rw [if_pos (Or.inl hl), if_neg (fun c => c.1 hl)]
    · by_cases hh : s.highspeed = 0
      · rw [if_neg (by rintro (c | c); exact hl c; exact c hh), if_pos ⟨hl, hh⟩]
      · rw [if_pos (Or.inr hh), if_neg (fun c => hh c.2)]
  · rw [re]
    split_ifs <;> rfl
  · rw [rf]
    split_ifs <;> rfl
  · rw [rf]
    split_ifs <;> rfl

/-- Witness for C20: the freshly realised device after command 0xF2, which
pushes a response byte and raises the 8-bit acknowledgement bit. -/
theorem status_ack_reads_witness :
    (dsp_read (command ideal_host sb16_realized 0xf2)
      ((command ideal_host sb16_realized 0xf2).port + 0x0e)).1 = 0x80 ∧
    (dsp_read (command ideal_host sb16_realized 0xf2)
      ((command ideal_host sb16_realized 0xf2).port + 0x0f)).1 = 0xff :=
  have w := status_ack_reads (command ideal_host sb16_realized 0xf2) (by decide)
  ⟨w.1, w.2.2.2.1⟩

/-! ## Gain arithmetic -/

theorem vol_idx_lt (r : Nat) : vol_idx r < 32 :=
  Nat.and_lt_two_pow _ (show 0x1f < 2 ^ 5 by norm_num)

/-- The gain table is non-decreasing and bounded by 255. -/
theorem sb16_log_vol_mono : ∀ i j : Fin 32, i ≤ j →
    sb16_log_vol.getD i.val 0 ≤ sb16_log_vol.getD j.val 0 ∧ sb16_log_vol.getD j.val 0 ≤ 255 := by
  decide

theorem sb16_log_vol_le (i : Nat) (hi : i < 32) : sb16_log_vol.getD i 0 ≤ 255 :=
  (sb16_log_vol_mono ⟨i, hi⟩ ⟨i, hi⟩ (le_refl _)).2

/-- Bounds and monotonicity of one gain `(g a * g b * K) / 65025`. -/
theorem gain_bounds (a b a' b' : Nat) (K : Int) (hK : 0 ≤ K) (ha : a ≤ a') (ha' : a' < 32)
    (hb : b ≤ b') (hb' : b' < 32) :
    0 ≤ (((sb16_log_vol.getD a 0 : Nat) : Int) * (sb16_log_vol.getD b 0 : Nat) * K).tdiv 65025 ∧
    (((sb16_log_vol.getD a 0 : Nat) : Int) * (sb16_log_vol.getD b 0 : Nat) * K).tdiv 65025 ≤ K ∧
    ((sb16_log_vol.getD a 0 : Nat) : Int) * (sb16_log_vol.getD b 0 : Nat) * K ≤ 255 * 255 * K ∧
    (((sb16_log_vol.getD a 0 : Nat) : Int) * (sb16_log_vol.getD b 0 : Nat) * K).tdiv 65025 ≤
      (((sb16_log_vol.getD a' 0 : Nat) : Int) * (sb16_log_vol.getD b' 0 : Nat) * K).tdiv 65025 := by
  have ma := sb16_log_vol_mono ⟨a, by omega⟩ ⟨a', ha'⟩ ha
  have mb := sb16_log_vol_mono ⟨b, by omega⟩ ⟨b', hb'⟩ hb
  dsimp only at ma mb
  have la := sb16_log_vol_le a (by omega)
  have lb := sb16_log_vol_le b (by omega)
  generalize sb16_log_vol.getD a 0 = x at *
  generalize sb16_log_vol.getD b 0 = y at *
  generalize sb16_log_vol.getD a' 0 = x' at *
  generalize sb16_log_vol.getD b' 0 = y' at *
  have hxy : (x : Int) * y ≤ 255 * 255 := by
    have : x * y ≤ 255 * 255 := Nat.mul_le_mul la lb
    exact_mod_cast this
  have hxy' : (x : Int) * y ≤ (x' : Int) * y' := by
    have : x * y ≤ x' * y' := Nat.mul_le_mul ma.1 mb.1
    exact_mod_cast this
  have h0 : (0 : Int) ≤ (x : Int) * y := by positivity
  have h0' : (0 : Int) ≤ (x' : Int) * y' := by positivity
  have hp : (0 : Int) ≤ (x : Int) * y * K := mul_nonneg h0 hK
  have hp' : (0 : Int) ≤ (x' : Int) * y' * K := mul_nonneg h0' hK
  have hle : (x : Int) * y * K ≤ 255 * 255 * K := mul_le_mul_of_nonneg_right hxy hK
  have hmono : (x : Int) * y * K ≤ (x' : Int) * y' * K := mul_le_mul_of_nonneg_right hxy' hK
  rw [Int.tdiv_eq_ediv hp (by norm_num), Int.tdiv_eq_ediv hp' (by norm_num)]
  refine ⟨Int.ediv_nonneg hp (by norm_num), ?_, hle, Int.ediv_le_ediv (by norm_num) hmono⟩
  calc (x : Int) * y * K / 65025 ≤ (255 * 255 * K) / 65025 := Int.ediv_le_ediv (by norm_num) hle
    _ = K := by
      rw [show (255 : Int) * 255 * K = 65025 * K by ring]
      exact Int.mul_ediv_cancel_left K (by norm_num)

theorem spec_gain_eq (rm rv : Nat) (K : Int) (hK : 0 ≤ K) :
    (((sb16_log_vol.getD (vol_idx rm) 0 : Nat) : Int) * (sb16_log_vol.getD (vol_idx rv) 0 : Nat)
      * K).tdiv 65025 = spec_gain rm rv K := by
  unfold spec_gain vol_idx
  exact Int.tdiv_eq_ediv (mul_nonneg (by positivity) hK) (by norm_num)

/-- C28: gain arithmetic.  With `g(r) = sb16_log_vol[(r >> 3) & 0x1F]`, the
main-voice gain per channel that `sb16_update_voice_volume` sets (when there is
a voice) is `(g(master) * g(voice) * 192) / 65025` and lies in `[0, 192]`; the
synth gain per channel that `sb16_update_opl_volume` computes is
`(g(master) * g(fm) * 0x8000) / 65025` and lies in `[0, 32768]`; every product
is within `[0, 255 * 255 * 32768]`, below `2 ^ 31`; the table is non-decreasing
and each gain is non-decreasing in each of its two volume indices. -/
theorem gain_arithmetic (s : SB16State) :
    sb16_update_voice_volume s =
      (if s.voice then
        some (spec_gain (s.mixer_regs 0x30) (s.mixer_regs 0x32) 192,
              spec_gain (s.mixer_regs 0x31) (s.mixer_regs 0x33) 192)
       else none) ∧
    sb16_update_opl_volume s =
      (spec_gain (s.mixer_regs 0x30) (s.mixer_regs 0x34) 0x8000,
       spec_gain (s.mixer_regs 0x31) (s.mixer_regs 0x35) 0x8000) ∧
    (∀ rm rv : Nat,
      0 ≤ spec_gain rm rv 192 ∧ spec_gain rm rv 192 ≤ 192 ∧
      0 ≤ spec_gain rm rv 0x8000 ∧ spec_gain rm rv 0x8000 ≤ 32768 ∧
      0 ≤ ((sb16_log_vol.getD (vol_idx rm) 0 : Nat) : Int) * (sb16_log_vol.getD (vol_idx rv) 0 : Nat)
        * 0x8000 ∧
      ((sb16_log_vol.getD (vol_idx rm) 0 : Nat) : Int) * (sb16_log_vol.getD (vol_idx rv) 0 : Nat)
        * 0x8000 ≤ 255 * 255 * 32768 ∧
      ((sb16_log_vol.getD (vol_idx rm) 0 : Nat) : Int) * (sb16_log_vol.getD (vol_idx rv) 0 : Nat)
        * 192 ≤ 255 * 255 * 32768 ∧
      (255 * 255 * 32768 : Int) < 2 ^ 31) ∧
    (∀ i j : Nat, i ≤ j → j < 32 → sb16_log_vol.getD i 0 ≤ sb16_log_vol.getD j 0) ∧
    (∀ (rm rv rm' rv' : Nat) (K : Int), 0 ≤ K → vol_idx rm ≤ vol_idx rm' →
      vol_idx rv ≤ vol_idx rv' → spec_gain rm rv K ≤ spec_gain rm' rv' K) := by
  refine ⟨?_, ?_, ?_, ?_, ?_⟩
  · unfold sb16_update_voice_volume
    cases hv : s.voice
    · rfl
    · simp only [Bool.not_true, Bool.false_eq_true, if_false, if_true]
      rw [spec_gain_eq _ _ 192 (by norm_num), spec_gain_eq _ _ 192 (by norm_num)]
  · unfold sb16_update_opl_volume
    dsimp only
    rw [spec_gain_eq _ _ 0x8000 (by norm_num), spec_gain_eq _ _ 0x8000 (by norm_num)]
  · intro rm rv
    have b1 := gain_bounds (vol_idx rm) (vol_idx rv) (vol_idx rm) (vol_idx rv) 192 (by norm_num)
      (le_refl _) (vol_idx_lt rm) (le_refl _) (vol_idx_lt rv)
    have b2 := gain_bounds (vol_idx rm) (vol_idx rv) (vol_idx rm) (vol_idx rv) 0x8000
      (by norm_num) (le_refl _) (vol_idx_lt rm) (le_refl _) (vol_idx_lt rv)
    rw [spec_gain_eq _ _ 192 (by norm_num)] at b1
    rw [spec_gain_eq _ _ 0x8000 (by norm_num)] at b2
    have hnn : (0 : Int) ≤ ((sb16_log_vol.getD (vol_idx rm) 0 : Nat) : Int)
        * (sb16_log_vol.getD (vol_idx rv) 0 : Nat) * 0x8000 := by positivity
    refine ⟨b1.1, b1.2.1, b2.1, b2.2.1, hnn, b2.2.2.1, ?_, by norm_num⟩
    have := b1.2.2.1
    omega
  · intro i j hij hj
    exact (sb16_log_vol_mono ⟨i, by omega⟩ ⟨j, hj⟩ hij).1
  · intro rm rv rm' rv' K hK hm hv
    have b := gain_bounds (vol_idx rm) (vol_idx rv) (vol_idx rm') (vol_idx rv') K hK
      hm (vol_idx_lt rm') hv (vol_idx_lt rv')
    rw [spec_gain_eq _ _ K hK, spec_gain_eq _ _ K hK] at b
    exact b.2.2.2

/-- Witness for C28: the gains of the freshly realised device (all volume
registers 0x20, index 4, table value 12) and their growth when the voice
register goes to 0xF8. -/
theorem gain_arithmetic_witness :
    sb16_update_opl_volume sb16_realized = (72, 72) ∧
    spec_gain 0x20 0x20 192 ≤ spec_gain 0x20 0xf8 192 :=
  ⟨(gain_arithmetic sb16_realized).2.1,
   (gain_arithmetic sb16_realized).2.2.2.2 0x20 0x20 0x20 0xf8 192 (by decide) (by decide)
     (by decide)⟩

/-! ## Mixer write frame -/

/-- The registers after a data write with an extended volume index selected:
the written cell, then the three legacy registers recomputed from their pairs. -/
theorem mixer_write_ext (s : SB16State) (v : Nat)
    (hsel : 0x30 ≤ s.mixer_nreg ∧ s.mixer_nreg ≤ 0x35) :
    (mixer_write_datab s v).mixer_regs =
      setb (setb (setb (setb s.mixer_regs s.mixer_nreg (v % 256)) 0x22
        (((setb s.mixer_regs s.mixer_nreg (v % 256) 0x30 &&& 0xf0) |||
          (setb s.mixer_regs s.mixer_nreg (v % 256) 0x31 >>> 4)) % 256)) 0x04
        (((setb s.mixer_regs s.mixer_nreg (v % 256) 0x32 &&& 0xf0) |||
          (setb s.mixer_regs s.mixer_nreg (v % 256) 0x33 >>> 4)) % 256)) 0x26
        (((setb s.mixer_regs s.mixer_nreg (v % 256) 0x34 &&& 0xf0) |||
          (setb s.mixer_regs s.mixer_nreg (v % 256) 0x35 >>> 4)) % 256) := by
  unfold mixer_write_datab
  rw [if_neg (by omega), if_neg (by omega), if_neg (by omega), if_neg (by omega), if_pos hsel]
  simp only [setb]
  funext j
  by_cases h26 : j = 0x26
  · subst h26; simp +decide
  · by_cases h04 : j = 0x04
    · subst h04; simp +decide
    · by_cases h22 : j = 0x22
      · subst h22; simp +decide
      · simp [h26, h04, h22]

/-- What a write to the extended register `e` leaves in the legacy registers:
each one is the combination of its own pair after the write. -/
theorem mixer_write_ext_legacy (s : SB16State) (v e : Nat) (he0 : 0x30 ≤ e) (he1 : e ≤ 0x35) :
    (mixer_write_datab (mixer_write_indexb s e) v).mixer_regs 0x22 =
      (((if e = 0x30 then v % 256 else s.mixer_regs 0x30) &&& 0xf0) |||
        ((if e = 0x31 then v % 256 else s.mixer_regs 0x31) >>> 4)) % 256 ∧
    (mixer_write_datab (mixer_write_indexb s e) v).mixer_regs 0x04 =
      (((if e = 0x32 then v % 256 else s.mixer_regs 0x32) &&& 0xf0) |||
        ((if e = 0x33 then v % 256 else s.mixer_regs 0x33) >>> 4)) % 256 ∧
    (mixer_write_datab (mixer_write_indexb s e) v).mixer_regs 0x26 =
      (((if e = 0x34 then v % 256 else s.mixer_regs 0x34) &&& 0xf0) |||
        ((if e = 0x35 then v % 256 else s.mixer_regs 0x35) >>> 4)) % 256 := by
  have hsel : 0x30 ≤ (mixer_write_indexb s e).mixer_nreg ∧
      (mixer_write_indexb s e).mixer_nreg ≤ 0x35 := by
    show (0x30 : Int) ≤ (e : Int) ∧ (e : Int) ≤ 0x35
    omega
  rw [mixer_write_ext _ v hsel]
  show _ = _ ∧ _ = _ ∧ _ = _
  obtain rfl | rfl | rfl | rfl | rfl | rfl : e = 0x30 ∨ e = 0x31 ∨ e = 0x32 ∨ e = 0x33 ∨
      e = 0x34 ∨ e = 0x35 := by omega
  all_goals
    simp +decide [setb, mixer_write_indexb]

/-- C29 (counterexample): right after a mixer reset the legacy registers 0x04
and 0x26 hold 0x88 while their extended pairs hold 0x20; writing 0xFF to index
0x30 (left master) changes both of them to 0x22. -/
theorem mixer_ext_write_changes_all :
    (reset_mixer sb16_realized).mixer_regs 0x04 = 0x88 ∧
    (reset_mixer sb16_realized).mixer_regs 0x26 = 0x88 ∧
    (mixer_write_datab (mixer_write_indexb (reset_mixer sb16_realized) 0x30) 0xff).mixer_regs 0x04
      = 0x22 ∧
    (mixer_write_datab (mixer_write_indexb (reset_mixer sb16_realized) 0x30) 0xff).mixer_regs 0x26
      = 0x22 ∧
    (mixer_write_datab (mixer_write_indexb (reset_mixer sb16_realized) 0x30) 0xff).mixer_regs 0x04
      ≠ (reset_mixer sb16_realized).mixer_regs 0x04 := by
  refine ⟨rfl, rfl, rfl, rfl, ?_⟩
  rw [show (mixer_write_datab (mixer_write_indexb (reset_mixer sb16_realized) 0x30)
      0xff).mixer_regs 0x04 = 0x22 from rfl,
    show (reset_mixer sb16_realized).mixer_regs 0x04 = 0x88 from rfl]
  decide

/-- C29 (amended): mixer write frame.  A write of `v` to an extended volume
register `e` (0x30..0x35) sets each of the legacy registers 0x22, 0x04 and 0x26
to the combination `(left & 0xF0) | (right >> 4)` of its own extended pair.
Hence a legacy register that is not aliased to the written pair keeps its value
whenever it equalled the combination of its pair before the write, and after
the write all three legacy registers equal the combinations of their pairs. -/
theorem mixer_ext_write_frame (s : SB16State) (v e : Nat) (he0 : 0x30 ≤ e) (he1 : e ≤ 0x35) :
    (e ≠ 0x30 → e ≠ 0x31 →
      s.mixer_regs 0x22 = ((s.mixer_regs 0x30 &&& 0xf0) ||| (s.mixer_regs 0x31 >>> 4)) % 256 →
      (mixer_write_datab (mixer_write_indexb s e) v).mixer_regs 0x22 = s.mixer_regs 0x22) ∧
    (e ≠ 0x32 → e ≠ 0x33 →
      s.mixer_regs 0x04 = ((s.mixer_regs 0x32 &&& 0xf0) ||| (s.mixer_regs 0x33 >>> 4)) % 256 →
      (mixer_write_datab (mixer_write_indexb s e) v).mixer_regs 0x04 = s.mixer_regs 0x04) ∧
    (e ≠ 0x34 → e ≠ 0x35 →
      s.mixer_regs 0x26 = ((s.mixer_regs 0x34 &&& 0xf0) ||| (s.mixer_regs 0x35 >>> 4)) % 256 →
      (mixer_write_datab (mixer_write_indexb s e) v).mixer_regs 0x26 = s.mixer_regs 0x26) ∧
    (mixer_write_datab (mixer_write_indexb s e) v).mixer_regs 0x22 =
      (((mixer_write_datab (mixer_write_indexb s e) v).mixer_regs 0x30 &&& 0xf0) |||
        ((mixer_write_datab (mixer_write_indexb s e) v).mixer_regs 0x31 >>> 4)) % 256 ∧
    (mixer_write_datab (mixer_write_indexb s e) v).mixer_regs 0x04 =
      (((mixer_write_datab (mixer_write_indexb s e) v).mixer_regs 0x32 &&& 0xf0) |||
        ((mixer_write_datab (mixer_write_indexb s e) v).mixer_regs 0x33 >>> 4)) % 256 ∧
    (mixer_write_datab (mixer_write_indexb s e) v).mixer_regs 0x26 =
      (((mixer_write_datab (mixer_write_indexb s e) v).mixer_regs 0x34 &&& 0xf0) |||
        ((mixer_write_datab (mixer_write_indexb s e) v).mixer_regs 0x35 >>> 4)) % 256 := by
  obtain ⟨r22, r04, r26⟩ := mixer_write_ext_legacy s v e he0 he1
  have hsel : 0x30 ≤ (mixer_write_indexb s e).mixer_nreg ∧
      (mixer_write_indexb s e).mixer_nreg ≤ 0x35 := by
    show (0x30 : Int) ≤ (e : Int) ∧ (e : Int) ≤ 0x35
    omega
  have hext : ∀ j : Nat, 0x30 ≤ j → j ≤ 0x35 →
      (mixer_write_datab (mixer_write_indexb s e) v).mixer_regs (j : Int) =
        if e = j then v % 256 else s.mixer_regs (j : Int) := by
    intro j hj0 hj1
    rw [mixer_write_ext _ v hsel]
    have hne26 : ((j : Nat) : Int) ≠ 0x26 := by omega
    have hne04 : ((j : Nat) : Int) ≠ 0x04 := by omega
    have hne22 : ((j : Nat) : Int) ≠ 0x22 := by omega
    rw [setb_other _ _ _ _ hne26, setb_other _ _ _ _ hne04, setb_other _ _ _ _ hne22]
    show (if ((j : Nat) : Int) = ((e : Nat) : Int) then v % 256 else s.mixer_regs (j : Int)) = _
    by_cases hje : e = j
    · rw [if_pos hje, if_pos (by rw [hje])]
    · rw [if_neg hje, if_neg (by intro hh; exact hje (by exact_mod_cast hh.symm))]
  have h30 := hext 0x30 (by norm_num) (by norm_num)
  have h31 := hext 0x31 (by norm_num) (by norm_num)
  have h32 := hext 0x32 (by norm_num) (by norm_num)
  have h33 := hext 0x33 (by norm_num) (by norm_num)
  have h34 := hext 0x34 (by norm_num) (by norm_num)
  have h35 := hext 0x35 (by norm_num) (by norm_num)
  simp only [Nat.cast_ofNat] at h30 h31 h32 h33 h34 h35
  refine ⟨?_, ?_, ?_, ?_, ?_, ?_⟩
  · intro n0 n1 hs
    rw [r22, if_neg n0, if_neg n1, ← hs]
  · intro n0 n1 hs
    rw [r04, if_neg n0, if_neg n1, ← hs]
  · intro n0 n1 hs
    rw [r26, if_neg n0, if_neg n1, ← hs]
  · rw [h30, h31, r22]
  · rw [h32, h33, r04]
  · rw [h34, h35, r26]

/-- Witness for C29: after one write to 0x30 the registers agree with their
pairs, and a second write to 0x30 keeps the legacy registers 0x04 and 0x26. -/
theorem mixer_ext_write_frame_witness :
    (mixer_write_datab (mixer_write_indexb
        (mixer_write_datab (mixer_write_indexb sb16_realized 0x30) 0xff) 0x30) 0x10).mixer_regs 0x04
      = (mixer_write_datab (mixer_write_indexb sb16_realized 0x30) 0xff).mixer_regs 0x04 :=
  (mixer_ext_write_frame (mixer_write_datab (mixer_write_indexb sb16_realized 0x30) 0xff)
    0x10 0x30 (by decide) (by decide)).2.1 (by decide) (by decide) rfl

/-! ## High-speed flag -/

/-- Completion of commands 0x41 and 0x42, as a state. -/
theorem complete_rate_state (h : Host) (s : SB16State) (hc : s.cmd = 0x41 ∨ s.cmd = 0x42) :
    complete h s =
      { (dsp_get_hilo s).2 with
          freq := restrict_sampling_rate ((dsp_get_hilo s).1 : Nat), highspeed := 1, cmd := -1 } := by
  have hne : ∀ k : Int, k ≠ 0x41 → k ≠ 0x42 → ¬ s.cmd = k := by
    intro k h1 h2 hk
    rcases hc with hc | hc
    · exact h1 (hk.symm.trans hc)
    · exact h2 (hk.symm.trans hc)
  have hr : ¬ (s.cmd > 0xaf ∧ s.cmd < 0xd0) := by
    rcases hc with hc | hc <;> rw [hc] <;> decide
  unfold complete
  rw [if_neg hr, if_neg (hne _ (by decide) (by decide)), if_neg (hne _ (by decide) (by decide)),
    if_neg (hne _ (by decide) (by decide)), if_neg (hne _ (by decide) (by decide)),
    if_neg (hne _ (by decide) (by decide)), if_neg (hne _ (by decide) (by decide)),
    if_neg (hne _ (by decide) (by decide)), if_pos hc]

/-- After command 0x41 or 0x42 and its two operand bytes, written from the idle
state, the interpreter is idle again and the high-speed flag is 1. -/
theorem write_rate_highspeed (h : Host) (s : SB16State) (c b0 b1 : Nat)
    (hidle : s.needed_bytes = 0) (hin : s.in_index = 0) (hc : c = 0x41 ∨ c = 0x42) :
    (dsp_write_cmds h s [c, b0, b1]).highspeed = 1 ∧
    (dsp_write_cmds h s [c, b0, b1]).needed_bytes = 0 ∧
    (dsp_write_cmds h s [c, b0, b1]).out_data_len = s.out_data_len := by
  rcases hc with rfl | rfl
  · rw [dsp_write_cmds_cons, dsp_write_idle h s _ hidle]
    rw [show 0x41 % 256 = 0x41 from rfl, show command h s 0x41 =
      { s with freq := -1, time_const := -1, needed_bytes := 2, cmd := 0x41 } from rfl]
    have step := collect2 h
      { s with freq := -1, time_const := -1, needed_bytes := 2, cmd := 0x41 } b0 b1 rfl hin
    rw [step, complete_rate_state h _ (Or.inl rfl)]
    exact ⟨rfl, rfl, rfl⟩
  · rw [dsp_write_cmds_cons, dsp_write_idle h s _ hidle]
    rw [show 0x42 % 256 = 0x42 from rfl, show command h s 0x42 =
      { s with freq := -1, time_const := -1, needed_bytes := 2, cmd := 0x42 } from rfl]
    have step := collect2 h
      { s with freq := -1, time_const := -1, needed_bytes := 2, cmd := 0x42 } b0 b1 rfl hin
    rw [step, complete_rate_state h _ (Or.inr rfl)]
    exact ⟨rfl, rfl, rfl⟩

/-- Command 0xE1 leaves the high-speed flag as it was. -/
theorem command_e1_highspeed (h : Host) (s : SB16State) :
    (command h s 0xe1).highspeed = s.highspeed := rfl

/-- In high-speed mode the status read returns 0. -/
theorem status_read_highspeed (s : SB16State) (hh : s.highspeed ≠ 0) :
    (dsp_read s (s.port + 0x0e)).1 = 0 := by
  rw [(dsp_read_status_ports s).2.1]
  split_ifs with h1 h2 h3
  · rfl
  · exact absurd (Or.inr hh) h2
  · rfl
  · exact absurd (Or.inr hh) h3

/-- C30 (counterexample): on the device right after a reset the high-speed flag
is 0; after the sequence 0x41, 0x56, 0x22, 0xE1 it is 1, three response bytes
are pending and the status read of offset 0x0E returns 0, not 0x80. -/
theorem rate_command_status_read :
    (reset ideal_host sb16_realized).highspeed = 0 ∧
    (dsp_write_cmds ideal_host (reset ideal_host sb16_realized) [0x41, 0x56, 0x22]).highspeed = 1 ∧
    (dsp_write_cmds ideal_host (reset ideal_host sb16_realized)
      [0x41, 0x56, 0x22, 0xe1]).out_data_len = 3 ∧
    (dsp_read (dsp_write_cmds ideal_host (reset ideal_host sb16_realized) [0x41, 0x56, 0x22, 0xe1])
      ((dsp_write_cmds ideal_host (reset ideal_host sb16_realized)
        [0x41, 0x56, 0x22, 0xe1]).port + 0x0e)).1 = 0 := by
  refine ⟨rfl, rfl, rfl, rfl⟩

/-- C30 (amended): setting the sample rate enters high-speed mode.  From every
idle state, completing command 0x41 or 0x42 with any two operand bytes sets the
high-speed flag to 1 and pushes no response byte; after a following command
0xE1 the flag is still 1 and a status read of offset 0x0E returns 0. -/
theorem rate_command_sets_highspeed (h : Host) (s : SB16State) (c b0 b1 : Nat)
    (hidle : s.needed_bytes = 0) (hin : s.in_index = 0) (hc : c = 0x41 ∨ c = 0x42) :
    (dsp_write_cmds h s [c, b0, b1]).highspeed = 1 ∧
    (dsp_write_cmds h s [c, b0, b1]).out_data_len = s.out_data_len ∧
    (dsp_write_cmds h s ([c, b0, b1] ++ [0xe1])).highspeed = 1 ∧
    (dsp_read (dsp_write_cmds h s ([c, b0, b1] ++ [0xe1]))
      ((dsp_write_cmds h s ([c, b0, b1] ++ [0xe1])).port + 0x0e)).1 = 0 := by
  obtain ⟨hh, hn, hl⟩ := write_rate_highspeed h s c b0 b1 hidle hin hc
  have h4 : (dsp_write_cmds h s ([c, b0, b1] ++ [0xe1])).highspeed = 1 := by
    rw [dsp_write_cmds_append]
    generalize dsp_write_cmds h s [c, b0, b1] = t at hh hn
    rw [dsp_write_cmds_cons, dsp_write_cmds_nil, dsp_write_idle h t _ hn]
    rw [show 0xe1 % 256 = 0xe1 from rfl, command_e1_highspeed, hh]
  refine ⟨hh, hl, h4, ?_⟩
  exact status_read_highspeed _ (by rw [h4]; decide)

/-- Witness for C30: rate 22050 Hz set on the device right after a reset. -/
theorem rate_command_sets_highspeed_witness :
    (dsp_write_cmds ideal_host (reset ideal_host sb16_realized) [0x41, 0x56, 0x22]).highspeed = 1 ∧
    (dsp_read (dsp_write_cmds ideal_host (reset ideal_host sb16_realized)
        ([0x41, 0x56, 0x22] ++ [0xe1]))
      ((dsp_write_cmds ideal_host (reset ideal_host sb16_realized)
        ([0x41, 0x56, 0x22] ++ [0xe1])).port + 0x0e)).1 = 0 :=
  have w := rate_command_sets_highspeed ideal_host (reset ideal_host sb16_realized)
    0x41 0x56 0x22 rfl rfl (Or.inl rfl)
  ⟨w.1, w.2.2.2⟩

/-! ## Rate after a legacy DMA command -/

/-- C24 (counterexample): with the mixer stereo switch set (register 0x0E = 2)
and time constant 0, command 0x1C leaves the sample rate 2500, below 5000: the
clamped rate 5000 is halved for stereo. -/
theorem legacy_stereo_rate_below_minimum :
    (dsp_write_cmds ideal_host
      (mixer_write_datab (mixer_write_indexb sb16_realized 0x0e) 0x02) [0x40, 0x00, 0x1c]).freq
      = 2500 ∧
    ¬ (5000 ≤ (dsp_write_cmds ideal_host
      (mixer_write_datab (mixer_write_indexb sb16_realized 0x0e) 0x02) [0x40, 0x00, 0x1c]).freq) := by
  have e : (dsp_write_cmds ideal_host
      (mixer_write_datab (mixer_write_indexb sb16_realized 0x0e) 0x02) [0x40, 0x00, 0x1c]).freq
      = 2500 := rfl
  rw [e]
  exact ⟨rfl, by decide⟩

/-- C24 (amended): format-descriptor rate after a legacy 8-bit DMA command.
From every idle state, after command 0x14 (with its two length bytes), 0x1C,
0x90 or 0x91 the sample rate is the rate clamped to `[5000, 49716]` when the
mixer stereo switch (register 0x0E bit 1) is clear, and half the clamped rate,
within `[2500, 24858]`, when the switch is set; the rate clamped is the stored
one (11025 if it is not positive) when no time constant is set and
`(1000000 + (256 - T) / 2) / (256 - T)` for the time constant `T`. -/
theorem legacy_rate_range (h : Host) (s : SB16State) (b0 b1 : Nat) (tail : List Nat)
    (hidle : s.needed_bytes = 0) (hin : s.in_index = 0)
    (htail : tail = [0x1c] ∨ tail = [0x90] ∨ tail = [0x91] ∨ tail = [0x14, b0, b1]) :
    (s.mixer_regs 0x0e &&& 2 = 0 →
      (dsp_write_cmds h s tail).freq =
        restrict_sampling_rate
          (if s.time_const = -1 then (if s.freq ≤ 0 then 11025 else s.freq)
           else (1000000 + (256 - s.time_const).tdiv 2).tdiv (256 - s.time_const)) ∧
      5000 ≤ (dsp_write_cmds h s tail).freq ∧ (dsp_write_cmds h s tail).freq ≤ 49716) ∧
    (s.mixer_regs 0x0e &&& 2 ≠ 0 →
      (dsp_write_cmds h s tail).freq =
        restrict_sampling_rate
          (if s.time_const = -1 then (if s.freq ≤ 0 then 11025 else s.freq)
           else (1000000 + (256 - s.time_const).tdiv 2).tdiv (256 - s.time_const)) / 2 ∧
      2500 ≤ (dsp_write_cmds h s tail).freq ∧ (dsp_write_cmds h s tail).freq ≤ 24858) := by
  have e := legacy_dma_freq h s b0 b1 tail hidle hin htail
  generalize (if s.time_const = -1 then (if s.freq ≤ 0 then 11025 else s.freq)
    else (1000000 + (256 - s.time_const).tdiv 2).tdiv (256 - s.time_const)) = X at e ⊢
  have hr : 5000 ≤ restrict_sampling_rate X ∧ restrict_sampling_rate X ≤ 49716 := by
    rw [restrict_sampling_rate_eq]
    omega
  constructor
  · intro hst
    have hb : b2i (s.mixer_regs 0x0e &&& 2 != 0) = 0 := by
      simp only [b2i, hst, bne_self_eq_false, Bool.false_eq_true, if_false]
    rw [hb] at e
    have e' : (dsp_write_cmds h s tail).freq = restrict_sampling_rate X := by
      rw [e]
      show Int.shiftRight _ 0 = _
      cases restrict_sampling_rate X <;> simp [Int.shiftRight]
    rw [e']
    exact ⟨rfl, hr⟩
  · intro hst
    have hb : b2i (s.mixer_regs 0x0e &&& 2 != 0) = 1 := by
      simp only [b2i, bne_iff_ne, ne_eq, hst, not_false_eq_true, decide_True, if_true]
    rw [hb] at e
    have e' : (dsp_write_cmds h s tail).freq = restrict_sampling_rate X / 2 := by
      rw [e]
      rw [show (1 : Int).toNat = 1 from rfl, Int.shiftRight_eq_div_pow]
      rfl
    rw [e']
    refine ⟨rfl, ?_, ?_⟩ <;> omega

/-- Witness for C24: time constant 0 and command 0x1C on the freshly realised
device, whose stereo switch is clear. -/
theorem legacy_rate_range_witness :
    (dsp_write_cmds ideal_host (dsp_write_cmds ideal_host sb16_realized [0x40, 0x00]) [0x1c]).freq
      = 5000 :=
  ((legacy_rate_range ideal_host (dsp_write_cmds ideal_host sb16_realized [0x40, 0x00]) 0 0 [0x1c]
    rfl rfl (Or.inl rfl)).1 rfl).1

/-! ## ADPCM commands and the playback callback -/

/-- Fields that the block-boundary part of the callback leaves alone. -/
theorem SB_read_DMA_irq_frame (s : SB16State) (nchan : Int) :
    (SB_read_DMA_irq s nchan).adpcm_out = s.adpcm_out ∧
    (SB_read_DMA_irq s nchan).cmd = s.cmd ∧
    (SB_read_DMA_irq s nchan).needed_bytes = s.needed_bytes ∧
    (SB_read_DMA_irq s nchan).in_index = s.in_index ∧
    (SB_read_DMA_irq s nchan).audio_free = s.audio_free ∧
    (SB_read_DMA_irq s nchan).sink_bytes = s.sink_bytes := by
  unfold SB_read_DMA_irq
  by_cases hl : s.left_till_irq ≤ 0
  · rw [if_pos hl]
    dsimp only [qemu_irq_raise]
    by_cases ha : s.dma_auto = 0
    · rw [if_pos ha]; exact ⟨rfl, rfl, rfl, rfl, rfl, rfl⟩
    · rw [if_neg ha]; exact ⟨rfl, rfl, rfl, rfl, rfl, rfl⟩
  · rw [if_neg hl]; exact ⟨rfl, rfl, rfl, rfl, rfl, rfl⟩

/-- A playback callback whose active command is not 0x74 decodes nothing: the
list of decoded samples is as before; if the active command is not 0x75 either,
the codec state and the active command are as before. -/
theorem SB_read_DMA_raw (h : Host) (fuel : Nat) (s s' : SB16State) (nchan pos len p : Int)
    (hc1 : s.cmd ≠ 0x74)
    (hres : SB_read_DMA h fuel s nchan pos len = some (s', p)) :
    s'.adpcm_out = s.adpcm_out ∧
    (s.cmd ≠ 0x75 → s'.adpcm_valpred = s.adpcm_valpred ∧ s'.adpcm_index = s.adpcm_index ∧
      s'.cmd = s.cmd) := by
  by_cases hb : s.block_size ≤ 0
  · unfold SB_read_DMA at hres
    rw [if_pos hb] at hres
    have hs' := (Prod.mk.inj (Option.some.inj hres)).1
    rw [← hs']
    exact ⟨rfl, fun _ => ⟨rfl, rfl, rfl⟩⟩
  · by_cases hfree : s.voice ∧
        (if s.voice then Int.land s.audio_free (~~~ s.align) else len) ≤ 0
    · rw [SB_read_DMA_nofree h fuel s nchan pos len hb hfree] at hres
      have hs' := (Prod.mk.inj (Option.some.inj hres)).1
      rw [← hs']
      exact ⟨rfl, fun _ => ⟨rfl, rfl, rfl⟩⟩
    · rw [SB_read_DMA_copy h fuel s nchan pos len hb hfree hc1] at hres
      cases hw : write_audio h fuel pos len
          (min (min (if s.voice then Int.land s.audio_free (~~~ s.align) else len)
            (if s.left_till_irq < 0 then s.block_size else s.left_till_irq)) (len - pos)) with
      | none => rw [hw] at hres; exact absurd hres (by simp)
      | some net =>
        rw [hw] at hres
        dsimp only at hres
        by_cases hl : len = 0
        · rw [if_pos hl] at hres; exact absurd hres (by simp)
        · rw [if_neg hl] at hres
          have hs' := (Prod.mk.inj (Option.some.inj hres)).1
          have hfr := SB_read_DMA_irq_frame
            { s with left_till_irq :=
                         (if s.left_till_irq < 0 then s.block_size else s.left_till_irq) - net,
                       audio_free := s.audio_free - net,
                       sink_bytes := s.sink_bytes + net,
                       adpcm_valpred :=
                         if s.cmd = 0x75 then
                           to_int16 (shl (((h.mem pos % 256 : Nat) : Int) - 128) 8)
                         else s.adpcm_valpred,
                       adpcm_index := if s.cmd = 0x75 then 0 else s.adpcm_index,
                       cmd := if s.cmd = 0x75 then 0x74 else s.cmd } nchan
          have hcodec := SB_read_DMA_irq_codec
            { s with left_till_irq :=
                         (if s.left_till_irq < 0 then s.block_size else s.left_till_irq) - net,
                       audio_free := s.audio_free - net,
                       sink_bytes := s.sink_bytes + net,
                       adpcm_valpred :=
                         if s.cmd = 0x75 then
                           to_int16 (shl (((h.mem pos % 256 : Nat) : Int) - 128) 8)
                         else s.adpcm_valpred,
                       adpcm_index := if s.cmd = 0x75 then 0 else s.adpcm_index,
                       cmd := if s.cmd = 0x75 then 0x74 else s.cmd } nchan
          rw [hs'] at hfr hcodec
          refine ⟨hfr.1, fun hc2 => ⟨?_, ?_, ?_⟩⟩
          · rw [hcodec.1]
            show (if s.cmd = 0x75 then _ else _) = _
            rw [if_neg hc2]
          · rw [hcodec.2]
            show (if s.cmd = 0x75 then _ else _) = _
            rw [if_neg hc2]
          · rw [hfr.2.1]
            show (if s.cmd = 0x75 then _ else _) = _
            rw [if_neg hc2]

/-- Completion of command 0x74: the length is popped first, then one more
operand. -/
theorem complete_0x74_fields (h : Host) (s : SB16State) (hc : s.cmd = 0x74) :
    (complete h s).block_size = (((dsp_get_lohi s).1 : Nat) : Int) + 1 ∧
    (complete h s).adpcm_valpred = shl (to_int8 (dsp_get_data (dsp_get_lohi s).2).1) 8 ∧
    (complete h s).adpcm_index = 0 ∧
    (complete h s).cmd = -1 ∧
    (complete h s).needed_bytes = s.needed_bytes := by
  have hne : ∀ k : Int, k ≠ 0x74 → ¬ s.cmd = k := fun k h1 hk => h1 (hk.symm.trans hc)
  have hr : ¬ (s.cmd > 0xaf ∧ s.cmd < 0xd0) := by rw [hc]; decide
  have h4 : ¬ (s.cmd = 0x41 ∨ s.cmd = 0x42) := by rw [hc]; decide
  unfold complete
  rw [if_neg hr, if_neg (hne _ (by decide)), if_neg (hne _ (by decide)),
    if_neg (hne _ (by decide)), if_neg (hne _ (by decide)), if_neg (hne _ (by decide)),
    if_neg (hne _ (by decide)), if_neg (hne _ (by decide)), if_neg h4,
    if_neg (hne _ (by decide)), if_pos hc]
  exact ⟨rfl, rfl, rfl, rfl, rfl⟩

/-- Commands 0x74 and 0x75 with two operand bytes, written from the idle state:
the command completes after the second byte. -/
theorem write_adpcm_cmds (h : Host) (s : SB16State) (b0 b1 : Nat)
    (hidle : s.needed_bytes = 0) (hin : s.in_index = 0) :
    ((dsp_write_cmds h s [0x74, b0, b1]).needed_bytes = 0 ∧
     (dsp_write_cmds h s [0x74, b0, b1]).cmd = -1 ∧
     (dsp_write_cmds h s [0x74, b0, b1]).block_size =
       ((((b1 % 256) <<< 8) ||| (b0 % 256)) % 65536 : Nat) + 1 ∧
     (dsp_write_cmds h s [0x74, b0, b1]).adpcm_index = 0 ∧
     (dsp_write_cmds h s [0x74, b0, b1]).adpcm_valpred = 0) ∧
    ((dsp_write_cmds h s [0x75, b0, b1]).needed_bytes = 0 ∧
     (dsp_write_cmds h s [0x75, b0, b1]).cmd = -1 ∧
     (dsp_write_cmds h s [0x75, b0, b1]).adpcm_index = s.adpcm_index ∧
     (dsp_write_cmds h s [0x75, b0, b1]).adpcm_valpred = s.adpcm_valpred) := by
  constructor
  · rw [dsp_write_cmds_cons, dsp_write_idle h s _ hidle]
    rw [show 0x74 % 256 = 0x74 from rfl, show command h s 0x74 =
      { s with needed_bytes := 2, cmd := 0x74 } from rfl]
    have step := collect2 h { s with needed_bytes := 2, cmd := 0x74 } b0 b1 rfl hin
    rw [step]
    obtain ⟨f1, f2, f3, f4, f5⟩ := complete_0x74_fields h
      { s with needed_bytes := 0, cmd := 0x74, in_index := 2,
               in2_data := setb (setb s.in2_data 0 (b0 % 256)) 1 (b1 % 256) } rfl
    have hq : (dsp_get_data (dsp_get_lohi
        { s with needed_bytes := 0, cmd := 0x74, in_index := 2,
                 in2_data := setb (setb s.in2_data 0 (b0 % 256)) 1 (b1 % 256) }).2).1 = 0 := rfl
    rw [hq] at f2
    have hz : shl (to_int8 ((0 : Nat) : Int)) 8 = 0 := by
      unfold shl to_int8
      norm_num
    exact ⟨f5, f4, f1.trans rfl, f3, f2.trans hz⟩
  · simp only [dsp_write_cmds, List.foldl]
    rw [dsp_write_idle h s _ hidle]
    rw [show 0x75 % 256 = 0x75 from rfl, show command h s 0x75 =
      { s with needed_bytes := 2, cmd := 0x75 } from rfl]
    rw [dsp_write_command_port, dsp_write_command_port]
    cases s
    dsimp only at hidle hin
    subst hidle hin
    exact ⟨rfl, rfl, rfl, rfl⟩

/-- C21 (evaluation of the code): `command` asks for two operand bytes after
opcode 0x74, so from every idle state the command completes after the two
length bytes `b0`, `b1`: then `block_size = b0 + 256 * b1 + 1`, the step index
is 0 and the predictor is 0, because the third `dsp_get_data` of `complete`
finds the operand buffer empty.  A byte `q` written next is dispatched as a new
opcode. -/
theorem adpcm_0x74_predictor_zero (h : Host) (s : SB16State) (b0 b1 q : Nat)
    (hidle : s.needed_bytes = 0) (hin : s.in_index = 0) (hb0 : b0 < 256) (hb1 : b1 < 256) :
    (dsp_write_cmds h s [0x74, b0, b1]).needed_bytes = 0 ∧
    (dsp_write_cmds h s [0x74, b0, b1]).cmd = -1 ∧
    (dsp_write_cmds h s [0x74, b0, b1]).block_size = (b0 : Int) + 256 * (b1 : Int) + 1 ∧
    (dsp_write_cmds h s [0x74, b0, b1]).adpcm_index = 0 ∧
    (dsp_write_cmds h s [0x74, b0, b1]).adpcm_valpred = 0 ∧
    dsp_write_cmds h s ([0x74, b0, b1] ++ [q]) =
      command h (dsp_write_cmds h s [0x74, b0, b1]) (q % 256) := by
  obtain ⟨f1, f2, f3, f4, f5⟩ := (write_adpcm_cmds h s b0 b1 hidle hin).1
  have hlohi : ((((b1 % 256) <<< 8) ||| (b0 % 256)) % 65536 : Nat) = 256 * b1 + b0 := by
    rw [Nat.mod_eq_of_lt hb0, Nat.mod_eq_of_lt hb1, or_bytes b1 b0 hb0]
    exact Nat.mod_eq_of_lt (by omega)
  refine ⟨f1, f2, ?_, f4, f5, ?_⟩
  · rw [f3, hlohi]
    push_cast
    ring
  · rw [dsp_write_cmds_append]
    generalize dsp_write_cmds h s [0x74, b0, b1] = t at f1
    rw [dsp_write_cmds_cons, dsp_write_cmds_nil, dsp_write_idle h t q f1]

/-- Witness for C21: length bytes 0xFF, 0x00 and predictor parameter 0x7F on the
freshly realised device. -/
theorem adpcm_0x74_predictor_zero_witness :
    (dsp_write_cmds ideal_host sb16_realized [0x74, 0xff, 0x00]).adpcm_valpred = 0 ∧
    (dsp_write_cmds ideal_host sb16_realized [0x74, 0xff, 0x00]).cmd = -1 ∧
    dsp_write_cmds ideal_host sb16_realized ([0x74, 0xff, 0x00] ++ [0x7f]) =
      command ideal_host (dsp_write_cmds ideal_host sb16_realized [0x74, 0xff, 0x00]) (0x7f % 256) ∧
    (dsp_write_cmds ideal_host sb16_realized ([0x74, 0xff, 0x00] ++ [0x7f])).adpcm_valpred = 0 :=
  have w := adpcm_0x74_predictor_zero ideal_host sb16_realized 0xff 0x00 0x7f rfl rfl
    (by decide) (by decide)
  ⟨w.2.2.2.2.1, w.2.1, w.2.2.2.2.2, rfl⟩

/-- C22 (evaluation of the code): `complete` ends with `cmd = -1`, so from every
idle state, after 0x74 and its two operand bytes the active command is -1, not
0x74.  A playback callback that follows returns with the list of decoded
samples, the codec state and the active command as they were: it does not take
the ADPCM path. -/
theorem adpcm_0x74_not_active (h : Host) (s : SB16State) (b0 b1 : Nat)
    (hidle : s.needed_bytes = 0) (hin : s.in_index = 0) :
    (dsp_write_cmds h s [0x74, b0, b1]).cmd = -1 ∧
    ∀ (fuel : Nat) (nchan pos len p : Int) (t : SB16State),
      SB_read_DMA h fuel (dsp_write_cmds h s [0x74, b0, b1]) nchan pos len = some (t, p) →
      t.adpcm_out = (dsp_write_cmds h s [0x74, b0, b1]).adpcm_out ∧
      t.adpcm_valpred = 0 ∧ t.adpcm_index = 0 ∧ t.cmd = -1 := by
  obtain ⟨_, f2, _, f4, f5⟩ := (write_adpcm_cmds h s b0 b1 hidle hin).1
  refine ⟨f2, ?_⟩
  intro fuel nchan pos len p t hres
  have hr := SB_read_DMA_raw h fuel _ t nchan pos len p (by rw [f2]; decide) hres
  obtain ⟨g1, g2, g3⟩ := hr.2 (by rw [f2]; decide)
  exact ⟨hr.1, g1.trans f5, g2.trans f4, g3.trans f2⟩

/-- Witness for C22: block length 4 set by command 0x48, then command 0x74 with
length bytes 0x03, 0x00 on the freshly realised device; the callback over a
64-byte ring forwards 4 bytes to the sink and decodes nothing. -/
theorem adpcm_0x74_not_active_witness :
    ∃ t : SB16State,
      SB_read_DMA ideal_host 100
        (dsp_write_cmds ideal_host (dsp_write_cmds ideal_host sb16_realized [0x48, 0x03, 0x00])
          [0x74, 0x03, 0x00]) 1 0 64 = some (t, 4) ∧
      t.sink_bytes = 4 ∧ t.adpcm_out = [] ∧ t.cmd = -1 :=
  ⟨_, rfl, rfl, rfl,
    ((adpcm_0x74_not_active ideal_host
      (dsp_write_cmds ideal_host sb16_realized [0x48, 0x03, 0x00]) 0x03 0x00 rfl rfl).2
      100 1 0 64 4 _ rfl).2.2.2⟩

/-- C23 (evaluation of the code): from every idle state, after 0x75 and its two
operand bytes the active command is -1 and the codec state is as before the
command; a playback callback that follows leaves the codec state and the list
of decoded samples as they were: no reference byte seeds the codec and nothing
is decoded.  Whenever 0x75 is the active command at a callback, the chunk is
not decoded either: the list of decoded samples stays as it was. -/
theorem adpcm_0x75_not_seeded (h : Host) (s : SB16State) (b0 b1 : Nat)
    (hidle : s.needed_bytes = 0) (hin : s.in_index = 0) :
    (dsp_write_cmds h s [0x75, b0, b1]).cmd = -1 ∧
    (∀ (fuel : Nat) (nchan pos len p : Int) (t : SB16State),
      SB_read_DMA h fuel (dsp_write_cmds h s [0x75, b0, b1]) nchan pos len = some (t, p) →
      t.adpcm_out = (dsp_write_cmds h s [0x75, b0, b1]).adpcm_out ∧
      t.adpcm_valpred = s.adpcm_valpred ∧ t.adpcm_index = s.adpcm_index ∧ t.cmd = -1) ∧
    (∀ (fuel : Nat) (nchan pos len p : Int) (u t : SB16State), u.cmd = 0x75 →
      SB_read_DMA h fuel u nchan pos len = some (t, p) → t.adpcm_out = u.adpcm_out) := by
  obtain ⟨_, f2, f4, f5⟩ := (write_adpcm_cmds h s b0 b1 hidle hin).2
  refine ⟨f2, ?_, ?_⟩
  · intro fuel nchan pos len p t hres
    have hr := SB_read_DMA_raw h fuel _ t nchan pos len p (by rw [f2]; decide) hres
    obtain ⟨g1, g2, g3⟩ := hr.2 (by rw [f2]; decide)
    exact ⟨hr.1, g1.trans f5, g2.trans f4, g3.trans f2⟩
  · intro fuel nchan pos len p u t hu hres
    exact (SB_read_DMA_raw h fuel u t nchan pos len p (by rw [hu]; decide) hres).1

/-- Witness for C23: block length 4 set by command 0x48, then command 0x75 with
length bytes 0x03, 0x00 on the freshly realised device, guest memory filled
with the byte 200; the callback over a 64-byte ring forwards 4 bytes, returns
position 4 and leaves the predictor 0. -/
theorem adpcm_0x75_not_seeded_witness :
    ∃ t : SB16State,
      SB_read_DMA { ideal_host with mem := fun _ => 200 } 100
        (dsp_write_cmds { ideal_host with mem := fun _ => 200 }
          (dsp_write_cmds { ideal_host with mem := fun _ => 200 } sb16_realized [0x48, 0x03, 0x00])
          [0x75, 0x03, 0x00]) 1 0 64 = some (t, 4) ∧
      t.sink_bytes = 4 ∧ t.adpcm_out = [] ∧ t.adpcm_valpred = 0 :=
  ⟨_, rfl, rfl, rfl,
    ((adpcm_0x75_not_seeded { ideal_host with mem := fun _ => 200 }
      (dsp_write_cmds { ideal_host with mem := fun _ => 200 } sb16_realized [0x48, 0x03, 0x00])
      0x03 0x00 rfl rfl).2.1 100 1 0 64 4 _ rfl).2.1⟩

/-! ## Playback callback with a bounded host -/

/-- The copy loop of `write_audio` ends within `temp + 1` iterations and copies
between 0 and `temp` bytes. -/
theorem write_audio_loop_bounded (h : Host) (hh : bounded_host h) (dma_len : Int)
    (hlen : 0 < dma_len) :
    ∀ (fuel k : Nat) (temp dma_pos net : Int),
      0 ≤ temp → temp.toNat < fuel → 0 ≤ dma_pos → dma_pos < dma_len →
      ∃ r, write_audio_loop h dma_len fuel k temp dma_pos net = some r ∧
        net ≤ r ∧ r ≤ net + temp := by
  intro fuel
  induction fuel with
  | zero => intro k temp dma_pos net h0 hf; omega
  | succ n ih =>
    intro k temp dma_pos net h0 hf hp0 hp1
    unfold write_audio_loop
    by_cases ht : temp = 0
    · rw [if_pos ht]
      exact ⟨net, rfl, le_refl _, by omega⟩
    · rw [if_neg ht]
      dsimp only
      have hm0 : 0 ≤ min temp (dma_len - dma_pos) := le_min h0 (by omega)
      have hmt : min temp (dma_len - dma_pos) ≤ temp := min_le_left _ _
      generalize min temp (dma_len - dma_pos) = mm at hm0 hmt
      have hm1 : mm % 2 ^ 64 ≤ mm := by omega
      have hm2 : 0 ≤ mm % 2 ^ 64 := by omega
      generalize mm % 2 ^ 64 = m at hm1 hm2
      obtain ⟨tc, htc, htc0, htc1⟩ : ∃ tc : Int, tc = (if m > 4096 then 4096 else m) ∧
          0 ≤ tc ∧ tc ≤ temp := by
        refine ⟨_, rfl, ?_, ?_⟩ <;> split_ifs <;> omega
      rw [← htc]
      have hr := hh.1 k dma_pos tc htc0
      generalize h.read_memory k dma_pos tc = c1 at hr
      have hw := hh.2 k c1 hr.1
      generalize h.AUD_write k c1 = c2 at hw
      rw [if_neg (by omega)]
      by_cases hc : c2 = 0
      · rw [if_pos hc]
        exact ⟨net + c2, rfl, by omega, by omega⟩
      · rw [if_neg hc]
        have hpos' : 0 ≤ (dma_pos + c2).tmod dma_len ∧ (dma_pos + c2).tmod dma_len < dma_len := by
          rw [Int.tmod_eq_emod (by omega) (by omega)]
          exact ⟨Int.emod_nonneg _ (by omega), Int.emod_lt_of_pos _ hlen⟩
        obtain ⟨r, hr1, hr2, hr3⟩ := ih (k + 1) (temp - c2) ((dma_pos + c2).tmod dma_len)
          (net + c2) (by omega) (by omega) hpos'.1 hpos'.2
        exact ⟨r, hr1, by omega, by omega⟩

theorem write_audio_bounded (h : Host) (hh : bounded_host h) (fuel : Nat)
    (dma_pos dma_len len : Int) (hlen : 0 < dma_len) (h0 : 0 ≤ len) (hf : len.toNat < fuel)
    (hp0 : 0 ≤ dma_pos) (hp1 : dma_pos < dma_len) :
    ∃ net, write_audio h fuel dma_pos dma_len len = some net ∧ 0 ≤ net ∧ net ≤ len := by
  unfold write_audio
  obtain ⟨r, h1, h2, h3⟩ :=
    write_audio_loop_bounded h hh dma_len hlen fuel 0 len dma_pos 0 h0 hf hp0 hp1
  exact ⟨r, h1, h2, by omega⟩

/-- A decoding step changes the two codec fields only. -/
theorem decode_adpcm_4bit_frame (c : Nat) (s s' : SB16State) (a : Int)
    (hd : decode_adpcm_4bit c s = some (a, s')) :
    ∃ v i : Int, s' = { s with adpcm_valpred := v, adpcm_index := i } := by
  unfold decode_adpcm_4bit at hd
  by_cases h0 : 0 ≤ s.adpcm_index
  · rw [if_pos h0] at hd
    cases hs : step_table[s.adpcm_index.toNat]? with
    | none => rw [hs] at hd; exact absurd hd (by simp)
    | some step =>
      cases hi : index_table[c]? with
      | none => rw [hs, hi] at hd; exact absurd hd (by simp)
      | some adj =>
        rw [hs, hi] at hd
        have e := (Prod.mk.inj (Option.some.inj hd)).2
        exact ⟨_, _, e.symm⟩
  · rw [if_neg h0] at hd
    exact absurd hd (by simp)

/-- Under the codec invariant the decoding loop succeeds on bytes, keeps the
invariant, yields two samples per byte and changes the two codec fields only. -/
theorem decode_adpcm_bytes_ok :
    ∀ (l : List Nat) (s : SB16State), (∀ x ∈ l, x < 256) → codec_inv s →
      ∃ (out : List Int) (v i : Int),
        decode_adpcm_bytes l s = some (out, { s with adpcm_valpred := v, adpcm_index := i }) ∧
        codec_inv { s with adpcm_valpred := v, adpcm_index := i } ∧
        out.length = 2 * l.length := by
  intro l
  induction l with
  | nil =>
    intro s _ hinv
    exact ⟨[], s.adpcm_valpred, s.adpcm_index, rfl, hinv, rfl⟩
  | cons x xs ih =>
    intro s hx hinv
    have hx256 : x < 256 := hx x (List.mem_cons_self _ _)
    have hhi : x >>> 4 < 16 := by
      rw [Nat.shiftRight_eq_div_pow]
      have : x / 2 ^ 4 < 16 := by omega
      exact this
    have hlo : x &&& 0x0f < 16 := Nat.and_lt_two_pow _ (show 0x0f < 2 ^ 4 by norm_num)
    obtain ⟨r1, hr1, hinv1, _⟩ := decode_adpcm_4bit_inv (x >>> 4) s hhi hinv.2.2.1 hinv.2.2.2
    obtain ⟨a, s1⟩ := r1
    obtain ⟨v1, i1, e1⟩ := decode_adpcm_4bit_frame _ _ _ _ hr1
    dsimp only at hinv1
    subst e1
    obtain ⟨r2, hr2, hinv2, _⟩ := decode_adpcm_4bit_inv (x &&& 0x0f)
      { s with adpcm_valpred := v1, adpcm_index := i1 } hlo hinv1.2.2.1 hinv1.2.2.2
    obtain ⟨b, s2⟩ := r2
    obtain ⟨v2, i2, e2⟩ := decode_adpcm_4bit_frame _ _ _ _ hr2
    dsimp only at hinv2
    subst e2
    obtain ⟨out, v3, i3, hrest, hinv3, hlen3⟩ := ih
      { s with adpcm_valpred := v2, adpcm_index := i2 }
      (fun y hy => hx y (List.mem_cons_of_mem _ hy)) hinv2
    refine ⟨[a, b] ++ out, v3, i3, ?_, hinv3, ?_⟩
    · unfold decode_adpcm_bytes decode_adpcm_byte
      rw [hr1]
      dsimp only
      rw [hr2]
      dsimp only
      rw [hrest]
    · simp only [List.length_append, List.length_cons, List.length_nil, hlen3]
      omega

/-- The playback callback on the ADPCM path (the active command is 0x74). -/
theorem SB_read_DMA_adpcm (h : Host) (fuel : Nat) (s : SB16State) (nchan dma_pos dma_len : Int)
    (hb : ¬ s.block_size ≤ 0)
    (hfree : ¬ (s.voice ∧
      (if s.voice then Int.land s.audio_free (~~~ s.align) else dma_len) ≤ 0))
    (hcmd : s.cmd = 0x74) (tc : Int)
    (htc : tc = (if min (min (if s.voice then Int.land s.audio_free (~~~ s.align) else dma_len)
          (if s.left_till_irq < 0 then s.block_size else s.left_till_irq))
          (dma_len - dma_pos) > 1024 then 1024
        else min (min (if s.voice then Int.land s.audio_free (~~~ s.align) else dma_len)
          (if s.left_till_irq < 0 then s.block_size else s.left_till_irq))
          (dma_len - dma_pos))) :
    SB_read_DMA h fuel s nchan dma_pos dma_len =
      match decode_adpcm_bytes
        ((List.range (h.read_memory 0 dma_pos tc).toNat).map (fun i => h.mem (dma_pos + i) % 256))
        { s with left_till_irq :=
            if s.left_till_irq < 0 then s.block_size else s.left_till_irq } with
      | none => none
      | some (out, sd) =>
        if dma_len = 0 then none
        else
          some (SB_read_DMA_irq
            { sd with
                adpcm_out := out,
                sink_bytes := sd.sink_bytes + h.AUD_write 0 (h.read_memory 0 dma_pos tc * 4),
                adpcm_valpred :=
                  if sd.cmd = 0x75 then
                    to_int16 (shl (((h.mem dma_pos % 256 : Nat) : Int) - 128) 8)
                  else sd.adpcm_valpred,
                adpcm_index := if sd.cmd = 0x75 then 0 else sd.adpcm_index,
                cmd := if sd.cmd = 0x75 then 0x74 else sd.cmd,
                left_till_irq :=
                  sd.left_till_irq - (h.AUD_write 0 (h.read_memory 0 dma_pos tc * 4)).tdiv 4,
                audio_free :=
                  sd.audio_free - (h.AUD_write 0 (h.read_memory 0 dma_pos tc * 4)).tdiv 4 } nchan,
            ((if sd.cmd = 0x75 then (dma_pos + 1).tmod dma_len else dma_pos)
              + (h.AUD_write 0 (h.read_memory 0 dma_pos tc * 4)).tdiv 4).tmod dma_len) := by
  subst htc
  unfold SB_read_DMA
  rw [if_neg hb]
  dsimp only
  rw [if_neg hfree, if_pos hcmd]
  generalize decode_adpcm_bytes _ _ = r
  cases r with
  | none => rfl
  | some x => rfl

/-- The counter, the block size and the free count after the block-boundary
part of the callback. -/
theorem SB_read_DMA_irq_counter (s : SB16State) (nchan : Int) (hb : 0 < s.block_size) :
    (SB_read_DMA_irq s nchan).left_till_irq =
      (if s.left_till_irq ≤ 0 then s.block_size + s.left_till_irq.tmod s.block_size
       else s.left_till_irq) ∧
    (SB_read_DMA_irq s nchan).block_size = s.block_size ∧
    (SB_read_DMA_irq s nchan).audio_free = s.audio_free := by
  by_cases hl : s.left_till_irq ≤ 0
  · have e := SB_read_DMA_irq_boundary s nchan hl hb
    rw [if_pos hl]
    exact ⟨e.1, e.2.2.2.1, (SB_read_DMA_irq_frame s nchan).2.2.2.2.1⟩
  · rw [SB_read_DMA_irq_before s nchan hl, if_neg hl]
    exact ⟨rfl, rfl, rfl⟩

/-- One playback callback with a bounded host, a positive block size and room
in the sink: the callback returns; `w`, the number of units it subtracts from
the counter and from the free count, is at most the copy length
`min (min free L0) (len - pos)`; the position advances by `w` (and by one more
byte when the active command is 0x75) modulo the ring length; the counter is
reloaded at the boundary. -/
theorem SB_read_DMA_bounded (h : Host) (hh : bounded_host h) (fuel : Nat) (s : SB16State)
    (nchan pos len free L0 : Int)
    (hlen : 0 < len) (hp0 : 0 ≤ pos) (hp1 : pos < len) (hb : 0 < s.block_size)
    (hfd : free = if s.voice then Int.land s.audio_free (~~~ s.align) else len)
    (hfp : 0 < free)
    (hLd : L0 = if s.left_till_irq < 0 then s.block_size else s.left_till_irq)
    (hcodec : s.cmd = 0x74 → codec_inv s)
    (hfuel : (len - pos).toNat < fuel) :
    ∃ s' p w, SB_read_DMA h fuel s nchan pos len = some (s', p) ∧
      0 ≤ w ∧ w ≤ min (min free L0) (len - pos) ∧
      s'.audio_free = s.audio_free - w ∧
      s'.block_size = s.block_size ∧
      p = (pos + (if s.cmd = 0x75 then 1 else 0) + w) % len ∧
      s'.left_till_irq =
        (if L0 - w ≤ 0 then s.block_size + (L0 - w).tmod s.block_size else L0 - w) := by
  have hfree : ¬ (s.voice ∧
      (if s.voice then Int.land s.audio_free (~~~ s.align) else len) ≤ 0) := by
    rw [← hfd]
    intro hc
    omega
  have hL0 : 0 ≤ L0 := by
    rw [hLd]
    split_ifs <;> omega
  have hnb : ¬ s.block_size ≤ 0 := by omega
  obtain ⟨T, hT, hT0⟩ : ∃ T : Int, T = min (min free L0) (len - pos) ∧ 0 ≤ T :=
    ⟨_, rfl, le_min (le_min hfp.le hL0) (by omega)⟩
  have hT1 : T ≤ len - pos := by rw [hT]; exact min_le_right _ _
  by_cases hcmd : s.cmd = 0x74
  · obtain ⟨tc, htc, htc0, htc1⟩ : ∃ tc : Int, tc = (if T > 1024 then 1024 else T) ∧
        0 ≤ tc ∧ tc ≤ T := by
      refine ⟨_, rfl, ?_, ?_⟩ <;> split_ifs <;> omega
    have e := SB_read_DMA_adpcm h fuel s nchan pos len hnb hfree hcmd tc
      (by rw [htc, hT, hfd, hLd])
    have hr := hh.1 0 pos tc htc0
    generalize h.read_memory 0 pos tc = c1 at e hr
    have hw := hh.2 0 (c1 * 4) (by omega)
    generalize h.AUD_write 0 (c1 * 4) = bo at e hw
    have hbytes : ∀ x ∈ (List.range c1.toNat).map (fun i => h.mem (pos + i) % 256), x < 256 := by
      intro x hx
      obtain ⟨a, _, ha⟩ := List.mem_map.mp hx
      rw [← ha]
      exact Nat.mod_lt _ (by norm_num)
    obtain ⟨out, v, i, hdec, _, _⟩ := decode_adpcm_bytes_ok _
      { s with left_till_irq := if s.left_till_irq < 0 then s.block_size else s.left_till_irq }
      hbytes (hcodec hcmd)
    rw [hdec] at e
    dsimp only at e
    have h75 : ¬ s.cmd = 0x75 := by rw [hcmd]; decide
    have hl0 : ¬ len = 0 := by omega
    simp only [if_neg h75, if_neg hl0] at e
    have hwd : bo.tdiv 4 = bo / 4 := Int.tdiv_eq_ediv hw.1 (by norm_num)
    rw [hwd] at e
    have hw0 : 0 ≤ bo / 4 := by omega
    have hw1 : bo / 4 ≤ T := by omega
    generalize bo / 4 = w at e hw0 hw1
    have hcnt := SB_read_DMA_irq_counter
      { s with adpcm_out := out, sink_bytes := s.sink_bytes + bo, adpcm_valpred := v,
               adpcm_index := i, cmd := s.cmd,
               left_till_irq :=
                 (if s.left_till_irq < 0 then s.block_size else s.left_till_irq) - w,
               audio_free := s.audio_free - w } nchan hb
    refine ⟨_, _, w, e, hw0, by rw [← hT]; exact hw1, hcnt.2.2, hcnt.2.1, ?_, ?_⟩
    · rw [if_neg h75, Int.tmod_eq_emod (by omega) (by omega)]
      congr 1
      omega
    · rw [hcnt.1, hLd]
  · have e := SB_read_DMA_copy h fuel s nchan pos len hnb hfree hcmd
    rw [← hfd, ← hLd, ← hT] at e
    obtain ⟨net, hwa, hn0, hn1⟩ := write_audio_bounded h hh fuel pos len T hlen hT0
      (by omega) hp0 hp1
    rw [hwa] at e
    dsimp only at e
    rw [if_neg (by omega)] at e
    have hcnt := SB_read_DMA_irq_counter
      { s with left_till_irq := L0 - net,
               audio_free := s.audio_free - net,
               sink_bytes := s.sink_bytes + net,
               adpcm_valpred :=
                 if s.cmd = 0x75 then
                   to_int16 (shl (((h.mem pos % 256 : Nat) : Int) - 128) 8)
                 else s.adpcm_valpred,
               adpcm_index := if s.cmd = 0x75 then 0 else s.adpcm_index,
               cmd := if s.cmd = 0x75 then 0x74 else s.cmd } nchan hb
    refine ⟨_, _, net, e, hn0, by rw [← hT]; exact hn1, hcnt.2.2, hcnt.2.1, ?_, hcnt.1⟩
    by_cases h75 : s.cmd = 0x75
    · rw [if_pos h75, if_pos h75]
      have h1 : (pos + 1).tmod len = (pos + 1) % len := Int.tmod_eq_emod (by omega) (by omega)
      have h2 : 0 ≤ (pos + 1) % len := Int.emod_nonneg _ (by omega)
      rw [h1, Int.tmod_eq_emod (by omega) (by omega), Int.emod_add_emod]
    · rw [if_neg h75, if_neg h75, Int.tmod_eq_emod (by omega) (by omega)]
      congr 1
      omega

/-! ## Remaining counter and ring position -/

/-- The C remainder `r % b` of a non-positive `r` by a positive `b`. -/
theorem tmod_nonpos_range (r b : Int) (hr : r ≤ 0) (hb : 0 < b) :
    -b < r.tmod b ∧ r.tmod b ≤ 0 := by
  have hq : r.tdiv b = -((-r) / b) := by
    have h1 : r = -(-r) := by omega
    conv_lhs => rw [h1]
    rw [Int.neg_tdiv, Int.tdiv_eq_ediv (by omega) (by omega)]
  have e1 := Int.tmod_def r b
  rw [hq, mul_neg, sub_neg_eq_add] at e1
  have e2 := Int.emod_add_ediv (-r) b
  have h0 : 0 ≤ (-r) % b := Int.emod_nonneg _ (by omega)
  have h1 : (-r) % b < b := Int.emod_lt_of_pos _ hb
  generalize b * ((-r) / b) = m at e1 e2
  omega

theorem bounded_ideal_host : bounded_host ideal_host :=
  ⟨fun _ _ _ h0 => ⟨h0, le_refl _⟩, fun _ _ h0 => ⟨h0, le_refl _⟩⟩

/-- C26: remaining-counter resynchronisation.  For every playback callback
entered with `block_size > 0`, `0 <= dma_pos < dma_len` and positive aligned
sink free space, where the DMA read and the sink write each return between 0
and the requested count, the callback returns; the number `w` of units it
subtracts is between 0 and the counter `L0` in use, which is `block_size` when
the counter is negative on entry and the counter itself otherwise; at the
boundary (`r = L0 - w <= 0`) the counter becomes
`block_size + (r % block_size)`, else `L0 - w`; on return the counter is at least
1.  For every `r <= 0` the reloaded counter lies in `[1, block_size]`. -/
theorem counter_resynchronised (h : Host) (hh : bounded_host h) (fuel : Nat) (s : SB16State)
    (nchan pos len : Int)
    (hlen : 0 < len) (hp0 : 0 ≤ pos) (hp1 : pos < len) (hb : 0 < s.block_size)
    (hfree : s.voice → 0 < Int.land s.audio_free (~~~ s.align))
    (hcodec : s.cmd = 0x74 → codec_inv s)
    (hfuel : (len - pos).toNat < fuel) :
    (∃ s' p w, SB_read_DMA h fuel s nchan pos len = some (s', p) ∧
      0 ≤ w ∧ w ≤ (if s.left_till_irq < 0 then s.block_size else s.left_till_irq) ∧
      s'.audio_free = s.audio_free - w ∧
      s'.left_till_irq =
        (if (if s.left_till_irq < 0 then s.block_size else s.left_till_irq) - w ≤ 0 then
          s.block_size +
            ((if s.left_till_irq < 0 then s.block_size else s.left_till_irq) - w).tmod s.block_size
         else (if s.left_till_irq < 0 then s.block_size else s.left_till_irq) - w) ∧
      1 ≤ s'.left_till_irq) ∧
    (∀ (t : SB16State) (c : Int), 0 < t.block_size → t.left_till_irq ≤ 0 →
      (SB_read_DMA_irq t c).left_till_irq = t.block_size + t.left_till_irq.tmod t.block_size ∧
      1 ≤ (SB_read_DMA_irq t c).left_till_irq ∧
      (SB_read_DMA_irq t c).left_till_irq ≤ t.block_size) := by
  constructor
  · obtain ⟨free, hfd, hfp⟩ : ∃ free : Int,
        free = (if s.voice then Int.land s.audio_free (~~~ s.align) else len) ∧ 0 < free := by
      refine ⟨_, rfl, ?_⟩
      by_cases hv : s.voice
      · rw [if_pos hv]; exact hfree hv
      · rw [if_neg hv]; exact hlen
    obtain ⟨s', p, w, hres, hw0, hw1, haf, _, _, hl⟩ :=
      SB_read_DMA_bounded h hh fuel s nchan pos len free _ hlen hp0 hp1 hb hfd hfp rfl hcodec hfuel
    have hwL : w ≤ (if s.left_till_irq < 0 then s.block_size else s.left_till_irq) :=
      le_trans hw1 (le_trans (min_le_left _ _) (min_le_right _ _))
    refine ⟨s', p, w, hres, hw0, hwL, haf, hl, ?_⟩
    rw [hl]
    generalize (if s.left_till_irq < 0 then s.block_size else s.left_till_irq) = L0 at hwL
    by_cases hz : L0 - w ≤ 0
    · rw [if_pos hz]
      have := tmod_nonpos_range (L0 - w) s.block_size hz hb
      omega
    · rw [if_neg hz]
      omega
  · intro t c htb htl
    have e := (SB_read_DMA_irq_counter t c htb).1
    rw [if_pos htl] at e
    have := tmod_nonpos_range t.left_till_irq t.block_size htl htb
    rw [e]
    exact ⟨rfl, by omega, by omega⟩

/-- Witness for C26: block size 16 with 16 bytes left on the freshly realised
device, ring of 64 bytes at position 0. -/
theorem counter_resynchronised_witness :
    ∃ s' p, SB_read_DMA ideal_host 100
        { sb16_realized with block_size := 16, left_till_irq := 16 } 1 0 64 = some (s', p) ∧
      1 ≤ s'.left_till_irq :=
  match (counter_resynchronised ideal_host bounded_ideal_host 100
      { sb16_realized with block_size := 16, left_till_irq := 16 } 1 0 64
      (by decide) (by decide) (by decide) (by decide) (fun hv => absurd hv (by decide))
      (fun hc => absurd hc (by decide)) (by decide)).1 with
  | ⟨s', p, _, h1, _, _, _, _, h6⟩ => ⟨s', p, h1, h6⟩

/-- Completion of a command whose operands have all been collected leaves the
interpreter idle: every case of `complete` pops at least as many operands as
`command` asked for and ends with `cmd = -1`. -/
theorem complete_idle (h : Host) (s : SB16State) (n : Int) (ha : awaits s.cmd n)
    (hi : s.in_index = n) :
    (complete h s).in_index = 0 ∧ (complete h s).cmd = -1 ∧
    (complete h s).needed_bytes = s.needed_bytes := by
  unfold awaits at ha
  rcases ha with ⟨h1, h2, rfl⟩ | ⟨hc, rfl⟩ | ⟨hc, rfl⟩
  · cases s
    dsimp only at hi h1 h2
    subst hi
    unfold complete
    rw [if_pos ⟨h1, h2⟩]
    dsimp only
    split_ifs <;> exact ⟨rfl, rfl, rfl⟩
  · rcases hc with hc | hc | hc | hc | hc | hc | hc | hc <;>
    · cases s
      dsimp only at hc hi
      subst hc hi
      first
        | exact ⟨rfl, rfl, rfl⟩
        | (unfold complete
           simp +decide only [if_true, if_false]
           split_ifs <;> exact ⟨rfl, rfl, rfl⟩)
  · rcases hc with hc | hc | hc | hc | hc | hc | hc | hc | hc | hc | hc <;>
    · cases s
      dsimp only at hc hi
      subst hc hi
      first
        | exact ⟨rfl, rfl, rfl⟩
        | (unfold complete
           simp +decide only [if_true, if_false]
           split_ifs <;> exact ⟨rfl, rfl, rfl⟩)

theorem collecting_of_fields (t : SB16State) (n c : Int) (h1 : t.needed_bytes = n)
    (h2 : t.in_index = 0) (h3 : t.cmd = c) (hn : 0 < n) (ha : awaits c n) : collecting_inv t := by
  right
  rw [h1, h2, h3]
  exact ⟨le_refl 0, hn, ha⟩

/-- The interpreter state moves with the three fields `needed_bytes`,
`in_index` and `cmd`; a callback may turn the awaited opcode 0x75 into 0x74. -/
theorem collecting_inv_of_fields (s t : SB16State) (h1 : t.needed_bytes = s.needed_bytes)
    (h2 : t.in_index = s.in_index) (h3 : t.cmd = s.cmd ∨ (s.cmd = 0x75 ∧ t.cmd = 0x74))
    (hinv : collecting_inv s) : collecting_inv t := by
  unfold collecting_inv at hinv ⊢
  rw [h1, h2]
  rcases hinv with ⟨a, b, c⟩ | ⟨a, b, c⟩
  · left
    refine ⟨a, b, ?_⟩
    rcases h3 with h3 | ⟨h3, _⟩
    · rw [h3, c]
    · rw [c] at h3; exact absurd h3 (by decide)
  · right
    refine ⟨a, b, ?_⟩
    rcases h3 with h3 | ⟨h3, h4⟩
    · rw [h3]; exact c
    · rw [h4]
      rw [h3] at c
      unfold awaits at c ⊢
      omega

theorem foldl_dsp_out_data_fields (l : List Nat) (s : SB16State) :
    (l.foldl dsp_out_data s).needed_bytes = s.needed_bytes ∧
    (l.foldl dsp_out_data s).in_index = s.in_index ∧
    (l.foldl dsp_out_data s).cmd = s.cmd := by
  induction l generalizing s with
  | nil => exact ⟨rfl, rfl, rfl⟩
  | cons v vs ih =>
    rw [List.foldl_cons]
    obtain ⟨a, b, c⟩ := ih (dsp_out_data s v)
    exact ⟨a.trans rfl, b.trans rfl, c.trans rfl⟩

/-- Command 0xE3 pushes its bytes and leaves the interpreter idle. -/
theorem command_e3_fields (h : Host) (s : SB16State) :
    (command h s 0xe3).needed_bytes = 0 ∧ (command h s 0xe3).in_index = s.in_index ∧
    (command h s 0xe3).cmd = -1 := by
  rw [command_e3]
  obtain ⟨a, b, c⟩ := foldl_dsp_out_data_fields e3_bytes.reverse { s with needed_bytes := 0 }
  generalize e3_bytes.reverse.foldl dsp_out_data { s with needed_bytes := 0 } = F at a b c ⊢
  refine ⟨a, b, ?_⟩
  show (if F.needed_bytes = 0 then _ else _) = _
  rw [if_pos a]

set_option maxHeartbeats 2000000 in
/-- Opcodes without operands leave the interpreter idle. -/
theorem command_no_operand (h : Host) (s : SB16State) (op : Nat)
    (hop : op ∈ [0x03, 0x08, 0x09, 0x1c, 0x20, 0x35, 0x45, 0x47, 0x7d, 0x7f, 0x90, 0x91, 0xd0,
      0xd1, 0xd3, 0xd4, 0xd5, 0xd6, 0xd8, 0xd9, 0xda, 0xe1, 0xe3, 0xe7, 0xe8, 0xf2, 0xf3, 0xfa,
      0xfc]) :
    (command h s op).needed_bytes = 0 ∧ (command h s op).in_index = s.in_index ∧
    (command h s op).cmd = -1 := by
  by_cases he3 : op = 0xe3
  · subst he3
    exact command_e3_fields h s
  · simp only [List.mem_cons, List.mem_singleton, List.not_mem_nil, or_false] at hop
    rcases hop with rfl | rfl | rfl | rfl | rfl | rfl | rfl | rfl | rfl | rfl | rfl | rfl |
      rfl | rfl | rfl | rfl | rfl | rfl | rfl | rfl | rfl | rfl | hop | rfl | rfl | rfl | rfl |
      rfl | rfl
    all_goals first | exact absurd hop he3 | exact ⟨rfl, rfl, rfl⟩

set_option maxHeartbeats 2000000 in
/-- Opcodes with one or two operands. -/
theorem command_operands (h : Host) (s : SB16State) (op : Nat) :
    (op ∈ [0x04, 0x0f, 0x10, 0x40, 0xe0, 0xe2, 0xe4, 0xf9] →
      (command h s op).needed_bytes = 1 ∧ (command h s op).in_index = s.in_index ∧
      (command h s op).cmd = op) ∧
    (op ∈ [0x05, 0x0e, 0x14, 0x41, 0x42, 0x48, 0x74, 0x75, 0x76, 0x77, 0x80] →
      (command h s op).needed_bytes = 2 ∧ (command h s op).in_index = s.in_index ∧
      (command h s op).cmd = op) := by
  constructor
  · intro hop
    simp only [List.mem_cons, List.mem_singleton, List.not_mem_nil, or_false] at hop
    rcases hop with rfl | rfl | rfl | rfl | rfl | rfl | rfl | rfl <;> exact ⟨rfl, rfl, rfl⟩
  · intro hop
    simp only [List.mem_cons, List.mem_singleton, List.not_mem_nil, or_false] at hop
    rcases hop with rfl | rfl | rfl | rfl | rfl | rfl | rfl | rfl | rfl | rfl | rfl <;>
      exact ⟨rfl, rfl, rfl⟩

/-- From the idle state every opcode leaves the interpreter idle or collecting
the operands of an opcode that `complete` knows. -/
theorem command_inv (h : Host) (s : SB16State) (op : Nat) (hin : s.in_index = 0) :
    collecting_inv (command h s op) := by
  by_cases hr : op > 0xaf ∧ op < 0xd0
  · rw [command_dma h s op hr.1 hr.2]
    exact collecting_of_fields _ 3 op rfl hin rfl (by decide)
      (Or.inl ⟨by have := hr.1; omega, by have := hr.2; omega, rfl⟩)
  · by_cases h0 : op ∈ [0x03, 0x08, 0x09, 0x1c, 0x20, 0x35, 0x45, 0x47, 0x7d, 0x7f, 0x90, 0x91,
        0xd0, 0xd1, 0xd3, 0xd4, 0xd5, 0xd6, 0xd8, 0xd9, 0xda, 0xe1, 0xe3, 0xe7, 0xe8, 0xf2, 0xf3,
        0xfa, 0xfc]
    · obtain ⟨a, b, c⟩ := command_no_operand h s op h0
      exact Or.inl ⟨a, b.trans hin, c⟩
    · by_cases h1 : op ∈ [0x04, 0x0f, 0x10, 0x40, 0xe0, 0xe2, 0xe4, 0xf9]
      · obtain ⟨a, b, c⟩ := (command_operands h s op).1 h1
        refine collecting_of_fields _ 1 op a (b.trans hin) c (by decide) ?_
        simp only [List.mem_cons, List.mem_singleton, List.not_mem_nil, or_false] at h1
        unfold awaits
        omega
      · by_cases h2 : op ∈ [0x05, 0x0e, 0x14, 0x41, 0x42, 0x48, 0x74, 0x75, 0x76, 0x77, 0x80]
        · obtain ⟨a, b, c⟩ := (command_operands h s op).2 h2
          refine collecting_of_fields _ 2 op a (b.trans hin) c (by decide) ?_
          simp only [List.mem_cons, List.mem_singleton, List.not_mem_nil, or_false] at h2
          unfold awaits
          omega
        · have hcase : op ∉ command_cases := by
            simp only [command_cases, List.mem_cons, List.mem_singleton, List.not_mem_nil,
              or_false] at h0 h1 h2 ⊢
            omega
          rw [command_default h s op hr hcase]
          exact Or.inl ⟨rfl, hin, rfl⟩

/-- The decoding loop changes the two codec fields only. -/
theorem decode_adpcm_bytes_frame :
    ∀ (l : List Nat) (s sd : SB16State) (out : List Int),
      decode_adpcm_bytes l s = some (out, sd) →
      ∃ v i : Int, sd = { s with adpcm_valpred := v, adpcm_index := i } := by
  intro l
  induction l with
  | nil =>
    intro s sd out hd
    have e := (Prod.mk.inj (Option.some.inj hd)).2
    exact ⟨s.adpcm_valpred, s.adpcm_index, e.symm⟩
  | cons x xs ih =>
    intro s sd out hd
    unfold decode_adpcm_bytes decode_adpcm_byte at hd
    cases h1 : decode_adpcm_4bit (x >>> 4) s with
    | none => rw [h1] at hd; exact absurd hd (by simp)
    | some r1 =>
      obtain ⟨a, s1⟩ := r1
      rw [h1] at hd
      dsimp only at hd
      cases h2 : decode_adpcm_4bit (x &&& 0x0f) s1 with
      | none => rw [h2] at hd; exact absurd hd (by simp)
      | some r2 =>
        obtain ⟨b, s2⟩ := r2
        rw [h2] at hd
        dsimp only at hd
        cases h3 : decode_adpcm_bytes xs s2 with
        | none => rw [h3] at hd; exact absurd hd (by simp)
        | some r3 =>
          obtain ⟨o3, s3⟩ := r3
          rw [h3] at hd
          dsimp only at hd
          have e := (Prod.mk.inj (Option.some.inj hd)).2
          obtain ⟨v1, i1, e1⟩ := decode_adpcm_4bit_frame _ _ _ _ h1
          obtain ⟨v2, i2, e2⟩ := decode_adpcm_4bit_frame _ _ _ _ h2
          obtain ⟨v3, i3, e3⟩ := ih _ _ _ h3
          subst e1
          subst e2
          subst e3
          exact ⟨v3, i3, e.symm⟩

/-- What a playback callback does to the interpreter fields: nothing, except
that the awaited opcode 0x75 becomes 0x74. -/
theorem SB_read_DMA_fields (h : Host) (fuel : Nat) (s s' : SB16State) (nchan pos len p : Int)
    (hres : SB_read_DMA h fuel s nchan pos len = some (s', p)) :
    s'.needed_bytes = s.needed_bytes ∧ s'.in_index = s.in_index ∧
    (s'.cmd = s.cmd ∨ (s.cmd = 0x75 ∧ s'.cmd = 0x74)) := by
  by_cases hb : s.block_size ≤ 0
  · unfold SB_read_DMA at hres
    rw [if_pos hb] at hres
    have hs' := (Prod.mk.inj (Option.some.inj hres)).1
    rw [← hs']
    exact ⟨rfl, rfl, Or.inl rfl⟩
  · by_cases hfree : s.voice ∧
        (if s.voice then Int.land s.audio_free (~~~ s.align) else len) ≤ 0
    · rw [SB_read_DMA_nofree h fuel s nchan pos len hb hfree] at hres
      have hs' := (Prod.mk.inj (Option.some.inj hres)).1
      rw [← hs']
      exact ⟨rfl, rfl, Or.inl rfl⟩
    · by_cases hcmd : s.cmd = 0x74
      · rw [SB_read_DMA_adpcm h fuel s nchan pos len hb hfree hcmd _ rfl] at hres
        generalize h.read_memory 0 pos _ = c1 at hres
        cases hd : decode_adpcm_bytes
            ((List.range c1.toNat).map (fun i => h.mem (pos + i) % 256))
            { s with left_till_irq :=
                if s.left_till_irq < 0 then s.block_size else s.left_till_irq } with
        | none => rw [hd] at hres; exact absurd hres (by simp)
        | some r =>
          obtain ⟨out, sd⟩ := r
          rw [hd] at hres
          dsimp only at hres
          by_cases hl : len = 0
          · rw [if_pos hl] at hres; exact absurd hres (by simp)
          · rw [if_neg hl] at hres
            obtain ⟨v, i, e⟩ := decode_adpcm_bytes_frame _ _ _ _ hd
            subst e
            have hs' := (Prod.mk.inj (Option.some.inj hres)).1
            have h75 : ¬ s.cmd = 0x75 := by rw [hcmd]; decide
            rw [← hs']
            have hfr := SB_read_DMA_irq_frame
            refine ⟨(hfr _ nchan).2.2.1, (hfr _ nchan).2.2.2.1, Or.inl ?_⟩
            rw [(hfr _ nchan).2.1]
            show (if s.cmd = 0x75 then _ else _) = _
            rw [if_neg h75]
      · rw [SB_read_DMA_copy h fuel s nchan pos len hb hfree hcmd] at hres
        cases hw : write_audio h fuel pos len
            (min (min (if s.voice then Int.land s.audio_free (~~~ s.align) else len)
              (if s.left_till_irq < 0 then s.block_size else s.left_till_irq)) (len - pos)) with
        | none => rw [hw] at hres; exact absurd hres (by simp)
        | some net =>
          rw [hw] at hres
          dsimp only at hres
          by_cases hl : len = 0
          · rw [if_pos hl] at hres; exact absurd hres (by simp)
          · rw [if_neg hl] at hres
            have hs' := (Prod.mk.inj (Option.some.inj hres)).1
            rw [← hs']
            have hfr := SB_read_DMA_irq_frame
            refine ⟨(hfr _ nchan).2.2.1, (hfr _ nchan).2.2.2.1, ?_⟩
            rw [(hfr _ nchan).2.1]
            by_cases h75 : s.cmd = 0x75
            · right
              refine ⟨h75, ?_⟩
              show (if s.cmd = 0x75 then _ else _) = _
              rw [if_pos h75]
            · left
              show (if s.cmd = 0x75 then _ else _) = _
              rw [if_neg h75]

/-- A write to a DSP port keeps the interpreter idle or collecting. -/
theorem dsp_write_inv (h : Host) (s : SB16State) (nport val : Nat)
    (hinv : collecting_inv s) : collecting_inv (dsp_write h s nport val) := by
  have hreset : ∀ (x : SB16State) (c : Int), collecting_inv { reset h x with v2x6 := c } :=
    fun x c => Or.inl ⟨rfl, rfl, rfl⟩
  have hreset0 : ∀ x : SB16State, collecting_inv (reset h x) :=
    fun x => Or.inl ⟨rfl, rfl, rfl⟩
  have hv : ∀ c : Int, collecting_inv { s with v2x6 := c } := fun c => hinv
  unfold dsp_write
  dsimp only
  by_cases hp6 : (nport : Int) - s.port = 0x06
  · rw [if_pos hp6]
    split_ifs
    · exact hreset s 0
    · exact hv 0
    · exact hv 1
    · exact hv 0
    · exact hreset0 s
    · exact hreset _ 0x39
    · exact hv val
  · rw [if_neg hp6]
    by_cases hpc : (nport : Int) - s.port = 0x0c
    · rw [if_pos hpc]
      by_cases hn : s.needed_bytes = 0
      · rw [if_pos hn]
        rcases hinv with ⟨_, b, _⟩ | ⟨a, b, _⟩
        · exact command_inv h s _ b
        · rw [hn] at b; omega
      · rw [if_neg hn]
        by_cases h10 : s.in_index = 10
        · rw [if_pos h10]; exact hinv
        · rw [if_neg h10]
          rcases hinv with ⟨a, _, _⟩ | ⟨a, b, c⟩
          · exact absurd a hn
          · by_cases hlast : s.in_index + 1 = s.needed_bytes
            · rw [if_pos hlast]
              obtain ⟨x, y, z⟩ := complete_idle h
                { s with in2_data := setb s.in2_data s.in_index (val % 256),
                         in_index := s.in_index + 1, needed_bytes := 0 }
                s.needed_bytes c hlast
              exact Or.inl ⟨z, x, y⟩
            · rw [if_neg hlast]
              right
              exact ⟨by show 0 ≤ s.in_index + 1; omega,
                by show s.in_index + 1 < s.needed_bytes; omega, c⟩
    · rw [if_neg hpc]; exact hinv

/-- Reads of the DSP ports do not touch the interpreter. -/
theorem dsp_read_fields (s : SB16State) (nport : Nat) :
    (dsp_read s nport).2.needed_bytes = s.needed_bytes ∧
    (dsp_read s nport).2.in_index = s.in_index ∧ (dsp_read s nport).2.cmd = s.cmd := by
  unfold dsp_read
  dsimp only
  split_ifs <;> exact ⟨rfl, rfl, rfl⟩

/-- Writes to the mixer data port do not touch the interpreter. -/
theorem mixer_write_datab_fields (s : SB16State) (val : Nat) :
    (mixer_write_datab s val).needed_bytes = s.needed_bytes ∧
    (mixer_write_datab s val).in_index = s.in_index ∧
    (mixer_write_datab s val).cmd = s.cmd := by
  unfold mixer_write_datab
  dsimp only
  split_ifs <;> exact ⟨rfl, rfl, rfl⟩

/-- The capture callback does not touch the interpreter. -/
theorem SB_write_DMA_fields (wm : Int → Int → Int) (s s' : SB16State) (nchan pos len p : Int)
    (hres : SB_write_DMA wm s nchan pos len = some (s', p)) :
    s'.needed_bytes = s.needed_bytes ∧ s'.in_index = s.in_index ∧ s'.cmd = s.cmd := by
  unfold SB_write_DMA at hres
  dsimp only at hres
  by_cases hl : len = 0
  · rw [if_pos hl] at hres; exact absurd hres (by simp)
  · rw [if_neg hl] at hres
    split_ifs at hres <;>
    · have hs' := (Prod.mk.inj (Option.some.inj hres)).1
      rw [← hs']
      exact ⟨rfl, rfl, rfl⟩

/-- Every event keeps the interpreter idle or collecting. -/
theorem step_inv (h : Host) (s t : SB16State) (e : Event) (hinv : collecting_inv s)
    (hstep : step h s e = some t) : collecting_inv t := by
  cases e with
  | dsp_write nport val =>
    have e := Option.some.inj hstep
    rw [← e]
    exact dsp_write_inv h s nport val hinv
  | dsp_read nport =>
    have e := Option.some.inj hstep
    rw [← e]
    obtain ⟨a, b, c⟩ := dsp_read_fields s nport
    exact collecting_inv_of_fields s _ a b (Or.inl c) hinv
  | mixer_write_indexb val =>
    have e := Option.some.inj hstep
    rw [← e]
    exact hinv
  | mixer_write_datab val =>
    have e := Option.some.inj hstep
    rw [← e]
    obtain ⟨a, b, c⟩ := mixer_write_datab_fields s val
    exact collecting_inv_of_fields s _ a b (Or.inl c) hinv
  | mixer_read =>
    have e := Option.some.inj hstep
    rw [← e]
    exact hinv
  | SB_read_DMA fuel nchan pos len =>
    change Option.map Prod.fst (SB_read_DMA h fuel s nchan pos len) = some t at hstep
    cases hr : SB_read_DMA h fuel s nchan pos len with
    | none => rw [hr] at hstep; exact absurd hstep (by simp)
    | some r =>
      obtain ⟨s', p⟩ := r
      rw [hr] at hstep
      have e : s' = t := Option.some.inj hstep
      rw [← e]
      obtain ⟨a, b, c⟩ := SB_read_DMA_fields h fuel s s' nchan pos len p hr
      exact collecting_inv_of_fields s _ a b c hinv
  | SB_write_DMA wm nchan pos len =>
    change Option.map Prod.fst (SB_write_DMA wm s nchan pos len) = some t at hstep
    cases hr : SB_write_DMA wm s nchan pos len with
    | none => rw [hr] at hstep; exact absurd hstep (by simp)
    | some r =>
      obtain ⟨s', p⟩ := r
      rw [hr] at hstep
      have e : s' = t := Option.some.inj hstep
      rw [← e]
      obtain ⟨a, b, c⟩ := SB_write_DMA_fields wm s s' nchan pos len p hr
      exact collecting_inv_of_fields s _ a b (Or.inl c) hinv
  | SB_audio_callback free =>
    have e := Option.some.inj hstep
    rw [← e]
    exact hinv
  | aux_timer =>
    have e := Option.some.inj hstep
    rw [← e]
    exact hinv

theorem run_inv (h : Host) (es : List Event) :
    ∀ s t : SB16State, collecting_inv s → run h es s = some t → collecting_inv t := by
  induction es with
  | nil =>
    intro s t hinv hrun
    have e : s = t := Option.some.inj hrun
    rw [← e]; exact hinv
  | cons e es ih =>
    intro s t hinv hrun
    unfold run at hrun
    cases hs : step h s e with
    | none => rw [hs] at hrun; exact absurd hrun (by simp)
    | some u =>
      rw [hs] at hrun
      exact ih u t (step_inv h s u e hinv hs) hrun

/-- What the interpreter invariant says about the three fields. -/
theorem collecting_inv_fields (t : SB16State) (hinv : collecting_inv t) :
    (t.needed_bytes = 0 ∨ t.needed_bytes = 1 ∨ t.needed_bytes = 2 ∨ t.needed_bytes = 3) ∧
    (t.needed_bytes = 0 → t.in_index = 0 ∧ t.cmd = -1) ∧
    (t.needed_bytes ≠ 0 →
      0 ≤ t.in_index ∧ t.in_index < t.needed_bytes ∧ 0 ≤ t.cmd ∧ t.cmd < 256) ∧
    ¬ (t.needed_bytes ≠ 0 ∧ t.in_index = 10) := by
  unfold collecting_inv awaits at hinv
  omega

/-- C25: in every state reached from a reset, or from the realised device, by
writes and reads of the DSP ports, mixer accesses, DMA callbacks of either
direction, audio callbacks and timer expiries, `needed_bytes` is 0, 1, 2 or 3;
when it is 0 the interpreter is idle with `in_index = 0` and `cmd = -1`; when
it is not, `0 ≤ in_index < needed_bytes` and `cmd` is an opcode byte; so the
test `in_index = 10` that guards the operand buffer never succeeds while
operands are collected. -/
theorem interpreter_states (h : Host) (s0 start t : SB16State) (es : List Event)
    (hstart : start = reset h s0 ∨ start = sb16_realized)
    (hrun : run h es start = some t) :
    (t.needed_bytes = 0 ∨ t.needed_bytes = 1 ∨ t.needed_bytes = 2 ∨ t.needed_bytes = 3) ∧
    (t.needed_bytes = 0 → t.in_index = 0 ∧ t.cmd = -1) ∧
    (t.needed_bytes ≠ 0 →
      0 ≤ t.in_index ∧ t.in_index < t.needed_bytes ∧ 0 ≤ t.cmd ∧ t.cmd < 256) ∧
    ¬ (t.needed_bytes ≠ 0 ∧ t.in_index = 10) := by
  have h0 : collecting_inv start := by
    rcases hstart with e | e
    · rw [e]; exact Or.inl ⟨rfl, rfl, rfl⟩
    · rw [e]; exact Or.inl ⟨rfl, rfl, rfl⟩
  exact collecting_inv_fields t (run_inv h es start t h0 hrun)

theorem interpreter_states_witness :
    (sb16_realized = reset ideal_host sb16_realized ∨ sb16_realized = sb16_realized) ∧
    run ideal_host [Event.dsp_write 0x22c 0x41, Event.dsp_write 0x22c 0xac] sb16_realized =
      some (dsp_write ideal_host (dsp_write ideal_host sb16_realized 0x22c 0x41) 0x22c 0xac) ∧
    ((dsp_write ideal_host (dsp_write ideal_host sb16_realized 0x22c 0x41) 0x22c 0xac).needed_bytes = 0 ∨
      (dsp_write ideal_host (dsp_write ideal_host sb16_realized 0x22c 0x41) 0x22c 0xac).needed_bytes = 1 ∨
      (dsp_write ideal_host (dsp_write ideal_host sb16_realized 0x22c 0x41) 0x22c 0xac).needed_bytes = 2 ∨
      (dsp_write ideal_host (dsp_write ideal_host sb16_realized 0x22c 0x41) 0x22c 0xac).needed_bytes = 3) ∧
    ((dsp_write ideal_host (dsp_write ideal_host sb16_realized 0x22c 0x41) 0x22c 0xac).needed_bytes = 0 →
      (dsp_write ideal_host (dsp_write ideal_host sb16_realized 0x22c 0x41) 0x22c 0xac).in_index = 0 ∧
      (dsp_write ideal_host (dsp_write ideal_host sb16_realized 0x22c 0x41) 0x22c 0xac).cmd = -1) ∧
    ((dsp_write ideal_host (dsp_write ideal_host sb16_realized 0x22c 0x41) 0x22c 0xac).needed_bytes ≠ 0 →
      0 ≤ (dsp_write ideal_host (dsp_write ideal_host sb16_realized 0x22c 0x41) 0x22c 0xac).in_index ∧
      (dsp_write ideal_host (dsp_write ideal_host sb16_realized 0x22c 0x41) 0x22c 0xac).in_index <
        (dsp_write ideal_host (dsp_write ideal_host sb16_realized 0x22c 0x41) 0x22c 0xac).needed_bytes ∧
      0 ≤ (dsp_write ideal_host (dsp_write ideal_host sb16_realized 0x22c 0x41) 0x22c 0xac).cmd ∧
      (dsp_write ideal_host (dsp_write ideal_host sb16_realized 0x22c 0x41) 0x22c 0xac).cmd < 256) ∧
    ¬ ((dsp_write ideal_host (dsp_write ideal_host sb16_realized 0x22c 0x41) 0x22c 0xac).needed_bytes ≠ 0 ∧
      (dsp_write ideal_host (dsp_write ideal_host sb16_realized 0x22c 0x41) 0x22c 0xac).in_index = 10) :=
  ⟨Or.inr rfl, rfl,
    interpreter_states ideal_host sb16_realized sb16_realized
      (dsp_write ideal_host (dsp_write ideal_host sb16_realized 0x22c 0x41) 0x22c 0xac)
      [Event.dsp_write 0x22c 0x41, Event.dsp_write 0x22c 0xac] (Or.inr rfl) rfl⟩

end SB16
